import Mathlib

/-!
The `importa` build orchestrator: dependency ordering, per-module build
planning, command rendering and execution.

A shallow embedding of

* `impa::converter::topological_sort` and `impa::converter::to_clangxx_incdefs`
  (`tools/impa_converter.hpp`),
* `to_clangxx_incdefs` of `tools/convert_compile_commands.cpp`,
* `ModuleProcessor` (`modules/module_processor/module_processor.cpp`),
* `MsvcToolchain`, `ClangToolchain`, `BuildConfigurationFactory` and the option
  helpers of `modules/toolchains/toolchains.cpp`,
* `Command::to_string`, `DryRunExecutor` and `LocalExecutor`
  (`modules/executor/executor.cpp`),
* `impa::utils::split_cmd` and `impa::utils::starts_with` (`tools/impa_utils.hpp`),

followed by the properties proved about them.

Modelling conventions:

* a `std::map<std::string, T>` is the list of its entries in iteration order;
  a well-formed map has pairwise distinct keys, which theorems assume as
  `(keys).Nodup`; the iteration order is the ascending order of the keys
  (`std::less<std::string>` compares bytes, which for UTF-8 text is the order
  of `String`), which a theorem that depends on it assumes as `(keys).Sorted`;
* a read `v[i]` of a `std::vector` at an index that is not below `v.size()` is
  undefined behaviour: the run ends there with the index reported;
* a `std::map` that is only read with `operator[]`/`count`/`at` is a total
  function to the mapped type, an absent key giving the value-initialised
  element (`0`, the empty vector);
* `int` counters are `Int` (a dependency vector has fewer than `2^31` entries);
* a loop whose termination is not structural takes a bound on its iterations
  and reports separately when the bound is exhausted.
-/

namespace Importa

/-! ## `impa::parser::ModuleInfo` and the module map -/

/-- The record `impa::parser::ModuleInfo` of `impa_parser.hpp`; paths are kept
as their strings. -/
structure ModuleInfo where
  name : String
  ixx_path : String
  pcm_path : String
  include_and_defines : List String
  dependencies : List String
  deriving DecidableEq, Repr

/-- The map `std::map<std::string, parser::ModuleInfo>`: its entries in
iteration order. -/
abbrev ModuleMap := List (String × ModuleInfo)

/-- The keys of the module map, in iteration order. -/
def ModuleMap.keys (modules : ModuleMap) : List String := modules.map Prod.fst

/-! ## `impa::converter::topological_sort` -/

/-- Inner loop of the first pass (lines 29-35): for every dependency `dep` of
`name` that is a key of `modules`, `reverse_adj[dep].push_back(name)`. -/
def add_reverse_edges (modules : ModuleMap) (name : String) :
    List String → (String → List String) → (String → List String)
  | [], reverse_adj => reverse_adj
  | dep :: deps, reverse_adj =>
    if modules.keys.contains dep then
      add_reverse_edges modules name deps
        (Function.update reverse_adj dep (reverse_adj dep ++ [name]))
    else
      add_reverse_edges modules name deps reverse_adj

/-- First pass (lines 26-36) over the entries `entries` of the map:
`in_degree[name] = info.dependencies.size()` and the reverse adjacency. -/
def build_graph (modules : ModuleMap) :
    List (String × ModuleInfo) → (String → Int) × (String → List String) →
      (String → Int) × (String → List String)
  | [], g => g
  | (name, info) :: entries, g =>
    build_graph modules entries
      (Function.update g.1 name (info.dependencies.length : Int),
       add_reverse_edges modules name info.dependencies g.2)

/-- The mutable locals of the main loop (lines 38-65). -/
structure SortState where
  in_degree : String → Int
  queue : List String
  head : Nat
  sorted_order : List String

/-- Body of the loop over `reverse_adj.at(u)` (lines 58-62):
`in_degree[v]--; if (in_degree[v] == 0) queue.push_back(v);`. -/
def relax (s : SortState) (v : String) : SortState :=
  let in_degree := Function.update s.in_degree v (s.in_degree v - 1)
  if in_degree v = 0 then
    { s with in_degree := in_degree, queue := s.queue ++ [v] }
  else
    { s with in_degree := in_degree }

/-- One iteration of the main loop for `u = queue[head]` (lines 51-64). -/
def sort_step (reverse_adj : String → List String) (s : SortState) (u : String) :
    SortState :=
  (reverse_adj u).foldl relax
    { s with head := s.head + 1, sorted_order := s.sorted_order ++ [u] }

/-- The main loop `while (head < queue.size())` run for at most `fuel`
iterations; `none` when an iteration is due and the bound is used up. -/
def sort_loop (reverse_adj : String → List String) : Nat → SortState → Option SortState
  | fuel, s =>
    match s.queue[s.head]? with
    | none => some s
    | some u =>
      match fuel with
      | 0 => none
      | fuel + 1 => sort_loop reverse_adj fuel (sort_step reverse_adj s u)

/-- The state in which the main loop starts: the graph of the first pass and
the queue seeded with the keys of in-degree zero (lines 38-48). -/
def initial_state (modules : ModuleMap) : SortState :=
  let g := build_graph modules modules (fun _ => 0, fun _ => [])
  { in_degree := g.1
    queue := modules.keys.filter (fun name => g.1 name = 0)
    head := 0
    sorted_order := [] }

/-- The function `topological_sort` with the main loop bounded by `fuel`
iterations. The outer `none` says that the bound was exhausted; `some none` is
the `std::nullopt` of line 71 and `some (some order)` the order of line 74. -/
def topological_sort_fuel (fuel : Nat) (modules : ModuleMap) :
    Option (Option (List String)) :=
  let g := build_graph modules modules (fun _ => 0, fun _ => [])
  match sort_loop g.2 fuel (initial_state modules) with
  | none => none
  | some s =>
    if s.sorted_order.length ≠ modules.length then some none
    else some (some s.sorted_order)

/-- The function `topological_sort`: the main loop runs at most once per
module (`topological_sort_returns` shows the bound is never exhausted). -/
def topological_sort (modules : ModuleMap) : Option (Option (List String)) :=
  topological_sort_fuel modules.length modules

/-- `a` is a module of the map that lists `b` among its dependencies. -/
def depends_on (modules : ModuleMap) (a b : String) : Prop :=
  ∃ info, (a, info) ∈ modules ∧ b ∈ info.dependencies

instance (modules : ModuleMap) (a b : String) : Decidable (depends_on modules a b) :=
  decidable_of_iff (∃ e ∈ modules, e.1 = a ∧ b ∈ e.2.dependencies)
    ⟨fun ⟨e, he, h1, h2⟩ => ⟨e.2, by rw [← h1]; exact he, h2⟩,
     fun ⟨info, he, h2⟩ => ⟨(a, info), he, rfl, h2⟩⟩

/-- The modules `c₀, c₁, ..., cₖ` form a dependency cycle: the list is not
empty, each module depends on the next and the last depends on the first
(`c.rotate 1` is `c₁, ..., cₖ, c₀`). -/
def is_cycle (modules : ModuleMap) (c : List String) : Prop :=
  c ≠ [] ∧ ∀ p ∈ c.zip (c.rotate 1), depends_on modules p.1 p.2

instance (modules : ModuleMap) (c : List String) : Decidable (is_cycle modules c) :=
  inferInstanceAs (Decidable (c ≠ [] ∧ ∀ p ∈ c.zip (c.rotate 1), depends_on modules p.1 p.2))

/-- Shorthand for a module entry with the given name and dependencies. -/
def mk_module (name : String) (dependencies : List String) : String × ModuleInfo :=
  (name, { name := name, ixx_path := "", pcm_path := "", include_and_defines := [],
           dependencies := dependencies })

/-- The diamond `A→{}, B→{A}, C→{A}, D→{B,C}`. -/
def diamond : ModuleMap :=
  [mk_module "A" [], mk_module "B" ["A"], mk_module "C" ["A"], mk_module "D" ["B", "C"]]

/-- The two-cycle `X→{Y}, Y→{X}`. -/
def two_cycle : ModuleMap := [mk_module "X" ["Y"], mk_module "Y" ["X"]]

/-- A single module importing a name that is not a module of the map. -/
def unknown_dependency : ModuleMap := [mk_module "A" ["std"]]

/-- The invariant of the main loop. `rest` is the part of `reverse_adj.at(u)`
that the inner loop has still to visit (empty between two iterations of the
main loop). -/
structure SortInv (modules : ModuleMap) (s : SortState) (rest : List String) : Prop where
  order_eq : s.sorted_order = s.queue.take s.head
  head_le : s.head ≤ s.queue.length
  nodup : s.queue.Nodup
  sub : ∀ v ∈ s.queue, v ∈ modules.keys
  zero_iff : ∀ v info, (v, info) ∈ modules → (v ∈ s.queue ↔ s.in_degree v = 0)
  degree : ∀ v info, (v, info) ∈ modules →
    s.in_degree v =
      ((info.dependencies.filter (fun d => decide (d ∉ s.sorted_order))).length : Int) +
        (rest.count v : Int)
  before : ∀ j v info, s.queue[j]? = some v → (v, info) ∈ modules →
    ∀ d ∈ info.dependencies, d ∈ s.queue.take j
  rest_sub : ∀ v ∈ rest, v ∈ modules.keys

/-! ## `std::filesystem::path`

The pathname operations of the C++ standard library that the planner and the
toolchains use, as the library defines them on Windows, the platform of the
program (`executor.cpp` is written against `<windows.h>`): a path is kept as its
native pathname string, so that `string()` is the identity; `\` and `/` are both
directory separators and `operator/` inserts `\`; a pathname may start with a
root name, which is a drive (`X:`), a device prefix (`\\?`, `\\.`, `\??`) or a
server (`\\server`); inside a filename, what follows a colon names an alternate
data stream and takes no part in `stem()` and `extension()`. -/

/-- A `std::filesystem::path` as its native pathname. -/
abbrev path := String

/-- A directory separator: `\` or `/`. -/
def is_slash (c : Char) : Bool := c == '\\' || c == '/'

/-- A drive letter: `A`..`Z` or `a`..`z`. -/
def is_drive_letter (c : Char) : Bool :=
  (65 ≤ c.toNat && c.toNat ≤ 90) || (97 ≤ c.toNat && c.toNat ≤ 122)

/-- The pathname starts with a drive, `X:`. -/
def starts_with_drive : List Char → Bool
  | c :: d :: _ => is_drive_letter c && d == ':'
  | _ => false

/-- After a first separator, the characters `c1 c2` and the rest of the pathname
make a device prefix: `\\?\`, `\\.\` or `\??\`, followed by the end of the
pathname or by a character that is not a separator. -/
def is_device_root (c1 c2 : Char) : List Char → Bool
  | [] => false
  | [c3] => is_slash c3 && ((is_slash c1 && (c2 == '?' || c2 == '.')) || (c1 == '?' && c2 == '?'))
  | c3 :: c4 :: _ =>
    is_slash c3 && !is_slash c4 &&
      ((is_slash c1 && (c2 == '?' || c2 == '.')) || (c1 == '?' && c2 == '?'))

/-- The length of the root name of a pathname: 2 for a drive, 3 for a device
prefix, the length up to the next separator for a server (`\\server`), and 0
when there is no root name. -/
def root_name_length (cs : List Char) : Nat :=
  if starts_with_drive cs then 2
  else
    match cs with
    | c0 :: c1 :: c2 :: rest =>
      if !is_slash c0 then 0
      else if is_device_root c1 c2 rest then 3
      else if is_slash c1 && !is_slash c2 then
        3 + (rest.takeWhile (fun c => !is_slash c)).length
      else 0
    | _ => 0

/-- The index at which the relative path starts: after the root name and the
separators that follow it (the root directory). -/
def relative_path_start (cs : List Char) : Nat :=
  root_name_length cs + ((cs.drop (root_name_length cs)).takeWhile is_slash).length

/-- The test `is_absolute()`: a drive followed by a separator, or any other
root name (`X:name` and `\name` are relative). -/
def path.is_absolute (p : path) : Bool :=
  if starts_with_drive p.data then
    match p.data with
    | _ :: _ :: c :: _ => is_slash c
    | _ => false
  else decide (root_name_length p.data ≠ 0)

/-- The characters of `filename()`: what follows the last separator of the
relative path. -/
def filename_chars (cs : List Char) : List Char :=
  ((cs.drop (relative_path_start cs)).reverse.takeWhile (fun c => !is_slash c)).reverse

/-- The test `has_filename()`. -/
def path.has_filename (p : path) : Bool := !(filename_chars p.data).isEmpty

/-- The separator test of `operator/`: when the pathname is a root name only, a
separator is added after a device or server name and not after a drive or the
empty pathname; otherwise a separator is added unless the pathname ends with
one. -/
def path.needs_separator (p : path) : Bool :=
  if root_name_length p.data = p.data.length then decide (3 ≤ root_name_length p.data)
  else
    match p.data.getLast? with
    | some c => !is_slash c
    | none => false

/-- The operator `p / q`: `q` itself when `q` is absolute or has a root name
other than that of `p`; when `q` has a root directory, the root name of `p`
followed by `q` without its root name; otherwise `p`, the separator `\` when
`needs_separator`, and `q` without its root name. -/
def path.append (p q : path) : path :=
  let other_tail := q.data.drop (root_name_length q.data)
  if q.is_absolute then q
  else if root_name_length q.data ≠ 0 ∧
      p.data.take (root_name_length p.data) ≠ q.data.take (root_name_length q.data) then q
  else if (match other_tail with
      | c :: _ => is_slash c
      | [] => false) then
    String.mk (p.data.take (root_name_length p.data) ++ other_tail)
  else if p.needs_separator then p ++ "\\" ++ String.mk other_tail
  else p ++ String.mk other_tail

/-- The characters of the extension of the filename `f` (without its alternate
data stream): empty for `.` and `..`, for a filename without a period and for
one whose only period is its first character; otherwise the part of `f` from its
last period on. -/
def extension_chars (f : List Char) : List Char :=
  let ext := (f.reverse.takeWhile (fun c => c ≠ '.')).reverse
  if f = ['.'] ∨ f = ['.', '.'] then []
  else if ext.length = f.length then []
  else if ext.length + 1 = f.length then []
  else '.' :: ext

/-- The part of a filename before its first colon: the filename without the
name of an alternate data stream. -/
def stream_base (f : List Char) : List Char := f.takeWhile (fun c => c ≠ ':')

/-- The member `filename()`. -/
def path.filename (p : path) : path := String.mk (filename_chars p.data)

/-- The member `extension()`. -/
def path.extension (p : path) : path :=
  String.mk (extension_chars (stream_base (filename_chars p.data)))

/-- The member `stem()`: the filename, up to its first colon, without its
extension. -/
def path.stem (p : path) : path :=
  let f := stream_base (filename_chars p.data)
  String.mk (f.take (f.length - (extension_chars f).length))

/-- The member `replace_extension(replacement)`: the pathname is cut where the
extension of its filename starts (the name of an alternate data stream goes
with it), a period is added when the replacement is not empty and does not
start with one, and the replacement is added. -/
def path.replace_extension (p : path) (replacement : path) : path :=
  let f := filename_chars p.data
  let base := String.mk (p.data.take
    (p.data.length - f.length +
      ((stream_base f).length - (extension_chars (stream_base f)).length)))
  if replacement ≠ "" ∧ replacement.data.head? ≠ some '.' then base ++ "." ++ replacement
  else base ++ replacement

/-- The member `parent_path()`: the pathname without the filename of its
relative path and without the separators that precede that filename; the root
name and the root directory are kept. -/
def path.parent_path (p : path) : path :=
  let start := relative_path_start p.data
  let rel := p.data.drop start
  let without_filename := (rel.reverse.dropWhile (fun c => !is_slash c)).reverse
  let without_separators := (without_filename.reverse.dropWhile is_slash).reverse
  String.mk (p.data.take start ++ without_separators)

/-! ## The data model of the `executor`, `toolchains` and `module_processor` modules

The module interface files that declare these types are not among the sources;
the records below have the fields that the implementation files read and write. -/

/-- Modelled from the spec: the value type `Command` of module `executor`
(executable path, ordered arguments, optional working directory), whose
declaration is not among the sources. The working directory is a path that is
empty when none is set: `LocalExecutor::execute` tests
`command.working_directory.empty()`. -/
structure Command where
  executable : path := ""
  arguments : List String := []
  working_directory : path := ""
  deriving DecidableEq, Repr

/-- Modelled from the spec: `ModuleReference` (`name` and `ifc_path`), built by
`resolve_dependencies` as `{ dep_name, it->second }`. -/
structure ModuleReference where
  name : String
  ifc_path : path
  deriving DecidableEq, Repr

/-- Modelled from the spec: `CompileObjectArgs`, the fields that
`generate_build_plan` sets and the toolchains read. -/
structure CompileObjectArgs where
  source_file : path
  output_obj_path : path
  module_dependencies : List ModuleReference
  deriving DecidableEq, Repr

/-- Modelled from the spec: `EmitIFCArgs`, the fields that `generate_build_plan`
sets and the toolchains read. -/
structure EmitIFCArgs where
  interface_unit_path : path
  output_ifc_path : path
  module_dependencies : List ModuleReference
  deriving DecidableEq, Repr

/-- Modelled from the spec: `LinkArgs`, the fields that the toolchains read. -/
structure LinkArgs where
  object_files : List path
  output_target_path : path
  link_libraries : List String
  deriving DecidableEq, Repr

/-- Modelled from the spec: the interface `IToolchain`, three operations each
returning a `Command` or the absent result. -/
structure IToolchain where
  generate_emit_ifc_command : EmitIFCArgs → Option Command
  generate_compile_obj_command : CompileObjectArgs → Option Command
  generate_link_command : LinkArgs → Option Command

/-- Modelled from the spec: `ModuleUnit`. A module without a primary interface
has the empty path there; `dependencies` is the container in iteration order. -/
structure ModuleUnit where
  name : String
  primary_interface : path
  partitions : List path
  implementations : List path
  dependencies : List String
  deriving DecidableEq, Repr

/-- Modelled from the spec: `BuildAction`, a `Command` paired with its expected
output artifact path (built as `{ *cmd, args.output_obj_path }`). -/
structure BuildAction where
  command : Command
  expected_output_path : path
  deriving DecidableEq, Repr

/-- Modelled from the spec: `ModuleBuildPlan`; a default-constructed plan has no
action, no object path and the empty `final_ifc_path`. -/
structure ModuleBuildPlan where
  actions : List BuildAction := []
  generated_obj_paths : List path := []
  final_ifc_path : path := ""
  deriving DecidableEq, Repr

/-! ## `ModuleProcessor` -/

/-- One request made to the toolchain, with the arguments passed. -/
inductive ToolchainCall where
  | compile_obj (args : CompileObjectArgs)
  | emit_ifc (args : EmitIFCArgs)
  deriving DecidableEq, Repr

/-- What `MockToolchain::CallRecord` of `tests/module_processor.cpp` keeps of a
request: the function name and the source file. -/
def ToolchainCall.record : ToolchainCall → String × path
  | .compile_obj args => ("compile_obj", args.source_file)
  | .emit_ifc args => ("emit_ifc", args.interface_unit_path)

/-- The output path that a request asks the toolchain to produce. -/
def ToolchainCall.output_path : ToolchainCall → path
  | .compile_obj args => args.output_obj_path
  | .emit_ifc args => args.output_ifc_path

/-- The answer of the toolchain to a request. -/
def IToolchain.respond (toolchain : IToolchain) : ToolchainCall → Option Command
  | .compile_obj args => toolchain.generate_compile_obj_command args
  | .emit_ifc args => toolchain.generate_emit_ifc_command args

/-- The observable effects of planning: the requests made to the toolchain, in
order, and the text written to `std::cerr`. -/
structure Trace where
  calls : List ToolchainCall := []
  cerr : String := ""
  deriving DecidableEq, Repr

/-- The members of `ModuleProcessor`. -/
structure ModuleProcessor where
  m_module : ModuleUnit
  m_toolchain : IToolchain
  m_build_dir : path
  m_dependency_ifcs : List (String × path)
  m_module_artifact_dir : path

/-- The constructor `ModuleProcessor::ModuleProcessor` (lines 18-26):
`m_module_artifact_dir = m_build_dir / m_module.name` (the directory creation on
disk is not modelled). -/
def ModuleProcessor.construct (module_to_process : ModuleUnit) (toolchain : IToolchain)
    (build_dir : path) (dependency_ifcs : List (String × path)) : ModuleProcessor :=
  { m_module := module_to_process
    m_toolchain := toolchain
    m_build_dir := build_dir
    m_dependency_ifcs := dependency_ifcs
    m_module_artifact_dir := build_dir.append module_to_process.name }

/-- The member `get_obj_path_for_source` (lines 141-146). -/
def ModuleProcessor.get_obj_path_for_source (self : ModuleProcessor) (source_path : path) : path :=
  self.m_module_artifact_dir.append (source_path.filename.replace_extension ".obj")

/-- The loop of `resolve_dependencies` (lines 123-137) over the remaining
dependency names, with the references resolved so far. -/
def ModuleProcessor.resolve_loop (self : ModuleProcessor) :
    List String → List ModuleReference → Option (List ModuleReference) × String
  | [], resolved => (some resolved, "")
  | dep_name :: rest, resolved =>
    match self.m_dependency_ifcs.lookup dep_name with
    | none =>
      (none, "Error: While resolving dependencies for module '" ++ self.m_module.name ++
        "', could not find the interface file path for compiled module '" ++ dep_name ++
        "'.\n")
    | some ifc => self.resolve_loop rest (resolved ++ [{ name := dep_name, ifc_path := ifc }])

/-- The member `resolve_dependencies` (lines 119-139), with the text it writes
to `std::cerr`. -/
def ModuleProcessor.resolve_dependencies (self : ModuleProcessor) :
    Option (List ModuleReference) × String :=
  self.resolve_loop self.m_module.dependencies []

/-- The arguments of the compile-object request for one source (lines 44-47 and
94-97). -/
def ModuleProcessor.compile_args (self : ModuleProcessor) (resolved_deps : List ModuleReference)
    (source : path) : CompileObjectArgs :=
  { source_file := source
    output_obj_path := self.get_obj_path_for_source source
    module_dependencies := resolved_deps }

/-- The loops over the partitions (lines 42-62) and over the implementations
(lines 92-112), which differ only in the text of the diagnostic, `error_text`. -/
def ModuleProcessor.plan_sources (self : ModuleProcessor) (resolved_deps : List ModuleReference)
    (error_text : String) :
    List path → ModuleBuildPlan → Trace → Option ModuleBuildPlan × Trace
  | [], plan, trace => (some plan, trace)
  | source :: rest, plan, trace =>
    let args := self.compile_args resolved_deps source
    let trace := { trace with calls := trace.calls ++ [ToolchainCall.compile_obj args] }
    match self.m_toolchain.generate_compile_obj_command args with
    | some cmd =>
      self.plan_sources resolved_deps error_text rest
        { plan with
          actions := plan.actions ++ [{ command := cmd, expected_output_path := args.output_obj_path }]
          generated_obj_paths := plan.generated_obj_paths ++ [args.output_obj_path] }
        trace
    | none =>
      (none, { trace with cerr := trace.cerr ++ error_text ++ source ++ "'.\n" })

/-- The arguments of the emit-interface request (lines 67-70). -/
def ModuleProcessor.emit_args (self : ModuleProcessor) (resolved_deps : List ModuleReference) :
    EmitIFCArgs :=
  { interface_unit_path := self.m_module.primary_interface
    output_ifc_path := self.m_module_artifact_dir.append (self.m_module.name ++ ".ifc")
    module_dependencies := resolved_deps }

/-- Step 3 of `generate_build_plan` (lines 65-89): the primary interface. -/
def ModuleProcessor.plan_interface (self : ModuleProcessor) (resolved_deps : List ModuleReference)
    (plan : ModuleBuildPlan) (trace : Trace) : Option ModuleBuildPlan × Trace :=
  if self.m_module.primary_interface = "" then (some plan, trace)
  else
    let args := self.emit_args resolved_deps
    let plan := { plan with final_ifc_path := args.output_ifc_path }
    let trace := { trace with calls := trace.calls ++ [ToolchainCall.emit_ifc args] }
    match self.m_toolchain.generate_emit_ifc_command args with
    | some cmd =>
      (some { plan with
          actions := plan.actions ++ [{ command := cmd, expected_output_path := args.output_ifc_path }]
          generated_obj_paths := plan.generated_obj_paths ++
            [self.get_obj_path_for_source self.m_module.primary_interface] },
        trace)
    | none =>
      (none, { trace with cerr := trace.cerr ++
        "Error: Failed to generate compile command for primary interface '" ++
        self.m_module.primary_interface ++ "'.\n" })

/-- The member `generate_build_plan` (lines 28-115): the plan or the absent
result, together with the requests made to the toolchain and the diagnostics. -/
def ModuleProcessor.generate_build_plan (self : ModuleProcessor) :
    Option ModuleBuildPlan × Trace :=
  match self.resolve_dependencies with
  | (none, err) =>
    (none, { calls := [], cerr := err ++
      "Error: Could not resolve some dependencies for module '" ++ self.m_module.name ++ "'.\n" })
  | (some resolved_deps, err) =>
    match self.plan_sources resolved_deps
        "Error: Failed to generate compile command for partition '"
        self.m_module.partitions {} { calls := [], cerr := err } with
    | (none, trace) => (none, trace)
    | (some plan, trace) =>
      match self.plan_interface resolved_deps plan trace with
      | (none, trace) => (none, trace)
      | (some plan, trace) =>
        self.plan_sources resolved_deps
          "Error: Failed to generate compile command for implementation file '"
          self.m_module.implementations plan trace

/-- The toolchain `MockToolchain` of `tests/module_processor.cpp`: every
operation returns the default `Command`. -/
def MockToolchain : IToolchain :=
  { generate_emit_ifc_command := fun _ => some {}
    generate_compile_obj_command := fun _ => some {}
    generate_link_command := fun _ => some {} }

/-- The module `TestGfx` of test 2A. -/
def test_module : ModuleUnit :=
  { name := "TestGfx"
    partitions := ["gfx/renderer.ixx", "gfx/shader.cpp"]
    primary_interface := "gfx/graphics.ixx"
    implementations := ["gfx/utils.cpp"]
    dependencies := ["Core"] }

/-- The dependency mapping of test 2A. -/
def test_dependency_ifcs : List (String × path) := [("Core", "build/Core/Core.ifc")]

/-- The processor of test 2A. -/
def test_processor : ModuleProcessor :=
  ModuleProcessor.construct test_module MockToolchain "build" test_dependency_ifcs

/-- The action that the planner appends for a request: the command the
toolchain returns, paired with the requested output path; absent when the
toolchain does not support the request. -/
def IToolchain.action_of (toolchain : IToolchain) (call : ToolchainCall) : Option BuildAction :=
  (toolchain.respond call).map
    (fun cmd => { command := cmd, expected_output_path := call.output_path })

/-- A name that is a single plain path component: not empty, without a
directory separator (`/` or `\`) and without a colon (which would make a drive
or name an alternate data stream). -/
def plain_component (name : String) : Prop :=
  name ≠ "" ∧ ∀ c ∈ name.data, is_slash c = false ∧ c ≠ ':'

instance (name : String) : Decidable (plain_component name) :=
  inferInstanceAs (Decidable (name ≠ "" ∧ ∀ c ∈ name.data, is_slash c = false ∧ c ≠ ':'))

/-! ## The MSVC-style toolchain of `toolchains.cpp` -/

/-- Modelled from the spec: the enumeration `CppStandard` (the cases of the
`switch` at lines 26-37). -/
inductive CppStandard where
  | Cpp20 | Cpp23 | CppLatest
  deriving DecidableEq, Repr

/-- Modelled from the spec: the enumeration `BuildMode`. -/
inductive BuildMode where
  | Debug | Release
  deriving DecidableEq, Repr

/-- Modelled from the spec: the enumeration `OptimizationLevel`. -/
inductive OptimizationLevel where
  | O0 | O1 | O2 | O3
  deriving DecidableEq, Repr

/-- Modelled from the spec: the enumeration `DebugInfo`. -/
inductive DebugInfo where
  | None | Minimal | Full
  deriving DecidableEq, Repr

/-- Modelled from the spec: the enumeration `MsvcRuntime`. -/
inductive MsvcRuntime where
  | MultiThreadedDebugDLL | MultiThreadedDebug | MultiThreadedDLL | MultiThreaded
  deriving DecidableEq, Repr

/-- Modelled from the spec: `BuildConfiguration`, the fields that
`toolchains.cpp` reads. -/
structure BuildConfiguration where
  mode : BuildMode
  cpp_standard : CppStandard
  optimization : OptimizationLevel
  debug_info : DebugInfo
  msvc_runtime : MsvcRuntime
  defines : List String
  include_dirs : List path
  library_dirs : List path
  deriving DecidableEq, Repr

/-- The helper `add_common_msvc_compile_options` (lines 22-108): the options
derived from the configuration, appended to `args`. -/
def add_common_msvc_compile_options (args : List String) (config : BuildConfiguration) :
    List String :=
  let args := args ++
    [match config.cpp_standard with
     | .Cpp20 => "/std:c++20"
     | .Cpp23 => "/std:c++23"
     | .CppLatest => "/std:c++latest"]
  let args := args ++
    [if config.mode = .Debug then "/Od"
     else match config.optimization with
       | .O0 => "/Od"
       | .O1 => "/O1"
       | .O2 => "/O2"
       | .O3 => "/Ox"]
  let args := args ++
    (if config.debug_info = .Full then ["/Zi"]
     else if config.debug_info = .Minimal then ["/Z7"]
     else [])
  let args := args ++
    [match config.msvc_runtime with
     | .MultiThreadedDebugDLL => "/MDd"
     | .MultiThreadedDebug => "/MTd"
     | .MultiThreadedDLL => "/MD"
     | .MultiThreaded => "/MT"]
  let args := args ++ ["/EHsc", "/nologo", "/c", "/TP", "/permissive-"]
  let args := args ++ config.defines.map (fun d => "/D" ++ d)
  args ++ config.include_dirs.map (fun dir => "/I" ++ dir)

/-- The `/reference` arguments of the MSVC-style commands (lines 245-249 and
261-265): two arguments per dependency. -/
def msvc_reference_args (deps : List ModuleReference) : List String :=
  deps.flatMap (fun dep => ["/reference", dep.name ++ "=" ++ dep.ifc_path])

/-- The members of `MsvcToolchain`. -/
structure MsvcToolchain where
  m_cl_path : path
  m_link_path : path
  m_config : BuildConfiguration

/-- The member `MsvcToolchain::generate_emit_ifc_command` (lines 232-251). -/
def MsvcToolchain.generate_emit_ifc_command (self : MsvcToolchain) (args : EmitIFCArgs) :
    Option Command :=
  let arguments := add_common_msvc_compile_options [] self.m_config
  let arguments := arguments ++
    ["/interface", args.interface_unit_path, "/ifcOutput", args.output_ifc_path]
  let obj_path := args.output_ifc_path.parent_path.append (args.output_ifc_path.stem ++ ".obj")
  let arguments := arguments ++ ["/Fo:" ++ obj_path]
  some { executable := self.m_cl_path
         arguments := arguments ++ msvc_reference_args args.module_dependencies }

/-- The member `MsvcToolchain::generate_compile_obj_command` (lines 253-267). -/
def MsvcToolchain.generate_compile_obj_command (self : MsvcToolchain) (args : CompileObjectArgs) :
    Option Command :=
  let arguments := add_common_msvc_compile_options [] self.m_config
  let arguments := arguments ++ [args.source_file, "/Fo:" ++ args.output_obj_path]
  some { executable := self.m_cl_path
         arguments := arguments ++ msvc_reference_args args.module_dependencies }

/-- The member `MsvcToolchain::generate_link_command` (lines 269-299). -/
def MsvcToolchain.generate_link_command (self : MsvcToolchain) (args : LinkArgs) :
    Option Command :=
  let arguments := ["/nologo", "/OUT:" ++ args.output_target_path]
  let arguments := arguments ++
    (if self.m_config.debug_info = .Full then ["/DEBUG:FULL"] else [])
  let arguments := arguments ++
    (if self.m_config.mode = .Release ∧ self.m_config.debug_info = .Full
     then ["/OPT:REF", "/OPT:ICF"] else [])
  let arguments := arguments ++
    self.m_config.library_dirs.map (fun dir => "/LIBPATH:\"" ++ dir ++ "\"")
  let arguments := arguments ++ args.object_files
  some { executable := self.m_link_path
         arguments := arguments ++ args.link_libraries }

/-- An `MsvcToolchain` seen through the interface `IToolchain`. -/
def MsvcToolchain.toIToolchain (self : MsvcToolchain) : IToolchain :=
  { generate_emit_ifc_command := self.generate_emit_ifc_command
    generate_compile_obj_command := self.generate_compile_obj_command
    generate_link_command := self.generate_link_command }

/-- A toolchain that compiles objects like the mock and answers `unsupported` to
every emit-interface request. -/
def NoInterfaceToolchain : IToolchain :=
  { generate_emit_ifc_command := fun _ => none
    generate_compile_obj_command := fun _ => some {}
    generate_link_command := fun _ => some {} }

/-- The processor of test 2A with `NoInterfaceToolchain` in place of the mock. -/
def no_interface_processor : ModuleProcessor :=
  ModuleProcessor.construct test_module NoInterfaceToolchain "build" test_dependency_ifcs

/-- The plan that test 2A obtains. -/
def test_plan : ModuleBuildPlan :=
  { actions :=
      [{ command := {}, expected_output_path := "build\\TestGfx\\renderer.obj" },
       { command := {}, expected_output_path := "build\\TestGfx\\shader.obj" },
       { command := {}, expected_output_path := "build\\TestGfx\\TestGfx.ifc" },
       { command := {}, expected_output_path := "build\\TestGfx\\utils.obj" }]
    generated_obj_paths :=
      ["build\\TestGfx\\renderer.obj", "build\\TestGfx\\shader.obj",
       "build\\TestGfx\\graphics.obj", "build\\TestGfx\\utils.obj"]
    final_ifc_path := "build\\TestGfx\\TestGfx.ifc" }

/-- The processor of test 2A with an MSVC-style toolchain in place of the mock. -/
def msvc_test_processor (cl_path link_path : path) (config : BuildConfiguration) :
    ModuleProcessor :=
  ModuleProcessor.construct test_module
    (MsvcToolchain.toIToolchain { m_cl_path := cl_path, m_link_path := link_path, m_config := config })
    "build" test_dependency_ifcs

/-- The sources of the module in the order in which `generate_build_plan`
visits them: the partitions, the primary interface when there is one, the
implementations. -/
def ModuleProcessor.sources (self : ModuleProcessor) : List path :=
  self.m_module.partitions ++
    (if self.m_module.primary_interface = "" then [] else [self.m_module.primary_interface]) ++
    self.m_module.implementations

/-- The text that the loop of `Command::to_string` writes for one argument after
the separating space (lines 35-42): the argument between double quotes when
`arg.find(' ')` finds a space, the argument itself otherwise. -/
def Command.render_argument (arg : String) : String :=
  if arg.data.contains ' ' then "\"" ++ arg ++ "\"" else arg

/-- The member `Command::to_string` (lines 27-45): the stream receives the
executable between double quotes, then for each argument a space and the text of
the argument. -/
def Command.to_string (self : Command) : String :=
  self.arguments.foldl (fun ss arg => ss ++ " " ++ Command.render_argument arg)
    ("\"" ++ self.executable ++ "\"")

/-- The rendering in the words of the specification: the executable wrapped in
double quotes followed, for each argument in order, by one space and then the
argument, wrapped in double quotes if it contains a space character and verbatim
otherwise. -/
def render_spec (executable : String) (arguments : List String) : String :=
  "\"" ++ executable ++ "\"" ++
    String.join (arguments.map
      (fun arg => " " ++ (if ' ' ∈ arg.data then "\"" ++ arg ++ "\"" else arg)))

/-- The function `std::isspace` in the C locale: space, `\t`, `\n`, `\v`, `\f`
and `\r`. -/
def isspace (c : Char) : Bool := c.toNat = 32 || (9 ≤ c.toNat && c.toNat ≤ 13)

/-- The locals of `split_cmd` (`impa_utils.hpp`, lines 28-30). -/
structure SplitState where
  out : List String := []
  cur : String := ""
  in_quote : Bool := false
  deriving DecidableEq, Repr

/-- The body of the loop of `split_cmd` for the character `c` (lines 33-49). -/
def split_step (st : SplitState) (c : Char) : SplitState :=
  if c = '"' then { st with in_quote := !st.in_quote }
  else if !st.in_quote && isspace c then
    if st.cur ≠ "" then { st with out := st.out ++ [st.cur], cur := "" } else st
  else { st with cur := st.cur.push c }

/-- The end of `split_cmd` (lines 51-53): a pending token is added. -/
def split_finish (st : SplitState) : List String :=
  if st.cur ≠ "" then st.out ++ [st.cur] else st.out

/-- The function `split_cmd` of `impa_utils.hpp` (lines 26-54). -/
def split_cmd (s : String) : List String :=
  split_finish (s.data.foldl split_step {})

/-- The condition under which an argument survives rendering and splitting: it
is not empty, has no double quote, and has a space character if it has white
space at all. -/
def splittable_argument (arg : String) : Prop :=
  arg ≠ "" ∧ '"' ∉ arg.data ∧ (' ' ∈ arg.data ∨ ∀ c ∈ arg.data, isspace c = false)

instance (arg : String) : Decidable (splittable_argument arg) :=
  inferInstanceAs (Decidable
    (arg ≠ "" ∧ '"' ∉ arg.data ∧ (' ' ∈ arg.data ∨ ∀ c ∈ arg.data, isspace c = false)))

/-- The command of test 1.3 of `tests/executor.cpp`. -/
def cmd3 : Command :=
  { executable := "my_app.exe", arguments := ["arg1", "hello world", "arg3"] }

/-- A command with an argument that contains a tab and no space. -/
def tab_command : Command := { executable := "x", arguments := ["a\tb"] }

/-! ## The executors of `executor.cpp` -/

/-- Modelled from the spec: `ExecutionResult` (`success`, `exit_code`, `std_out`,
`std_err`), whose declaration is not among the sources. -/
structure ExecutionResult where
  success : Bool
  exit_code : Int
  std_out : String
  std_err : String
  deriving DecidableEq, Repr

/-- The member `DryRunExecutor::execute` (lines 59-63) on the content `sink` of
`m_output_stream`: the result and the content of the stream afterwards. -/
def DryRunExecutor.execute (sink : String) (command : Command) : ExecutionResult × String :=
  ({ success := true, exit_code := 0, std_out := "", std_err := "" },
   sink ++ "[DRY RUN] " ++ command.to_string ++ "\n")

/-- A 32-bit unsigned value (`DWORD`). -/
def dword (n : Nat) : Nat := n % 2 ^ 32

/-- The conversion `static_cast<int>` of a `DWORD`: the value of the 32-bit
two's complement integer with the same bits. -/
def static_cast_int (n : Nat) : Int := (((dword n + 2 ^ 31) % 2 ^ 32 : Nat) : Int) - 2 ^ 31

/-- What the platform and library calls of one run of `LocalExecutor::execute`
return: whether each `CreatePipe` succeeds, whether `converter.from_bytes`
accepts the bytes of the rendered command (it throws `std::range_error` when
they are not UTF-8), whether `CreateProcessW` succeeds and the value of
`GetLastError()` when it does not, the `DWORD` that `GetExitCodeProcess` stores,
and what the two calls of `read_from_pipe` return. -/
structure OsOutcome where
  stdout_pipe_created : Bool
  stderr_pipe_created : Bool
  command_line_converted : Bool
  process_created : Bool
  last_error : Nat
  exit_code : Nat
  std_out : String
  std_err : String
  deriving DecidableEq, Repr

/-- The exceptions that leave `LocalExecutor::execute`. -/
inductive ExecuteError where
  | runtime_error (what : String)
  | range_error
  deriving DecidableEq, Repr

deriving instance DecidableEq for Except

/-- The member `LocalExecutor::execute` (lines 87-169) over the outcomes of the
calls it makes: the exception thrown or the result returned. The command only
provides the command line and the working directory handed to those calls. -/
def LocalExecutor.execute (os : OsOutcome) (_command : Command) :
    Except ExecuteError ExecutionResult :=
  if !os.stdout_pipe_created then
    .error (.runtime_error "LocalExecutor Error: Failed to create stdout pipe.")
  else if !os.stderr_pipe_created then
    .error (.runtime_error "LocalExecutor Error: Failed to create stderr pipe.")
  else if !os.command_line_converted then
    .error .range_error
  else if !os.process_created then
    .error (.runtime_error
      ("LocalExecutor Error: CreateProcess failed. Error code: " ++ toString (dword os.last_error)))
  else
    .ok { exit_code := static_cast_int os.exit_code
          success := dword os.exit_code = 0
          std_out := os.std_out
          std_err := os.std_err }

/-- An outcome in which every call succeeds and the process exits with `status`. -/
def exited (status : Nat) : OsOutcome :=
  { stdout_pipe_created := true, stderr_pipe_created := true, command_line_converted := true,
    process_created := true, last_error := 0, exit_code := status, std_out := "", std_err := "" }

/-- An outcome in which both pipes are created and the bytes of the rendered
command are not UTF-8. -/
def not_utf8 : OsOutcome :=
  { stdout_pipe_created := true, stderr_pipe_created := true, command_line_converted := false,
    process_created := true, last_error := 0, exit_code := 0, std_out := "", std_err := "" }

/-! ## The Clang-style options of `toolchains.cpp` -/

/-- The helper `add_common_clang_compile_options` (lines 111-189): the options
derived from the configuration, appended to `args`. -/
def add_common_clang_compile_options (args : List String) (config : BuildConfiguration) :
    List String :=
  let args := args ++
    [match config.cpp_standard with
     | .Cpp20 => "-std=c++20"
     | .Cpp23 => "-std=c++2b"
     | .CppLatest => "-std=c++2b"]
  let args := args ++
    [if config.mode = .Debug then "-O0"
     else match config.optimization with
       | .O0 => "-O0"
       | .O1 => "-O1"
       | .O2 => "-O2"
       | .O3 => "-O3"]
  let args := args ++
    (if config.debug_info = .Full ∨ config.debug_info = .Minimal then ["-g"] else [])
  let args := args ++
    [match config.msvc_runtime with
     | .MultiThreadedDebugDLL => "/MDd"
     | .MultiThreadedDebug => "/MTd"
     | .MultiThreadedDLL => "/MD"
     | .MultiThreaded => "/MT"]
  let args := args ++ ["-fms-compatibility", "-Wno-msvc-include"]
  let args := args ++ config.defines.map (fun d => "-D" ++ d)
  args ++ config.include_dirs.map (fun dir => "-I" ++ dir)

/-- A configuration in mode Debug that asks for optimization level O3. -/
def debug_o3_config : BuildConfiguration :=
  { mode := .Debug, cpp_standard := .Cpp20, optimization := .O3, debug_info := .Full,
    msvc_runtime := .MultiThreadedDebugDLL, defines := ["_DEBUG"], include_dirs := ["inc"],
    library_dirs := [] }

/-! ## The Clang-style toolchain of `toolchains.cpp` -/

/-- The loop over the dependencies in the Clang-style commands (lines 322-328
and 342-348): for each dependency the path of its interface with the extension
replaced by `.pcm`, pushed as one `-fmodule-file=` argument. -/
def clang_push_module_files (arguments : List String) : List ModuleReference → List String
  | [] => arguments
  | dep :: deps =>
    let dep_pcm_path := dep.ifc_path.replace_extension ".pcm"
    clang_push_module_files
      (arguments ++ ["-fmodule-file=" ++ dep.name ++ "=" ++ dep_pcm_path]) deps

/-- The members of `ClangToolchain`. -/
structure ClangToolchain where
  m_clang_cl_path : path
  m_config : BuildConfiguration

/-- The member `ClangToolchain::generate_emit_ifc_command` (lines 308-330). -/
def ClangToolchain.generate_emit_ifc_command (self : ClangToolchain) (args : EmitIFCArgs) :
    Option Command :=
  let arguments := add_common_clang_compile_options [] self.m_config
  let arguments := arguments ++ ["--precompile", "-x", "c++-module", args.interface_unit_path]
  let pcm_path := args.output_ifc_path.replace_extension ".pcm"
  let arguments := arguments ++ ["-o", pcm_path]
  some { executable := self.m_clang_cl_path
         arguments := clang_push_module_files arguments args.module_dependencies }

/-- The member `ClangToolchain::generate_compile_obj_command` (lines 332-350). -/
def ClangToolchain.generate_compile_obj_command (self : ClangToolchain)
    (args : CompileObjectArgs) : Option Command :=
  let arguments := add_common_clang_compile_options [] self.m_config
  let arguments := arguments ++ ["-c", args.source_file, "-o", args.output_obj_path]
  some { executable := self.m_clang_cl_path
         arguments := clang_push_module_files arguments args.module_dependencies }

/-- The member `ClangToolchain::generate_link_command` (lines 352-377). -/
def ClangToolchain.generate_link_command (self : ClangToolchain) (args : LinkArgs) :
    Option Command :=
  let arguments := ["-o", args.output_target_path]
  let arguments := arguments ++ (if self.m_config.debug_info = .Full then ["-g"] else [])
  let arguments := arguments ++ self.m_config.library_dirs.map (fun dir => "-L" ++ dir)
  let arguments := arguments ++ args.object_files
  some { executable := self.m_clang_cl_path
         arguments := arguments ++ args.link_libraries }

/-- The member `ClangToolchain::generate_pcm_command` (lines 379-384). -/
def ClangToolchain.generate_pcm_command (self : ClangToolchain) (args : EmitIFCArgs) :
    Option Command :=
  self.generate_emit_ifc_command args

/-- A `ClangToolchain` seen through the interface `IToolchain`. -/
def ClangToolchain.toIToolchain (self : ClangToolchain) : IToolchain :=
  { generate_emit_ifc_command := self.generate_emit_ifc_command
    generate_compile_obj_command := self.generate_compile_obj_command
    generate_link_command := self.generate_link_command }

/-- The processor of test 2A with a Clang-style toolchain in place of the mock. -/
def clang_test_processor (clang_cl_path : path) (config : BuildConfiguration) :
    ModuleProcessor :=
  ModuleProcessor.construct test_module
    (ClangToolchain.toIToolchain { m_clang_cl_path := clang_cl_path, m_config := config })
    "build" test_dependency_ifcs

/-! ## The flags of a configuration, in the words of the specification -/

/-- The MSVC-style flag of a language standard. -/
def msvc_standard_flag : CppStandard → String
  | .Cpp20 => "/std:c++20"
  | .Cpp23 => "/std:c++23"
  | .CppLatest => "/std:c++latest"

/-- The MSVC-style flag of an optimization level: O0, O1, O2, O3 map to `/Od`,
`/O1`, `/O2`, `/Ox`. -/
def msvc_level_flag : OptimizationLevel → String
  | .O0 => "/Od"
  | .O1 => "/O1"
  | .O2 => "/O2"
  | .O3 => "/Ox"

/-- The flag of a runtime library, common to both variants. -/
def runtime_flag : MsvcRuntime → String
  | .MultiThreadedDebugDLL => "/MDd"
  | .MultiThreadedDebug => "/MTd"
  | .MultiThreadedDLL => "/MD"
  | .MultiThreaded => "/MT"

/-- The Clang-style flag of a language standard. -/
def clang_standard_flag : CppStandard → String
  | .Cpp20 => "-std=c++20"
  | .Cpp23 => "-std=c++2b"
  | .CppLatest => "-std=c++2b"

/-- The Clang-style flag of an optimization level: O0, O1, O2, O3 map to `-O0`,
`-O1`, `-O2`, `-O3`. -/
def clang_level_flag : OptimizationLevel → String
  | .O0 => "-O0"
  | .O1 => "-O1"
  | .O2 => "-O2"
  | .O3 => "-O3"

/-- The MSVC-style options that do not come from the defines and the include
directories: standard, optimization, debug information, runtime library and the
five fixed flags. -/
def msvc_fixed_options (config : BuildConfiguration) : List String :=
  [msvc_standard_flag config.cpp_standard,
    if config.mode = .Debug then "/Od" else msvc_level_flag config.optimization] ++
  (if config.debug_info = .Full then ["/Zi"]
    else if config.debug_info = .Minimal then ["/Z7"] else []) ++
  [runtime_flag config.msvc_runtime, "/EHsc", "/nologo", "/c", "/TP", "/permissive-"]

/-- The Clang-style options that do not come from the defines and the include
directories. -/
def clang_fixed_options (config : BuildConfiguration) : List String :=
  [clang_standard_flag config.cpp_standard,
    if config.mode = .Debug then "-O0" else clang_level_flag config.optimization] ++
  (if config.debug_info = .Full ∨ config.debug_info = .Minimal then ["-g"] else []) ++
  [runtime_flag config.msvc_runtime, "-fms-compatibility", "-Wno-msvc-include"]

/-! ## `BuildConfigurationFactory` -/

/-- The function `BuildConfigurationFactory::create_debug_default` (lines
194-203). The declaration of `BuildConfiguration`, which says what the
default-constructed `config` holds, is not among the sources: that value is the
parameter `default_config`. -/
def BuildConfigurationFactory.create_debug_default (default_config : BuildConfiguration) :
    BuildConfiguration :=
  { default_config with
    mode := .Debug
    optimization := .O0
    debug_info := .Full
    msvc_runtime := .MultiThreadedDebugDLL
    defines := default_config.defines ++ ["_DEBUG"] }

/-- The function `BuildConfigurationFactory::create_release_default` (lines
205-214). -/
def BuildConfigurationFactory.create_release_default (default_config : BuildConfiguration) :
    BuildConfiguration :=
  { default_config with
    mode := .Release
    optimization := .O2
    debug_info := .None
    msvc_runtime := .MultiThreadedDLL
    defines := default_config.defines ++ ["NDEBUG"] }

/-- The function `BuildConfigurationFactory::create_release_with_debug_info`
(lines 216-221). -/
def BuildConfigurationFactory.create_release_with_debug_info
    (default_config : BuildConfiguration) : BuildConfiguration :=
  { BuildConfigurationFactory.create_release_default default_config with debug_info := .Full }

/-- A default-constructed configuration with empty lists, for the examples. -/
def sample_default_config : BuildConfiguration :=
  { mode := .Debug, cpp_standard := .Cpp20, optimization := .O0, debug_info := .None,
    msvc_runtime := .MultiThreadedDLL, defines := [], include_dirs := [], library_dirs := [] }

/-- The configuration of `tests/toolchains.cpp` (lines 50-52): the debug default
with one include directory and one library directory added. -/
def test_debug_config : BuildConfiguration :=
  { BuildConfigurationFactory.create_debug_default sample_default_config with
    include_dirs := sample_default_config.include_dirs ++ ["C:/includes"]
    library_dirs := sample_default_config.library_dirs ++ ["C:/libs"] }

/-- The toolchain `msvc` of `tests/toolchains.cpp` (line 54). -/
def test_msvc : MsvcToolchain :=
  { m_cl_path := "cl.exe", m_link_path := "link.exe", m_config := test_debug_config }

/-- A release configuration that asks for level O3 and minimal debug
information. -/
def release_o3_config : BuildConfiguration :=
  { mode := .Release, cpp_standard := .Cpp23, optimization := .O3, debug_info := .Minimal,
    msvc_runtime := .MultiThreadedDLL, defines := ["NDEBUG"], include_dirs := ["inc"],
    library_dirs := ["lib"] }

/-- The arguments of test 1A of `tests/toolchains.cpp` (lines 58-62). -/
def test_compile_args : CompileObjectArgs :=
  { source_file := "src/main.cpp", output_obj_path := "build/main.obj",
    module_dependencies := [{ name := "Core", ifc_path := "build/Core.ifc" }] }

/-- The arguments of test 1B of `tests/toolchains.cpp` (lines 82-84). -/
def test_emit_args : EmitIFCArgs :=
  { interface_unit_path := "src/Core.ixx", output_ifc_path := "build/Core.ifc",
    module_dependencies := [] }

/-- The arguments of test 1C of `tests/toolchains.cpp` (lines 110-113). -/
def test_link_args : LinkArgs :=
  { object_files := ["build/main.obj", "build/Core.obj"], output_target_path := "build/app.exe",
    link_libraries := ["kernel32.lib"] }

/-- The argument that follows the first occurrence of `flag` in an argument
list, if any. -/
def argument_after (flag : String) : List String → Option String
  | [] => none
  | [_] => none
  | a :: b :: rest => if a = flag then some b else argument_after flag (b :: rest)

/-! ## The configurations of the main loop of `topological_sort` -/

/-- The configurations that `topological_sort` passes through from line 49 on:
the locals together with the part of `reverse_adj.at(u)` that the inner loop
(lines 56-63) has still to visit. `start` is the configuration in which the
`while` is first tested, `iteration` is lines 51-52 for `u = queue[head]`, and
`inner` is one pass through lines 58-62. -/
inductive SortReachable (modules : ModuleMap) : SortState → List String → Prop where
  | start : SortReachable modules (initial_state modules) []
  | iteration (s : SortState) (u : String) :
      SortReachable modules s [] → s.queue[s.head]? = some u →
      SortReachable modules
        { s with head := s.head + 1, sorted_order := s.sorted_order ++ [u] }
        ((build_graph modules modules (fun _ => 0, fun _ => [])).2 u)
  | inner (s : SortState) (v : String) (rest : List String) :
      SortReachable modules s (v :: rest) → SortReachable modules (relax s v) rest

/-- The names of the modules that declare no dependency, in the iteration order
of the map. -/
def no_dependency_modules (modules : ModuleMap) : List String :=
  (modules.filter (fun e => e.2.dependencies.isEmpty)).map Prod.fst

/-- Two modules, the second of which lists its only dependency twice. -/
def duplicate_dependency : ModuleMap := [mk_module "A" [], mk_module "B" ["A", "A"]]

/-! ## The dependency references of a request -/

/-- The dependency-reference list that a request carries
(`args.module_dependencies`). -/
def ToolchainCall.module_dependencies : ToolchainCall → List ModuleReference
  | .compile_obj args => args.module_dependencies
  | .emit_ifc args => args.module_dependencies

/-! ## `to_clangxx_incdefs`

The function exists twice in the repository: in `tools/impa_converter.hpp`
(the one that `impa_gen.cpp` calls, line 90) and in
`tools/convert_compile_commands.cpp`. A `std::string` is the list of its
characters; after a test `starts_with(t, "/I")` the first two characters are
single bytes, so that `t.size() > 2` holds exactly when there are more than two
characters and `t.substr(2)` drops exactly two of them. -/

/-- The helper `impa::utils::starts_with` (`impa_utils.hpp`, lines 70-73):
`s.rfind(pfx, 0) == 0`, which holds exactly when `pfx` is a prefix of `s`. -/
def starts_with (s pfx : String) : Bool := pfx.data.isPrefixOf s.data

/-- The call `t.substr(pos)` for `pos` not above `t.size()`. -/
def substr (t : String) (pos : Nat) : String := String.mk (t.data.drop pos)

/-- How a run of `to_clangxx_incdefs` of `impa_converter.hpp` ends: with the
vector returned, or at a read `args[index]` whose index is not below
`args.size()` (undefined behaviour: nothing is known about the run from there
on), or with the bound on the iterations exhausted. -/
inductive IncdefsOutcome where
  | returned (out : List String)
  | read_past_end (index : Nat)
  | bound_exhausted
  deriving DecidableEq, Repr

/-- The loop of `impa::converter::to_clangxx_incdefs` (`impa_converter.hpp`,
lines 82-97) from index `i` with the output `out`, for at most `fuel`
iterations. `args[++i]` of lines 87 and 91 reads index `i + 1` without a test,
and the `++i` of the loop header then makes the next index `i + 2`. -/
def to_clangxx_incdefs_loop (args : List String) :
    Nat → Nat → List String → IncdefsOutcome
  | fuel, i, out =>
    match args[i]? with
    | none => .returned out
    | some t =>
      match fuel with
      | 0 => .bound_exhausted
      | fuel + 1 =>
        if starts_with t "/I" then
          if t.data.length > 2 then
            to_clangxx_incdefs_loop args fuel (i + 1) (out ++ ["-I" ++ substr t 2])
          else
            match args[i + 1]? with
            | none => .read_past_end (i + 1)
            | some next => to_clangxx_incdefs_loop args fuel (i + 2) (out ++ ["-I" ++ next])
        else if starts_with t "/D" then
          if t.data.length > 2 then
            to_clangxx_incdefs_loop args fuel (i + 1) (out ++ ["-D" ++ substr t 2])
          else
            match args[i + 1]? with
            | none => .read_past_end (i + 1)
            | some next => to_clangxx_incdefs_loop args fuel (i + 2) (out ++ ["-D" ++ next])
        else if starts_with t "-I" || starts_with t "-D" then
          to_clangxx_incdefs_loop args fuel (i + 1) (out ++ [t])
        else
          to_clangxx_incdefs_loop args fuel (i + 1) out

/-- The function `impa::converter::to_clangxx_incdefs` (`impa_converter.hpp`,
lines 78-99): the loop runs at most once per element. -/
def to_clangxx_incdefs (args : List String) : IncdefsOutcome :=
  to_clangxx_incdefs_loop args args.length 0 []

/-- The loop of `to_clangxx_incdefs` of `convert_compile_commands.cpp` (lines
167-188) from index `i`, for at most `fuel` iterations; `none` when the bound is
exhausted. The lambda `emit_pair` reads `in[i + 1]` only after the test
`i + 1 < in.size()`, and leaves `i` and `out` unchanged otherwise. -/
def convert_compile_commands.to_clangxx_incdefs_loop (input : List String) :
    Nat → Nat → List String → Option (List String)
  | fuel, i, out =>
    match input[i]? with
    | none => some out
    | some t =>
      match fuel with
      | 0 => none
      | fuel + 1 =>
        if starts_with t "/I" then
          if t.data.length > 2 then
            convert_compile_commands.to_clangxx_incdefs_loop input fuel (i + 1)
              (out ++ ["-I" ++ substr t 2])
          else
            match input[i + 1]? with
            | some next =>
              convert_compile_commands.to_clangxx_incdefs_loop input fuel (i + 2)
                (out ++ ["-I" ++ next])
            | none => convert_compile_commands.to_clangxx_incdefs_loop input fuel (i + 1) out
        else if starts_with t "/D" then
          if t.data.length > 2 then
            convert_compile_commands.to_clangxx_incdefs_loop input fuel (i + 1)
              (out ++ ["-D" ++ substr t 2])
          else
            match input[i + 1]? with
            | some next =>
              convert_compile_commands.to_clangxx_incdefs_loop input fuel (i + 2)
                (out ++ ["-D" ++ next])
            | none => convert_compile_commands.to_clangxx_incdefs_loop input fuel (i + 1) out
        else if starts_with t "-I" || starts_with t "-D" then
          convert_compile_commands.to_clangxx_incdefs_loop input fuel (i + 1) (out ++ [t])
        else
          convert_compile_commands.to_clangxx_incdefs_loop input fuel (i + 1) out

/-- The function `to_clangxx_incdefs` of `convert_compile_commands.cpp` (lines
164-190). -/
def convert_compile_commands.to_clangxx_incdefs (input : List String) :
    Option (List String) :=
  convert_compile_commands.to_clangxx_incdefs_loop input input.length 0 []

/-- What the specification says of one token that is not a bare `/I` or `/D`:
`/Ix` and `/Dx` become `-Ix` and `-Dx`, a token `-I...` or `-D...` is kept, any
other token is dropped. -/
def incdefs_token (t : String) : List String :=
  if starts_with t "/I" then ["-I" ++ substr t 2]
  else if starts_with t "/D" then ["-D" ++ substr t 2]
  else if starts_with t "-I" || starts_with t "-D" then [t]
  else []

/-- The list that the specification describes for `to_clangxx_incdefs`: a bare
`/I` or `/D` is joined with the token that follows it, every other token is
translated on its own. A bare `/I` or `/D` in last position, of which the
specification says nothing, contributes nothing. -/
def incdefs_spec : List String → List String
  | [] => []
  | [t] => if t = "/I" ∨ t = "/D" then [] else incdefs_token t
  | t :: next :: rest =>
    if t = "/I" then ("-I" ++ next) :: incdefs_spec rest
    else if t = "/D" then ("-D" ++ next) :: incdefs_spec rest
    else incdefs_token t ++ incdefs_spec (next :: rest)

/-! ## Properties of the first pass -/

theorem add_reverse_edges_apply (modules : ModuleMap) (name : String) (deps : List String)
    (reverse_adj : String → List String) (u : String) :
    add_reverse_edges modules name deps reverse_adj u =
      reverse_adj u ++
        (if u ∈ modules.keys then List.replicate (deps.count u) name else []) := by
  induction deps generalizing reverse_adj with
  | nil => simp [add_reverse_edges]
  | cons dep deps ih =>
    unfold add_reverse_edges
    by_cases hk : modules.keys.contains dep = true
    · rw [if_pos hk, ih]
      have hk2 : dep ∈ modules.keys := by simpa using hk
      by_cases hu : u = dep
      · subst hu
        simp [hk2, List.count_cons, List.replicate_succ]
      · have hu2 : ¬ dep = u := fun h => hu h.symm
        simp [Function.update_noteq hu, List.count_cons, hu2]
    · rw [if_neg hk, ih]
      have hk2 : dep ∉ modules.keys := by simpa using hk
      by_cases hu : u = dep
      · subst hu
        simp [hk2]
      · have hu2 : ¬ dep = u := fun h => hu h.symm
        simp [List.count_cons, hu2]

theorem build_graph_in_degree_of_not_mem (modules : ModuleMap) (entries : List (String × ModuleInfo))
    (g : (String → Int) × (String → List String)) (v : String)
    (hv : v ∉ entries.map Prod.fst) :
    (build_graph modules entries g).1 v = g.1 v := by
  induction entries generalizing g with
  | nil => rfl
  | cons e entries ih =>
    obtain ⟨name, info⟩ := e
    simp only [List.map_cons, List.mem_cons, not_or] at hv
    unfold build_graph
    rw [ih _ hv.2]
    exact Function.update_noteq hv.1 _ _

theorem build_graph_in_degree (modules : ModuleMap) (entries : List (String × ModuleInfo))
    (g : (String → Int) × (String → List String)) (hnd : (entries.map Prod.fst).Nodup)
    (v : String) (info : ModuleInfo) (hv : (v, info) ∈ entries) :
    (build_graph modules entries g).1 v = (info.dependencies.length : Int) := by
  induction entries generalizing g with
  | nil => simp at hv
  | cons e entries ih =>
    obtain ⟨name, info2⟩ := e
    simp only [List.map_cons, List.nodup_cons] at hnd
    unfold build_graph
    rcases List.mem_cons.1 hv with h | h
    · rw [build_graph_in_degree_of_not_mem _ _ _ _ (by
        have : v = name := (Prod.mk.inj h).1
        rw [this]; exact hnd.1)]
      have h1 : v = name := (Prod.mk.inj h).1
      have h2 : info = info2 := (Prod.mk.inj h).2
      subst h1; subst h2
      simp
    · exact ih _ hnd.2 h

theorem build_graph_reverse_adj_mem (modules : ModuleMap) (entries : List (String × ModuleInfo))
    (g : (String → Int) × (String → List String)) (u x : String)
    (hx : x ∈ (build_graph modules entries g).2 u) :
    x ∈ g.2 u ∨ x ∈ entries.map Prod.fst := by
  induction entries generalizing g with
  | nil => exact Or.inl hx
  | cons e entries ih =>
    obtain ⟨name, info⟩ := e
    unfold build_graph at hx
    rcases ih _ hx with h | h
    · simp only [add_reverse_edges_apply] at h
      rcases List.mem_append.1 h with h | h
      · exact Or.inl h
      · right
        split_ifs at h
        · rw [List.eq_of_mem_replicate h]; simp
        · simp at h
    · right; simp [h]

theorem build_graph_reverse_adj_count_of_not_mem (modules : ModuleMap)
    (entries : List (String × ModuleInfo))
    (g : (String → Int) × (String → List String)) (u v : String)
    (hv : v ∉ entries.map Prod.fst) :
    ((build_graph modules entries g).2 u).count v = (g.2 u).count v := by
  induction entries generalizing g with
  | nil => rfl
  | cons e entries ih =>
    obtain ⟨name, info⟩ := e
    simp only [List.map_cons, List.mem_cons, not_or] at hv
    unfold build_graph
    rw [ih _ hv.2]
    simp only [add_reverse_edges_apply, List.count_append]
    split_ifs
    · rw [List.count_replicate]
      have : ¬ (name == v) = true := by simpa using fun h => hv.1 h.symm
      simp [this]
    · simp

theorem build_graph_reverse_adj_count (modules : ModuleMap)
    (entries : List (String × ModuleInfo))
    (g : (String → Int) × (String → List String)) (hnd : (entries.map Prod.fst).Nodup)
    (u : String) (hu : u ∈ modules.keys)
    (v : String) (info : ModuleInfo) (hv : (v, info) ∈ entries) :
    ((build_graph modules entries g).2 u).count v =
      (g.2 u).count v + info.dependencies.count u := by
  induction entries generalizing g with
  | nil => simp at hv
  | cons e entries ih =>
    obtain ⟨name, info2⟩ := e
    simp only [List.map_cons, List.nodup_cons] at hnd
    unfold build_graph
    rcases List.mem_cons.1 hv with h | h
    · have h1 : v = name := (Prod.mk.inj h).1
      have h2 : info = info2 := (Prod.mk.inj h).2
      subst h1; subst h2
      rw [build_graph_reverse_adj_count_of_not_mem _ _ _ _ _ hnd.1]
      simp [add_reverse_edges_apply, hu, List.count_replicate]
    · rw [ih _ hnd.2 h]
      have hne : name ≠ v := by
        intro hc
        apply hnd.1
        rw [hc]
        exact List.mem_map_of_mem Prod.fst h
      have : ¬ (name == v) = true := by simpa using hne
      simp [add_reverse_edges_apply, List.count_append, hu, List.count_replicate, this]

/-! ## The invariant of the main loop -/

theorem not_mem_take_of_nodup (l : List String) (hnd : l.Nodup) (j : Nat) (u : String)
    (hu : l[j]? = some u) : u ∉ l.take j := by
  intro hmem
  obtain ⟨i, hi, hiu⟩ := List.getElem_of_mem hmem
  have hij : i < j := by
    have := hi
    simp only [List.length_take] at this
    omega
  have hjl : j < l.length := (List.getElem?_eq_some_iff.1 hu).1
  have hil : i < l.length := by omega
  rw [List.getElem_take] at hiu
  have hju : l[j] = u := (List.getElem?_eq_some_iff.1 hu).2
  have heq : l[i] = l[j] := hiu.trans hju.symm
  have := (List.Nodup.getElem_inj_iff hnd).1 heq
  omega

theorem filter_not_mem_append_singleton (l P : List String) (u : String) (hu : u ∉ P) :
    (l.filter (fun d => decide (d ∉ P))).length =
      (l.filter (fun d => decide (d ∉ P ++ [u]))).length + l.count u := by
  induction l with
  | nil => simp
  | cons a l ih =>
    rw [List.filter_cons, List.filter_cons, List.count_cons]
    by_cases hau : a = u
    · subst hau
      have e1 : decide (a ∉ P) = true := decide_eq_true hu
      have e2 : decide (a ∉ P ++ [a]) = false := decide_eq_false (by simp)
      have e3 : (a == a) = true := by simp
      rw [e1, e2, e3]
      simp only [if_true, List.length_cons]
      rw [ih]
      simp only [Bool.false_eq_true, if_false]
      omega
    · have e3 : (a == u) = false := by simpa using hau
      by_cases haP : a ∈ P
      · have e1 : decide (a ∉ P) = false := decide_eq_false (by simpa using haP)
        have e2 : decide (a ∉ P ++ [u]) = false := decide_eq_false (by simp [haP])
        rw [e1, e2, e3]
        simpa using ih
      · have e1 : decide (a ∉ P) = true := decide_eq_true haP
        have e2 : decide (a ∉ P ++ [u]) = true := decide_eq_true (by simp [haP, hau])
        rw [e1, e2, e3]
        simp only [if_true, List.length_cons, Bool.false_eq_true, if_false]
        rw [ih]
        omega

theorem length_le_of_nodup_of_subset (q keys : List String) (hnd : q.Nodup)
    (hsub : ∀ v ∈ q, v ∈ keys) : q.length ≤ keys.length :=
  (List.Nodup.subperm hnd hsub).length_le

theorem mem_keys_iff (modules : ModuleMap) (v : String) :
    v ∈ modules.keys ↔ ∃ info, (v, info) ∈ modules := by
  unfold ModuleMap.keys
  constructor
  · intro h
    obtain ⟨e, he, hev⟩ := List.mem_map.1 h
    exact ⟨e.2, by rw [← hev]; exact he⟩
  · rintro ⟨info, h⟩
    exact List.mem_map.2 ⟨(v, info), h, rfl⟩

theorem relax_inv (modules : ModuleMap) (s : SortState) (v : String) (rest : List String)
    (h : SortInv modules s (v :: rest)) : SortInv modules (relax s v) rest := by
  obtain ⟨info0, hinfo0⟩ := (mem_keys_iff modules v).1 (h.rest_sub v (List.mem_cons_self _ _))
  have hdeg0 := h.degree v info0 hinfo0
  have hpos : 1 ≤ s.in_degree v := by
    rw [hdeg0]; simp [List.count_cons_self]; omega
  have hvq : v ∉ s.queue := by
    intro hc
    have := (h.zero_iff v info0 hinfo0).1 hc
    omega
  have hdeg_new : ∀ w info, (w, info) ∈ modules →
      Function.update s.in_degree v (s.in_degree v - 1) w =
        ((info.dependencies.filter (fun d => decide (d ∉ s.sorted_order))).length : Int) +
          (rest.count w : Int) := by
    intro w info hw
    by_cases hwv : w = v
    · subst hwv
      rw [Function.update_same, h.degree w info hw, List.count_cons_self]
      push_cast
      omega
    · rw [Function.update_noteq hwv, h.degree w info hw]
      have : ¬ (v == w) = true := by simpa using fun hc => hwv hc.symm
      simp [List.count_cons, this]
  unfold relax
  simp only [Function.update_same]
  by_cases hz : s.in_degree v - 1 = 0
  · rw [if_pos hz]
    refine ⟨?_, ?_, ?_, ?_, ?_, hdeg_new, ?_, ?_⟩
    · show s.sorted_order = (s.queue ++ [v]).take s.head
      rw [List.take_append_of_le_length h.head_le]
      exact h.order_eq
    · show s.head ≤ (s.queue ++ [v]).length
      have := h.head_le
      simp; omega
    · show (s.queue ++ [v]).Nodup
      exact List.Nodup.append h.nodup (List.nodup_singleton v) (by simpa using hvq)
    · intro w hw
      rcases List.mem_append.1 hw with hw | hw
      · exact h.sub w hw
      · rw [List.mem_singleton.1 hw]
        exact h.rest_sub v (List.mem_cons_self _ _)
    · intro w info hw
      show w ∈ s.queue ++ [v] ↔ Function.update s.in_degree v (s.in_degree v - 1) w = 0
      by_cases hwv : w = v
      · subst hwv
        simp [hz]
      · rw [Function.update_noteq hwv]
        simp [hwv, h.zero_iff w info hw]
    · intro j w info hj hw d hd
      show d ∈ (s.queue ++ [v]).take j
      by_cases hjl : j < s.queue.length
      · rw [List.take_append_of_le_length (Nat.le_of_lt hjl)]
        have hj2 : s.queue[j]? = some w := by
          have : (s.queue ++ [v])[j]? = some w := hj
          rwa [List.getElem?_append_left hjl] at this
        exact h.before j w info hj2 hw d hd
      · have hj1 : (s.queue ++ [v])[j]? = some w := hj
        have hjlen : j < (s.queue ++ [v]).length := (List.getElem?_eq_some_iff.1 hj1).1
        have hjeq : j = s.queue.length := by
          simp at hjlen; omega
        subst hjeq
        have hwv : w = v := by
          simp at hj1
          exact hj1.symm
        subst hwv
        have hd0 := hdeg_new w info hw
        rw [Function.update_same, hz] at hd0
        have hfil : (info.dependencies.filter (fun d => decide (d ∉ s.sorted_order))).length = 0 := by
          omega
        have hnil := List.length_eq_zero.1 hfil
        have hdm : d ∈ s.sorted_order := by
          by_contra hc
          have : d ∈ info.dependencies.filter (fun d => decide (d ∉ s.sorted_order)) :=
            List.mem_filter.2 ⟨hd, by simpa using hc⟩
          rw [hnil] at this
          simp at this
        rw [h.order_eq] at hdm
        rw [List.take_append_of_le_length (Nat.le_refl _), List.take_length]
        exact List.mem_of_mem_take hdm
    · intro w hw
      exact h.rest_sub w (List.mem_cons_of_mem _ hw)
  · rw [if_neg hz]
    refine ⟨h.order_eq, h.head_le, h.nodup, h.sub, ?_, hdeg_new, h.before, ?_⟩
    · intro w info hw
      show w ∈ s.queue ↔ Function.update s.in_degree v (s.in_degree v - 1) w = 0
      by_cases hwv : w = v
      · subst hwv
        simp [hz, hvq]
      · rw [Function.update_noteq hwv]
        exact h.zero_iff w info hw
    · intro w hw
      exact h.rest_sub w (List.mem_cons_of_mem _ hw)

theorem foldl_relax_inv (modules : ModuleMap) (rest : List String) (s : SortState)
    (h : SortInv modules s rest) : SortInv modules (rest.foldl relax s) [] := by
  induction rest generalizing s with
  | nil => exact h
  | cons v rest ih => exact ih _ (relax_inv modules s v rest h)

theorem initial_state_inv (modules : ModuleMap) (hnd : modules.keys.Nodup) :
    SortInv modules (initial_state modules) [] := by
  have hdeg : ∀ v info, (v, info) ∈ modules →
      (initial_state modules).in_degree v = (info.dependencies.length : Int) :=
    fun v info hv => build_graph_in_degree modules modules _ hnd v info hv
  have hq : ∀ v, v ∈ (initial_state modules).queue ↔
      v ∈ modules.keys ∧ (initial_state modules).in_degree v = 0 := by
    intro v
    simp [initial_state, List.mem_filter]
  refine ⟨rfl, Nat.zero_le _, List.Nodup.filter _ hnd, ?_, ?_, ?_, ?_, ?_⟩
  · intro v hv
    exact ((hq v).1 hv).1
  · intro v info hv
    rw [hq v]
    exact ⟨fun h => h.2, fun h => ⟨(mem_keys_iff modules v).2 ⟨info, hv⟩, h⟩⟩
  · intro v info hv
    rw [hdeg v info hv]
    simp [initial_state]
  · intro j v info hj hv d hd
    have hvq : v ∈ (initial_state modules).queue := List.getElem?_mem hj
    have h0 := ((hq v).1 hvq).2
    rw [hdeg v info hv] at h0
    have hnil : info.dependencies = [] := List.length_eq_zero.1 (by exact_mod_cast h0)
    rw [hnil] at hd
    simp at hd
  · intro v hv
    simp at hv

theorem sort_step_inv (modules : ModuleMap) (hnd : modules.keys.Nodup) (s : SortState)
    (u : String) (h : SortInv modules s []) (hu : s.queue[s.head]? = some u) :
    SortInv modules
      (sort_step (build_graph modules modules (fun _ => 0, fun _ => [])).2 s u) [] := by
  unfold sort_step
  apply foldl_relax_inv
  have hlt : s.head < s.queue.length := (List.getElem?_eq_some_iff.1 hu).1
  have huk : u ∈ modules.keys := h.sub u (List.getElem?_mem hu)
  have hup : u ∉ s.sorted_order := by
    rw [h.order_eq]
    exact not_mem_take_of_nodup s.queue h.nodup s.head u hu
  refine ⟨?_, hlt, h.nodup, h.sub, h.zero_iff, ?_, h.before, ?_⟩
  · show s.sorted_order ++ [u] = s.queue.take (s.head + 1)
    rw [List.take_succ, hu, h.order_eq]
    rfl
  · intro v info hv
    show s.in_degree v =
      ((info.dependencies.filter (fun d => decide (d ∉ s.sorted_order ++ [u]))).length : Int) +
        (((build_graph modules modules (fun _ => 0, fun _ => [])).2 u).count v : Int)
    rw [h.degree v info hv, build_graph_reverse_adj_count modules modules _ hnd u huk v info hv,
      filter_not_mem_append_singleton info.dependencies s.sorted_order u hup]
    simp
  · intro x hx
    rcases build_graph_reverse_adj_mem modules modules _ u x hx with h1 | h1
    · simp at h1
    · exact h1

theorem sort_loop_spec (modules : ModuleMap) (hnd : modules.keys.Nodup) (fuel : Nat)
    (s : SortState) (h : SortInv modules s []) (hfuel : modules.length ≤ fuel + s.head) :
    ∃ t, sort_loop (build_graph modules modules (fun _ => 0, fun _ => [])).2 fuel s = some t ∧
      SortInv modules t [] ∧ t.sorted_order = t.queue := by
  induction fuel generalizing s with
  | zero =>
    unfold sort_loop
    have hlen : s.queue.length ≤ modules.length := by
      have := length_le_of_nodup_of_subset s.queue modules.keys h.nodup h.sub
      simpa [ModuleMap.keys] using this
    have hnone : s.queue[s.head]? = none := List.getElem?_eq_none (by omega)
    rw [hnone]
    refine ⟨s, rfl, h, ?_⟩
    rw [h.order_eq]
    exact List.take_of_length_le (by omega)
  | succ fuel ih =>
    unfold sort_loop
    cases hu : s.queue[s.head]? with
    | none =>
      refine ⟨s, rfl, h, ?_⟩
      rw [h.order_eq]
      exact List.take_of_length_le (List.getElem?_eq_none_iff.1 hu)
    | some u =>
      have hstep := sort_step_inv modules hnd s u h hu
      have hhead : (sort_step (build_graph modules modules (fun _ => 0, fun _ => [])).2 s u).head
          = s.head + 1 := by
        unfold sort_step
        generalize (build_graph modules modules (fun _ => 0, fun _ => [])).2 u = l
        have : ∀ (l : List String) (t : SortState), (l.foldl relax t).head = t.head := by
          intro l
          induction l with
          | nil => intro t; rfl
          | cons v l ihl =>
            intro t
            rw [List.foldl_cons, ihl]
            unfold relax
            simp only
            split_ifs <;> rfl
        rw [this]
      exact ih _ hstep (by rw [hhead]; omega)

theorem topological_sort_run (modules : ModuleMap) (hnd : modules.keys.Nodup) :
    ∃ t, SortInv modules t [] ∧ t.sorted_order = t.queue ∧
      topological_sort modules =
        (if t.sorted_order.length ≠ modules.length then some none
         else some (some t.sorted_order)) := by
  obtain ⟨t, ht, hinv, hq⟩ := sort_loop_spec modules hnd modules.length (initial_state modules)
    (initial_state_inv modules hnd) (Nat.le_add_right _ _)
  refine ⟨t, hinv, hq, ?_⟩
  unfold topological_sort topological_sort_fuel
  simp only [ht]

theorem mem_queue_of_full (modules : ModuleMap) (t : SortState) (h : SortInv modules t [])
    (hlen : t.queue.length = modules.length) (v : String) (hv : v ∈ modules.keys) :
    v ∈ t.queue := by
  have hsp : t.queue.Subperm modules.keys := List.Nodup.subperm h.nodup h.sub
  have hperm : t.queue.Perm modules.keys :=
    hsp.perm_of_length_le (by simp [ModuleMap.keys, hlen])
  exact hperm.mem_iff.2 hv

theorem topological_sort_some (modules : ModuleMap) (hnd : modules.keys.Nodup)
    (order : List String) (hsort : topological_sort modules = some (some order)) :
    ∃ t, SortInv modules t [] ∧ t.queue = order ∧ order.length = modules.length := by
  obtain ⟨t, hinv, hq, hres⟩ := topological_sort_run modules hnd
  rw [hres] at hsort
  by_cases hlen : t.sorted_order.length ≠ modules.length
  · rw [if_pos hlen] at hsort
    simp at hsort
  · rw [if_neg hlen] at hsort
    have ho : t.sorted_order = order := by simpa using hsort
    refine ⟨t, hinv, by rw [← hq, ho], ?_⟩
    rw [← ho]
    exact not_not.1 hlen

theorem cycle_successor (modules : ModuleMap) (cyc : List String) (hc : is_cycle modules cyc)
    (x : String) (hx : x ∈ cyc) : ∃ y ∈ cyc, depends_on modules x y := by
  obtain ⟨i, hi, hxi⟩ := List.getElem_of_mem hx
  have hi2 : i < (cyc.rotate 1).length := by simpa using hi
  have hmem : (cyc[i], (cyc.rotate 1)[i]) ∈ cyc.zip (cyc.rotate 1) := by
    refine List.mem_iff_getElem.2 ⟨i, by simpa using hi, ?_⟩
    simp [List.getElem_zip]
  refine ⟨(cyc.rotate 1)[i], ?_, ?_⟩
  · exact List.mem_rotate.1 (List.getElem_mem hi2)
  · have := hc.2 _ hmem
    rw [hxi] at this
    exact this

theorem cycle_not_queued (modules : ModuleMap) (t : SortState) (h : SortInv modules t [])
    (c : List String) (hc : is_cycle modules c) :
    ∀ (j : Nat) (x : String), x ∈ c → t.queue[j]? ≠ some x := by
  intro j
  induction j using Nat.strong_induction_on with
  | _ j ih =>
    intro x hx hj
    obtain ⟨y, hy, info, hinfo, hyd⟩ := cycle_successor modules c hc x hx
    have hmem := h.before j x info hj hinfo y hyd
    obtain ⟨i, hi, hiy⟩ := List.getElem_of_mem hmem
    have hij : i < j := by
      have := hi
      simp only [List.length_take] at this
      omega
    rw [List.getElem_take] at hiy
    have hil : i < t.queue.length := by
      have := hi
      simp only [List.length_take] at this
      omega
    exact ih i hij y hy (by rw [List.getElem?_eq_getElem hil, hiy])

/-- In a set of modules of the map in which every member depends on a member,
some modules form a dependency cycle. -/
theorem exists_cycle_of_successors (modules : ModuleMap) (S : String → Prop)
    (hS : ∀ v, S v → v ∈ modules.keys)
    (hsucc : ∀ v, S v → ∃ d, S d ∧ depends_on modules v d)
    (x0 : String) (hx0 : S x0) : ∃ cyc, is_cycle modules cyc := by
  classical
  have hchoice : ∃ f : String → String, ∀ v, S v → S (f v) ∧ depends_on modules v (f v) := by
    refine ⟨fun v => if h : S v then (hsucc v h).choose else v, ?_⟩
    intro v hv
    simp only [dif_pos hv]
    exact (hsucc v hv).choose_spec
  obtain ⟨f, hf⟩ := hchoice
  have hwalk : ∀ k, S (f^[k] x0) := by
    intro k
    induction k with
    | zero => exact hx0
    | succ k ih =>
      rw [Function.iterate_succ_apply']
      exact (hf _ ih).1
  have hc : modules.keys.toFinset.card < (Finset.range (modules.length + 1)).card := by
    have h1 := List.toFinset_card_le modules.keys
    have h2 : modules.keys.length = modules.length := by simp [ModuleMap.keys]
    rw [Finset.card_range]
    omega
  have hmaps : ∀ k ∈ Finset.range (modules.length + 1),
      (fun k => f^[k] x0) k ∈ modules.keys.toFinset :=
    fun k _ => List.mem_toFinset.2 (hS _ (hwalk k))
  obtain ⟨a, _, b, _, hab, heq⟩ := Finset.exists_ne_map_eq_of_card_lt_of_maps_to hc hmaps
  have hlt : ∃ i j, i < j ∧ f^[i] x0 = f^[j] x0 := by
    rcases Nat.lt_or_gt_of_ne hab with h | h
    · exact ⟨a, b, h, heq⟩
    · exact ⟨b, a, h, heq.symm⟩
  obtain ⟨i, j, hij, hwrap⟩ := hlt
  refine ⟨(List.range (j - i)).map (fun k => f^[i + k] x0), ?_, ?_⟩
  · intro hnil
    have := congrArg List.length hnil
    simp at this
    omega
  · intro p hp
    obtain ⟨k, hk⟩ := List.mem_iff_getElem?.1 hp
    obtain ⟨h1, h2⟩ := List.getElem?_zip_eq_some.1 hk
    have hklt : k < j - i := by
      have := (List.getElem?_eq_some_iff.1 h1).1
      simpa using this
    have hp1 : p.1 = f^[i + k] x0 := by
      rw [List.getElem?_map, List.getElem?_range hklt] at h1
      simpa using h1.symm
    have hp2 : p.2 = f (f^[i + k] x0) := by
      rw [List.getElem?_rotate (by simpa using hklt), List.getElem?_map] at h2
      simp only [List.length_map, List.length_range] at h2
      by_cases hk1 : k + 1 < j - i
      · rw [Nat.mod_eq_of_lt hk1, List.getElem?_range hk1] at h2
        have h3 : p.2 = f^[i + (k + 1)] x0 := by simpa using h2.symm
        rw [h3, ← Function.iterate_succ_apply' f (i + k) x0]
        rfl
      · have hk2 : k + 1 = j - i := by omega
        rw [hk2, Nat.mod_self, List.getElem?_range (by omega)] at h2
        have h3 : p.2 = f^[i] x0 := by simpa using h2.symm
        have hj : j = (i + k).succ := by omega
        rw [h3, hwrap, hj, Function.iterate_succ_apply']
    rw [hp1, hp2]
    exact (hf _ (hwalk (i + k))).2

/-- When every declared dependency is a module of the map, a failure of
`topological_sort` does come from a dependency cycle. -/
theorem topological_sort_failure_cycle (modules : ModuleMap) (hnd : modules.keys.Nodup)
    (hclosed : ∀ v info, (v, info) ∈ modules → ∀ d ∈ info.dependencies, d ∈ modules.keys)
    (hfail : topological_sort modules = some none) : ∃ cyc, is_cycle modules cyc := by
  obtain ⟨t, hinv, hq, hres⟩ := topological_sort_run modules hnd
  rw [hres] at hfail
  have hlen : t.queue.length ≠ modules.length := by
    by_contra hc
    rw [if_neg (by rw [hq]; exact not_not.2 hc)] at hfail
    simp at hfail
  have hstuck : ∃ x, x ∈ modules.keys ∧ x ∉ t.queue := by
    by_contra hc
    have hall : ∀ x ∈ modules.keys, x ∈ t.queue := by
      intro x hx
      by_contra hxq
      exact hc ⟨x, hx, hxq⟩
    have h1 := length_le_of_nodup_of_subset modules.keys t.queue hnd hall
    have h2 := length_le_of_nodup_of_subset t.queue modules.keys hinv.nodup hinv.sub
    have h3 : modules.keys.length = modules.length := by simp [ModuleMap.keys]
    omega
  obtain ⟨x0, hx0k, hx0q⟩ := hstuck
  apply exists_cycle_of_successors modules (fun v => v ∈ modules.keys ∧ v ∉ t.queue)
    (fun v hv => hv.1) ?_ x0 ⟨hx0k, hx0q⟩
  intro v hv
  obtain ⟨info, hinfo⟩ := (mem_keys_iff modules v).1 hv.1
  have hdeg := hinv.degree v info hinfo
  have hnz : t.in_degree v ≠ 0 := fun hz => hv.2 ((hinv.zero_iff v info hinfo).2 hz)
  have hne : info.dependencies.filter (fun d => decide (d ∉ t.sorted_order)) ≠ [] := by
    intro hnil
    rw [hnil] at hdeg
    simp at hdeg
    exact hnz hdeg
  obtain ⟨d, hd⟩ := List.exists_mem_of_ne_nil _ hne
  obtain ⟨hd1, hd2⟩ := List.mem_filter.1 hd
  have hd3 : d ∉ t.queue := by
    rw [← hq]
    simpa using hd2
  exact ⟨d, ⟨hclosed v info hinfo d hd1, hd3⟩, info, hinfo, hd1⟩

/-! ## Properties of `topological_sort` -/

/-- The main loop never exhausts its bound: `topological_sort` returns, either
an order or the failure value. -/
theorem topological_sort_returns (modules : ModuleMap) (hnd : modules.keys.Nodup) :
    ∃ r, topological_sort modules = some r := by
  obtain ⟨t, _, _, hres⟩ := topological_sort_run modules hnd
  rw [hres]
  split_ifs
  · exact ⟨_, rfl⟩
  · exact ⟨_, rfl⟩

/-- C1: when `topological_sort` returns an order, every dependency `d` of every
module `m` occurs in the order, and at a strictly smaller index than `m` (the
restriction of the claim to dependencies that are keys of the map is not needed:
on success every dependency is one). -/
theorem topological_sort_dependencies_first (modules : ModuleMap)
    (hnd : modules.keys.Nodup) (order : List String)
    (hsort : topological_sort modules = some (some order))
    (m : String) (info : ModuleInfo) (hm : (m, info) ∈ modules)
    (d : String) (hd : d ∈ info.dependencies) :
    d ∈ order ∧ m ∈ order ∧ ∀ i j : Nat, order[i]? = some d → order[j]? = some m → i < j := by
  obtain ⟨t, hinv, hq, hlen⟩ := topological_sort_some modules hnd order hsort
  subst hq
  have hmq : m ∈ t.queue :=
    mem_queue_of_full modules t hinv hlen m ((mem_keys_iff modules m).2 ⟨info, hm⟩)
  have key : ∀ j, t.queue[j]? = some m → d ∈ t.queue.take j :=
    fun j hj => hinv.before j m info hj hm d hd
  obtain ⟨j0, hj0⟩ := List.mem_iff_getElem?.1 hmq
  refine ⟨List.mem_of_mem_take (key j0 hj0), hmq, ?_⟩
  intro i j hi hj
  by_contra hij
  have hdj := key j hj
  have hle : j ≤ i := Nat.le_of_not_lt hij
  have hdi : d ∉ t.queue.take i := not_mem_take_of_nodup t.queue hinv.nodup i d hi
  apply hdi
  have hpre : (t.queue.take j).IsPrefix (t.queue.take i) := by
    rw [List.prefix_take_iff]
    refine ⟨List.take_prefix _ _, ?_⟩
    simp only [List.length_take]
    have := (List.getElem?_eq_some_iff.1 hi).1
    omega
  exact hpre.subset hdj

/-- Instance of C1 on the diamond `A→{}, B→{A}, C→{A}, D→{B,C}`: `B` precedes `D`. -/
theorem topological_sort_dependencies_first_witness :
    "B" ∈ ["A", "B", "C", "D"] ∧ "D" ∈ ["A", "B", "C", "D"] ∧
      ∀ i j : Nat, ["A", "B", "C", "D"][i]? = some "B" → ["A", "B", "C", "D"][j]? = some "D" → i < j :=
  topological_sort_dependencies_first diamond (by decide) ["A", "B", "C", "D"] (by decide)
    "D" (mk_module "D" ["B", "C"]).2 (by decide) "B" (by decide)

/-- C2: when `topological_sort` returns an order, the order is a permutation of
the keys of the map: every module name occurs exactly once, nothing else occurs. -/
theorem topological_sort_perm (modules : ModuleMap) (hnd : modules.keys.Nodup)
    (order : List String) (hsort : topological_sort modules = some (some order)) :
    order.Perm modules.keys ∧
      ∀ name, order.count name = if name ∈ modules.keys then 1 else 0 := by
  obtain ⟨t, hinv, hq, hlen⟩ := topological_sort_some modules hnd order hsort
  subst hq
  have hsp : t.queue.Subperm modules.keys := List.Nodup.subperm hinv.nodup hinv.sub
  have hperm : t.queue.Perm modules.keys :=
    hsp.perm_of_length_le (by simp [ModuleMap.keys, hlen])
  refine ⟨hperm, ?_⟩
  intro name
  by_cases hk : name ∈ modules.keys
  · rw [if_pos hk]
    exact List.count_eq_one_of_mem hinv.nodup (hperm.mem_iff.2 hk)
  · rw [if_neg hk]
    exact List.count_eq_zero_of_not_mem (fun hc => hk (hinv.sub name hc))

/-- Instance of C2 on the diamond. -/
theorem topological_sort_perm_witness :
    ["A", "B", "C", "D"].Perm diamond.keys ∧
      ∀ name, ["A", "B", "C", "D"].count name = if name ∈ diamond.keys then 1 else 0 :=
  topological_sort_perm diamond (by decide) ["A", "B", "C", "D"] (by decide)

/-- C3: when some modules of the map form a dependency cycle, `topological_sort`
returns the failure value, hence no order at all. -/
theorem topological_sort_cycle_fails (modules : ModuleMap) (hnd : modules.keys.Nodup)
    (c : List String) (hc : is_cycle modules c) :
    topological_sort modules = some none := by
  obtain ⟨t, hinv, hq, hres⟩ := topological_sort_run modules hnd
  rw [hres, if_pos]
  intro hlen
  rw [hq] at hlen
  obtain ⟨x, hx⟩ := List.exists_mem_of_ne_nil c hc.1
  obtain ⟨y, _, info, hinfo, _⟩ := cycle_successor modules c hc x hx
  have hxq : x ∈ t.queue :=
    mem_queue_of_full modules t hinv hlen x ((mem_keys_iff modules x).2 ⟨info, hinfo⟩)
  obtain ⟨j, hj⟩ := List.mem_iff_getElem?.1 hxq
  exact cycle_not_queued modules t hinv c hc j x hx hj

/-- Instance of C3 on the two-cycle `X→{Y}, Y→{X}`. -/
theorem topological_sort_cycle_fails_witness :
    topological_sort two_cycle = some none :=
  topological_sort_cycle_fails two_cycle (by decide) ["X", "Y"] (by decide)

/-- C4 fails on the code: the map with the single module `A` importing `std`,
which is not a module of the map, makes `topological_sort` return the failure
value although no modules of the map form a dependency cycle. -/
theorem topological_sort_fails_without_cycle :
    topological_sort unknown_dependency = some none ∧
      ∀ c, ¬ is_cycle unknown_dependency c := by
  refine ⟨by decide, ?_⟩
  intro c hc
  obtain ⟨x, hx⟩ := List.exists_mem_of_ne_nil c hc.1
  obtain ⟨y, hy, info, hinfo, hyd⟩ := cycle_successor unknown_dependency c hc x hx
  obtain ⟨z, _, info2, hinfo2, _⟩ := cycle_successor unknown_dependency c hc y hy
  simp only [unknown_dependency, mk_module, List.mem_singleton, Prod.mk.injEq] at hinfo hinfo2
  obtain ⟨_, rfl⟩ := hinfo
  simp only [List.mem_singleton] at hyd
  rw [hyd] at hinfo2
  exact absurd hinfo2.1 (by decide)

/-! ## Properties of `ModuleProcessor` -/

theorem resolve_loop_missing (self : ModuleProcessor) (deps : List String)
    (resolved : List ModuleReference)
    (h : ∃ d ∈ deps, self.m_dependency_ifcs.lookup d = none) :
    (self.resolve_loop deps resolved).1 = none := by
  induction deps generalizing resolved with
  | nil => simp at h
  | cons dep deps ih =>
    unfold ModuleProcessor.resolve_loop
    cases hl : self.m_dependency_ifcs.lookup dep with
    | none => rfl
    | some ifc =>
      simp only
      apply ih
      obtain ⟨d, hd, hdl⟩ := h
      rcases List.mem_cons.1 hd with hd | hd
      · rw [hd, hl] at hdl
        simp at hdl
      · exact ⟨d, hd, hdl⟩

theorem resolve_loop_present (self : ModuleProcessor) (deps : List String)
    (resolved : List ModuleReference)
    (h : ∀ d ∈ deps, self.m_dependency_ifcs.lookup d ≠ none) :
    ∃ r, self.resolve_loop deps resolved = (some r, "") := by
  induction deps generalizing resolved with
  | nil => exact ⟨resolved, rfl⟩
  | cons dep deps ih =>
    unfold ModuleProcessor.resolve_loop
    cases hl : self.m_dependency_ifcs.lookup dep with
    | none => exact absurd hl (h dep (List.mem_cons_self _ _))
    | some ifc =>
      simp only
      exact ih _ (fun d hd => h d (List.mem_cons_of_mem _ hd))

theorem resolve_dependencies_none_iff (self : ModuleProcessor) :
    self.resolve_dependencies.1 = none ↔
      ∃ d ∈ self.m_module.dependencies, self.m_dependency_ifcs.lookup d = none := by
  constructor
  · intro h
    by_contra hc
    have hall : ∀ d ∈ self.m_module.dependencies, self.m_dependency_ifcs.lookup d ≠ none :=
      fun d hd hl => hc ⟨d, hd, hl⟩
    obtain ⟨r, hr⟩ := resolve_loop_present self _ [] hall
    unfold ModuleProcessor.resolve_dependencies at h
    rw [hr] at h
    simp at h
  · exact resolve_loop_missing self _ []

theorem plan_sources_some (self : ModuleProcessor) (resolved_deps : List ModuleReference)
    (error_text : String) (sources : List path) (plan : ModuleBuildPlan) (trace : Trace)
    (plan2 : ModuleBuildPlan) (trace2 : Trace)
    (h : self.plan_sources resolved_deps error_text sources plan trace = (some plan2, trace2)) :
    trace2.calls = trace.calls ++
        sources.map (fun src => ToolchainCall.compile_obj (self.compile_args resolved_deps src)) ∧
      trace2.cerr = trace.cerr ∧
      plan2.actions.map some = plan.actions.map some ++
        sources.map (fun src => self.m_toolchain.action_of
          (ToolchainCall.compile_obj (self.compile_args resolved_deps src))) ∧
      plan2.generated_obj_paths = plan.generated_obj_paths ++
        sources.map self.get_obj_path_for_source ∧
      plan2.final_ifc_path = plan.final_ifc_path := by
  induction sources generalizing plan trace with
  | nil =>
    unfold ModuleProcessor.plan_sources at h
    obtain ⟨h1, h2⟩ := Prod.mk.inj h
    rw [← Option.some.inj h1, ← h2]
    simp
  | cons src rest ih =>
    unfold ModuleProcessor.plan_sources at h
    simp only at h
    cases hc : self.m_toolchain.generate_compile_obj_command (self.compile_args resolved_deps src) with
    | none =>
      rw [hc] at h
      simp at h
    | some cmd =>
      rw [hc] at h
      obtain ⟨h1, h2, h3, h4, h5⟩ := ih _ _ h
      refine ⟨?_, ?_, ?_, ?_, ?_⟩
      · rw [h1]; simp
      · rw [h2]
      · rw [h3]
        simp [IToolchain.action_of, IToolchain.respond, hc, ToolchainCall.output_path]
      · rw [h4]
        simp [ModuleProcessor.compile_args]
      · rw [h5]

theorem plan_sources_none (self : ModuleProcessor) (resolved_deps : List ModuleReference)
    (error_text : String) (sources : List path) (plan : ModuleBuildPlan) (trace : Trace)
    (trace2 : Trace)
    (h : self.plan_sources resolved_deps error_text sources plan trace = (none, trace2)) :
    ∃ pre src post, sources = pre ++ src :: post ∧
      (∀ x ∈ pre, self.m_toolchain.generate_compile_obj_command
        (self.compile_args resolved_deps x) ≠ none) ∧
      self.m_toolchain.generate_compile_obj_command (self.compile_args resolved_deps src) = none ∧
      trace2.calls = trace.calls ++
        (pre ++ [src]).map (fun x => ToolchainCall.compile_obj (self.compile_args resolved_deps x)) := by
  induction sources generalizing plan trace with
  | nil =>
    unfold ModuleProcessor.plan_sources at h
    simp at h
  | cons src rest ih =>
    unfold ModuleProcessor.plan_sources at h
    simp only at h
    cases hc : self.m_toolchain.generate_compile_obj_command (self.compile_args resolved_deps src) with
    | none =>
      rw [hc] at h
      refine ⟨[], src, rest, rfl, by simp, hc, ?_⟩
      have h2 := (Prod.mk.inj h).2
      rw [← h2]
      simp
    | some cmd =>
      rw [hc] at h
      obtain ⟨pre, s2, post, e1, e2, e3, e4⟩ := ih _ _ h
      refine ⟨src :: pre, s2, post, by rw [e1]; rfl, ?_, e3, ?_⟩
      · intro x hx
        rcases List.mem_cons.1 hx with hx | hx
        · rw [hx, hc]; simp
        · exact e2 x hx
      · rw [e4]; simp

theorem plan_sources_supported (self : ModuleProcessor) (resolved_deps : List ModuleReference)
    (error_text : String) (sources : List path) (plan : ModuleBuildPlan) (trace : Trace)
    (h : ∀ src ∈ sources, self.m_toolchain.generate_compile_obj_command
      (self.compile_args resolved_deps src) ≠ none) :
    ∃ plan2 trace2,
      self.plan_sources resolved_deps error_text sources plan trace = (some plan2, trace2) := by
  cases hr : self.plan_sources resolved_deps error_text sources plan trace with
  | mk r trace2 =>
    cases r with
    | some plan2 => exact ⟨plan2, trace2, rfl⟩
    | none =>
      obtain ⟨pre, src, post, e1, _, e3, _⟩ := plan_sources_none self _ _ _ _ _ _ hr
      exact absurd e3 (h src (by rw [e1]; simp))

theorem plan_interface_some (self : ModuleProcessor) (resolved_deps : List ModuleReference)
    (plan : ModuleBuildPlan) (trace : Trace) (plan2 : ModuleBuildPlan) (trace2 : Trace)
    (h : self.plan_interface resolved_deps plan trace = (some plan2, trace2)) :
    trace2.calls = trace.calls ++
        (if self.m_module.primary_interface = "" then []
         else [ToolchainCall.emit_ifc (self.emit_args resolved_deps)]) ∧
      trace2.cerr = trace.cerr ∧
      plan2.actions.map some = plan.actions.map some ++
        (if self.m_module.primary_interface = "" then []
         else [self.m_toolchain.action_of (ToolchainCall.emit_ifc (self.emit_args resolved_deps))]) ∧
      plan2.generated_obj_paths = plan.generated_obj_paths ++
        (if self.m_module.primary_interface = "" then []
         else [self.get_obj_path_for_source self.m_module.primary_interface]) ∧
      plan2.final_ifc_path =
        (if self.m_module.primary_interface = "" then plan.final_ifc_path
         else (self.emit_args resolved_deps).output_ifc_path) := by
  unfold ModuleProcessor.plan_interface at h
  by_cases hI : self.m_module.primary_interface = ""
  · rw [if_pos hI] at h
    obtain ⟨h1, h2⟩ := Prod.mk.inj h
    rw [← Option.some.inj h1, ← h2]
    simp [hI]
  · rw [if_neg hI] at h
    simp only at h
    cases hc : self.m_toolchain.generate_emit_ifc_command (self.emit_args resolved_deps) with
    | none =>
      rw [hc] at h
      simp at h
    | some cmd =>
      rw [hc] at h
      obtain ⟨h1, h2⟩ := Prod.mk.inj h
      rw [← Option.some.inj h1, ← h2]
      simp [hI, IToolchain.action_of, IToolchain.respond, hc, ToolchainCall.output_path]

theorem plan_interface_none (self : ModuleProcessor) (resolved_deps : List ModuleReference)
    (plan : ModuleBuildPlan) (trace : Trace) (trace2 : Trace)
    (h : self.plan_interface resolved_deps plan trace = (none, trace2)) :
    self.m_toolchain.generate_emit_ifc_command (self.emit_args resolved_deps) = none ∧
      trace2.calls = trace.calls ++ [ToolchainCall.emit_ifc (self.emit_args resolved_deps)] := by
  unfold ModuleProcessor.plan_interface at h
  by_cases hI : self.m_module.primary_interface = ""
  · rw [if_pos hI] at h
    simp at h
  · rw [if_neg hI] at h
    simp only at h
    cases hc : self.m_toolchain.generate_emit_ifc_command (self.emit_args resolved_deps) with
    | none =>
      rw [hc] at h
      have h2 := (Prod.mk.inj h).2
      rw [← h2]
      exact ⟨rfl, rfl⟩
    | some cmd =>
      rw [hc] at h
      simp at h

theorem resolve_dependencies_some (self : ModuleProcessor) (resolved : List ModuleReference)
    (err : String) (h : self.resolve_dependencies = (some resolved, err)) : err = "" := by
  have hall : ∀ d ∈ self.m_module.dependencies, self.m_dependency_ifcs.lookup d ≠ none := by
    intro d hd hl
    have := (resolve_dependencies_none_iff self).2 ⟨d, hd, hl⟩
    rw [h] at this
    simp at this
  obtain ⟨r, hr⟩ := resolve_loop_present self _ [] hall
  unfold ModuleProcessor.resolve_dependencies at h
  rw [hr] at h
  exact ((Prod.mk.inj h).2).symm

/-- The requests of a complete plan, for the resolved references `resolved`. -/
theorem generate_build_plan_some (self : ModuleProcessor) (plan : ModuleBuildPlan)
    (trace : Trace) (h : self.generate_build_plan = (some plan, trace)) :
    ∃ resolved, self.resolve_dependencies = (some resolved, "") ∧
      trace.calls =
        self.m_module.partitions.map
            (fun src => ToolchainCall.compile_obj (self.compile_args resolved src)) ++
          (if self.m_module.primary_interface = "" then []
           else [ToolchainCall.emit_ifc (self.emit_args resolved)]) ++
          self.m_module.implementations.map
            (fun src => ToolchainCall.compile_obj (self.compile_args resolved src)) ∧
      plan.actions.map some = trace.calls.map self.m_toolchain.action_of ∧
      plan.generated_obj_paths =
        self.m_module.partitions.map self.get_obj_path_for_source ++
          (if self.m_module.primary_interface = "" then []
           else [self.get_obj_path_for_source self.m_module.primary_interface]) ++
          self.m_module.implementations.map self.get_obj_path_for_source ∧
      plan.final_ifc_path =
        (if self.m_module.primary_interface = "" then ""
         else (self.emit_args resolved).output_ifc_path) ∧
      trace.cerr = "" := by
  unfold ModuleProcessor.generate_build_plan at h
  cases hr : self.resolve_dependencies with
  | mk r err =>
    rw [hr] at h
    cases r with
    | none => simp at h
    | some resolved =>
      have herr := resolve_dependencies_some self resolved err hr
      subst herr
      simp only at h
      refine ⟨resolved, rfl, ?_⟩
      cases h1 : self.plan_sources resolved
          "Error: Failed to generate compile command for partition '"
          self.m_module.partitions {} { calls := [], cerr := "" } with
      | mk r1 t1 =>
        rw [h1] at h
        cases r1 with
        | none => simp at h
        | some p1 =>
          simp only at h
          cases h2 : self.plan_interface resolved p1 t1 with
          | mk r2 t2 =>
            rw [h2] at h
            cases r2 with
            | none => simp at h
            | some p2 =>
              simp only at h
              obtain ⟨a1, a2, a3, a4, a5⟩ := plan_sources_some self _ _ _ _ _ _ _ h1
              obtain ⟨b1, b2, b3, b4, b5⟩ := plan_interface_some self _ _ _ _ _ h2
              obtain ⟨c1, c2, c3, c4, c5⟩ := plan_sources_some self _ _ _ _ _ _ _ h
              have hcalls : trace.calls =
                  self.m_module.partitions.map
                      (fun src => ToolchainCall.compile_obj (self.compile_args resolved src)) ++
                    (if self.m_module.primary_interface = "" then []
                     else [ToolchainCall.emit_ifc (self.emit_args resolved)]) ++
                    self.m_module.implementations.map
                      (fun src => ToolchainCall.compile_obj (self.compile_args resolved src)) := by
                rw [c1, b1, a1]; simp
              refine ⟨hcalls, ?_, ?_, ?_, ?_⟩
              · rw [hcalls, c3, b3, a3]
                by_cases hI : self.m_module.primary_interface = "" <;>
                  simp [hI, List.map_append, Function.comp_def]
              · rw [c4, b4, a4]; simp
              · rw [c5, b5, a5]
              · rw [c2, b2, a2]

/-- When planning fails although every dependency is in the mapping, the last
request made is one the toolchain does not support, and it is the only one. -/
theorem generate_build_plan_none (self : ModuleProcessor) (trace : Trace)
    (h : self.generate_build_plan = (none, trace))
    (hdeps : ∀ d ∈ self.m_module.dependencies, self.m_dependency_ifcs.lookup d ≠ none) :
    ∃ pre call, trace.calls = pre ++ [call] ∧ self.m_toolchain.respond call = none ∧
      ∀ c ∈ pre, self.m_toolchain.respond c ≠ none := by
  unfold ModuleProcessor.generate_build_plan at h
  cases hr : self.resolve_dependencies with
  | mk r err =>
    rw [hr] at h
    cases r with
    | none =>
      obtain ⟨d, hd, hl⟩ := (resolve_dependencies_none_iff self).1 (by rw [hr])
      exact absurd hl (hdeps d hd)
    | some resolved =>
      simp only at h
      cases h1 : self.plan_sources resolved
          "Error: Failed to generate compile command for partition '"
          self.m_module.partitions {} { calls := [], cerr := err } with
      | mk r1 t1 =>
        rw [h1] at h
        cases r1 with
        | none =>
          simp only at h
          have ht : t1 = trace := (Prod.mk.inj h).2
          subst ht
          obtain ⟨pre, src, post, _, e2, e3, e4⟩ := plan_sources_none self _ _ _ _ _ _ h1
          refine ⟨pre.map (fun x => ToolchainCall.compile_obj (self.compile_args resolved x)),
            ToolchainCall.compile_obj (self.compile_args resolved src), ?_, e3, ?_⟩
          · rw [e4]; simp
          · intro c hc
            obtain ⟨x, hx, rfl⟩ := List.mem_map.1 hc
            exact e2 x hx
        | some p1 =>
          simp only at h
          obtain ⟨a1, _, a3, _, _⟩ := plan_sources_some self _ _ _ _ _ _ _ h1
          have hsup1 : ∀ c ∈ t1.calls, self.m_toolchain.respond c ≠ none := by
            intro c hc hn
            have hmem : self.m_toolchain.action_of c ∈ p1.actions.map some := by
              rw [a3]
              rw [a1] at hc
              simp only [List.nil_append] at hc
              simp only [List.map_nil, List.nil_append]
              obtain ⟨x, hx, rfl⟩ := List.mem_map.1 hc
              exact List.mem_map.2 ⟨x, hx, rfl⟩
            simp [IToolchain.action_of, hn] at hmem
          cases h2 : self.plan_interface resolved p1 t1 with
          | mk r2 t2 =>
            rw [h2] at h
            cases r2 with
            | none =>
              simp only at h
              have ht : t2 = trace := (Prod.mk.inj h).2
              subst ht
              obtain ⟨e1, e2⟩ := plan_interface_none self _ _ _ _ h2
              exact ⟨t1.calls, ToolchainCall.emit_ifc (self.emit_args resolved), e2, e1, hsup1⟩
            | some p2 =>
              simp only at h
              obtain ⟨b1, _, b3, _, _⟩ := plan_interface_some self _ _ _ _ _ h2
              have hsup2 : ∀ c ∈ t2.calls, self.m_toolchain.respond c ≠ none := by
                intro c hc hn
                rw [b1] at hc
                rcases List.mem_append.1 hc with hc | hc
                · exact hsup1 c hc hn
                · by_cases hI : self.m_module.primary_interface = ""
                  · simp [hI] at hc
                  · simp only [hI, if_false, List.mem_singleton] at hc
                    have hmem : self.m_toolchain.action_of c ∈ p2.actions.map some := by
                      rw [b3]
                      simp [hI, hc]
                    simp [IToolchain.action_of, hn] at hmem
              obtain ⟨pre, src, post, _, e2, e3, e4⟩ := plan_sources_none self _ _ _ _ _ _ h
              refine ⟨t2.calls ++
                  pre.map (fun x => ToolchainCall.compile_obj (self.compile_args resolved x)),
                ToolchainCall.compile_obj (self.compile_args resolved src), ?_, e3, ?_⟩
              · rw [e4]; simp
              · intro c hc
                rcases List.mem_append.1 hc with hc | hc
                · exact hsup2 c hc
                · obtain ⟨x, hx, rfl⟩ := List.mem_map.1 hc
                  exact e2 x hx

theorem generate_build_plan_calls_supported (self : ModuleProcessor) (plan : ModuleBuildPlan)
    (trace : Trace) (h : self.generate_build_plan = (some plan, trace)) :
    ∀ c ∈ trace.calls, self.m_toolchain.respond c ≠ none := by
  obtain ⟨_, _, _, hact, _, _, _⟩ := generate_build_plan_some self plan trace h
  intro c hc hn
  have hmem : self.m_toolchain.action_of c ∈ plan.actions.map some := by
    rw [hact]
    exact List.mem_map.2 ⟨c, hc, rfl⟩
  simp [IToolchain.action_of, hn] at hmem

/-- C5: when every declared dependency is in the mapping and the toolchain
supports every request, `generate_build_plan` succeeds; the requests it makes
are `compile_obj` for each partition, `emit_ifc` for the primary interface when
there is one, `compile_obj` for each implementation, in that order; and the plan
has one action per request, in the order of the requests (the command returned
for the request with the output path requested). -/
theorem generate_build_plan_order (self : ModuleProcessor)
    (hdeps : ∀ d ∈ self.m_module.dependencies, self.m_dependency_ifcs.lookup d ≠ none)
    (hsup : ∀ call, self.m_toolchain.respond call ≠ none) :
    ∃ plan, self.generate_build_plan.1 = some plan ∧
      self.generate_build_plan.2.calls.map ToolchainCall.record =
        self.m_module.partitions.map (fun src => ("compile_obj", src)) ++
          (if self.m_module.primary_interface = "" then []
           else [("emit_ifc", self.m_module.primary_interface)]) ++
          self.m_module.implementations.map (fun src => ("compile_obj", src)) ∧
      plan.actions.length =
        self.m_module.partitions.length +
          (if self.m_module.primary_interface = "" then 0 else 1) +
          self.m_module.implementations.length ∧
      plan.actions.map some =
        self.generate_build_plan.2.calls.map self.m_toolchain.action_of := by
  cases hg : self.generate_build_plan with
  | mk r trace =>
    cases r with
    | none =>
      obtain ⟨pre, call, _, hn, _⟩ := generate_build_plan_none self trace hg hdeps
      exact absurd hn (hsup call)
    | some plan =>
      obtain ⟨resolved, _, hcalls, hact, _, _, _⟩ := generate_build_plan_some self plan trace hg
      refine ⟨plan, rfl, ?_, ?_, hact⟩
      · show trace.calls.map ToolchainCall.record = _
        rw [hcalls]
        by_cases hI : self.m_module.primary_interface = "" <;>
          simp [hI, ToolchainCall.record, ModuleProcessor.compile_args,
            ModuleProcessor.emit_args, Function.comp_def]
      · have hlen := congrArg List.length hact
        rw [List.length_map, List.length_map, hcalls] at hlen
        rw [hlen]
        by_cases hI : self.m_module.primary_interface = ""
        · simp [hI]
        · simp [hI]
          omega

/-- Instance of C5 on test 2A: the four requests of the test, in its order. -/
theorem generate_build_plan_order_witness :
    ∃ plan, test_processor.generate_build_plan.1 = some plan ∧
      test_processor.generate_build_plan.2.calls.map ToolchainCall.record =
        ["gfx/renderer.ixx", "gfx/shader.cpp"].map (fun src => ("compile_obj", src)) ++
          (if ("gfx/graphics.ixx" : String) = "" then []
           else [("emit_ifc", "gfx/graphics.ixx")]) ++
          ["gfx/utils.cpp"].map (fun src => ("compile_obj", src)) ∧
      plan.actions.length =
        2 + (if ("gfx/graphics.ixx" : String) = "" then 0 else 1) + 1 ∧
      plan.actions.map some =
        test_processor.generate_build_plan.2.calls.map MockToolchain.action_of :=
  generate_build_plan_order test_processor (by decide)
    (fun call => by cases call <;> simp [IToolchain.respond, test_processor,
      ModuleProcessor.construct, MockToolchain])

theorem generate_build_plan_of_unresolved (self : ModuleProcessor)
    (hr : self.resolve_dependencies.1 = none) :
    self.generate_build_plan.1 = none ∧ self.generate_build_plan.2.calls = [] := by
  unfold ModuleProcessor.generate_build_plan
  cases hres : self.resolve_dependencies with
  | mk r err =>
    rw [hres] at hr
    simp only at hr
    subst hr
    exact ⟨rfl, rfl⟩

/-- C6: when some declared dependency is absent from the mapping,
`generate_build_plan` returns the absent result and makes no request to the
toolchain, whatever the partitions, interface and implementations are. -/
theorem generate_build_plan_missing_dependency (self : ModuleProcessor)
    (h : ∃ d ∈ self.m_module.dependencies, self.m_dependency_ifcs.lookup d = none) :
    self.generate_build_plan.1 = none ∧ self.generate_build_plan.2.calls = [] := by
  obtain ⟨d, hd, hl⟩ := h
  apply generate_build_plan_of_unresolved
  exact resolve_loop_missing self self.m_module.dependencies [] ⟨d, hd, hl⟩

/-- Instance of C6: the module of test 2A planned with an empty mapping. -/
theorem generate_build_plan_missing_dependency_witness :
    (ModuleProcessor.construct test_module MockToolchain "build" []).generate_build_plan.1 = none ∧
      (ModuleProcessor.construct test_module MockToolchain "build" []).generate_build_plan.2.calls
        = [] :=
  generate_build_plan_missing_dependency
    (ModuleProcessor.construct test_module MockToolchain "build" [])
    ⟨"Core", by decide, by decide⟩

/-- C7: `generate_build_plan` returns the absent result exactly when a declared
dependency is missing from the mapping or the toolchain answers `unsupported` to
one of the requests made; a request answered `unsupported` is the last request
made, and the result is then absent. -/
theorem generate_build_plan_failure_iff (self : ModuleProcessor) :
    (self.generate_build_plan.1 = none ↔
      (∃ d ∈ self.m_module.dependencies, self.m_dependency_ifcs.lookup d = none) ∨
        (∃ c ∈ self.generate_build_plan.2.calls, self.m_toolchain.respond c = none)) ∧
      (∀ pre c post, self.generate_build_plan.2.calls = pre ++ c :: post →
        self.m_toolchain.respond c = none →
          post = [] ∧ self.generate_build_plan.1 = none) := by
  cases hg : self.generate_build_plan with
  | mk r trace =>
    cases r with
    | some plan =>
      have hsup := generate_build_plan_calls_supported self plan trace hg
      have hdeps : ¬ ∃ d ∈ self.m_module.dependencies, self.m_dependency_ifcs.lookup d = none := by
        intro hm
        have := (generate_build_plan_of_unresolved self ((resolve_dependencies_none_iff self).2 hm)).1
        rw [hg] at this
        simp at this
      refine ⟨⟨fun h => by simp at h, ?_⟩, ?_⟩
      · rintro (hm | ⟨c, hc, hn⟩)
        · exact absurd hm hdeps
        · exact absurd hn (hsup c hc)
      · intro pre c post hcalls hn
        exact absurd hn (hsup c (by
          show c ∈ trace.calls
          have : trace.calls = pre ++ c :: post := hcalls
          rw [this]; simp))
    | none =>
      by_cases hm : ∃ d ∈ self.m_module.dependencies, self.m_dependency_ifcs.lookup d = none
      · have hcalls : trace.calls = [] := by
          have := (generate_build_plan_of_unresolved self ((resolve_dependencies_none_iff self).2 hm)).2
          rw [hg] at this
          exact this
        refine ⟨⟨fun _ => Or.inl hm, fun _ => rfl⟩, ?_⟩
        intro pre c post hc _
        have hc2 : trace.calls = pre ++ c :: post := hc
        rw [hcalls] at hc2
        simp at hc2
      · have hdeps : ∀ d ∈ self.m_module.dependencies,
            self.m_dependency_ifcs.lookup d ≠ none := fun d hd hl => hm ⟨d, hd, hl⟩
        obtain ⟨pre0, call, hcalls, hn, hpre⟩ := generate_build_plan_none self trace hg hdeps
        refine ⟨⟨fun _ => Or.inr ⟨call, ?_, hn⟩, fun _ => rfl⟩, ?_⟩
        · show call ∈ trace.calls
          rw [hcalls]; simp
        · intro pre c post hc hcn
          refine ⟨?_, rfl⟩
          have hc2 : pre0 ++ [call] = pre ++ c :: post := by
            rw [← hcalls]; exact hc
          by_contra hpost
          obtain ⟨post2, last, hlast⟩ : ∃ post2 last, post = post2 ++ [last] :=
            ⟨post.dropLast, post.getLast hpost, (List.dropLast_append_getLast hpost).symm⟩
          rw [hlast] at hc2
          have hc3 : pre0 ++ [call] = (pre ++ c :: post2) ++ [last] := by
            rw [hc2]; simp
          have hpre0 : pre0 = pre ++ c :: post2 := (List.append_inj' hc3 rfl).1
          exact hpre c (by rw [hpre0]; simp) hcn

/-- Instance of C7: with a toolchain that does not support emit-interface
requests, planning the module of test 2A fails, and the emit-interface request
is the last one made (the implementation `gfx/utils.cpp` is never requested). -/
theorem generate_build_plan_failure_iff_witness :
    no_interface_processor.generate_build_plan.1 = none ∧
      no_interface_processor.generate_build_plan.2.calls.map ToolchainCall.record =
        [("compile_obj", "gfx/renderer.ixx"), ("compile_obj", "gfx/shader.cpp"),
         ("emit_ifc", "gfx/graphics.ixx")] :=
  ⟨(generate_build_plan_failure_iff no_interface_processor).1.2
      (Or.inr ⟨no_interface_processor.generate_build_plan.2.calls.getLast (by decide),
        by decide, by decide⟩),
    by decide⟩

/-! ## Properties of the path operations -/

theorem starts_with_drive_eq (cs : List Char) (h : starts_with_drive cs = true) :
    ∃ a rest, cs = a :: ':' :: rest := by
  match cs, h with
  | a :: d :: rest, h =>
    simp only [starts_with_drive, Bool.and_eq_true, beq_iff_eq] at h
    exact ⟨a, rest, by rw [h.2]⟩

theorem root_name_length_cases (cs : List Char) :
    (starts_with_drive cs = true ∧ root_name_length cs = 2) ∨
      (starts_with_drive cs = false ∧
        (root_name_length cs = 0 ∨ 3 ≤ root_name_length cs)) := by
  unfold root_name_length
  by_cases hd : starts_with_drive cs = true
  · exact Or.inl ⟨hd, by rw [if_pos hd]⟩
  · right
    refine ⟨by simpa using hd, ?_⟩
    rw [if_neg hd]
    split
    · split_ifs
      · exact Or.inl rfl
      · exact Or.inr (Nat.le_refl _)
      · exact Or.inr (Nat.le_add_right _ _)
      · exact Or.inl rfl
    · exact Or.inl rfl

/-- A pathname that starts neither with a drive nor with a separator. -/
theorem root_name_length_of_simple (cs : List Char) (hd : starts_with_drive cs = false)
    (hs : ∀ c, cs.head? = some c → is_slash c = false) : root_name_length cs = 0 := by
  unfold root_name_length
  rw [hd]
  simp only [Bool.false_eq_true, if_false]
  split
  · rename_i c0 c1 c2 rest
    have := hs c0 rfl
    simp [this]
  · rfl

theorem append_simple (p q : path) (hd : starts_with_drive q.data = false)
    (hs : ∀ c, q.data.head? = some c → is_slash c = false) :
    p.append q = p ++ (if p.needs_separator then "\\" else "") ++ q := by
  have hr := root_name_length_of_simple q.data hd hs
  have habs : q.is_absolute = false := by
    unfold path.is_absolute
    rw [hd, hr]
    simp
  have hm : (match q.data with
      | c :: _ => is_slash c
      | [] => false) = false := by
    cases hq : q.data with
    | nil => rfl
    | cons c cs => exact hs c (by rw [hq]; rfl)
  unfold path.append
  simp only [habs, hr, Bool.false_eq_true, if_false, ne_eq, not_true_eq_false, false_and,
    List.drop_zero]
  rw [hm]
  simp only [Bool.false_eq_true, if_false]
  have hq : (String.mk q.data : String) = q := rfl
  rw [hq]
  by_cases hn : p.needs_separator = true
  · simp only [hn, if_true]
  · simp only [hn, if_false]
    apply String.ext
    simp [String.data_append]

theorem needs_separator_of_last (p : path) (c : Char) (hlast : p.data.getLast? = some c)
    (hs : is_slash c = false) (hc : c ≠ ':') : p.needs_separator = true := by
  unfold path.needs_separator
  by_cases hr : root_name_length p.data = p.data.length
  · rw [if_pos hr]
    rcases root_name_length_cases p.data with ⟨hd, h2⟩ | ⟨_, h0 | h3⟩
    · obtain ⟨a, rest, he⟩ := starts_with_drive_eq p.data hd
      rw [h2, he] at hr
      have hrest : rest = [] := by
        simp only [List.length_cons] at hr
        exact List.length_eq_zero.1 (by omega)
      rw [he, hrest] at hlast
      simp at hlast
      exact absurd hlast.symm hc
    · rw [h0] at hr
      have hnil : p.data = [] := List.length_eq_zero.1 hr.symm
      rw [hnil] at hlast
      simp at hlast
    · simpa using h3
  · rw [if_neg hr, hlast]
    simp [hs]

theorem filename_chars_no_slash (cs : List Char) : ∀ c ∈ filename_chars cs, is_slash c = false := by
  intro c hc
  unfold filename_chars at hc
  rw [List.mem_reverse] at hc
  have := List.mem_takeWhile_imp hc
  simpa using this

theorem root_name_length_le_start (cs : List Char) : root_name_length cs ≤ relative_path_start cs :=
  Nat.le_add_right _ _

theorem needs_separator_of_has_filename (p : path) (h : p.has_filename = true) :
    p.needs_separator = true := by
  unfold path.has_filename filename_chars at h
  generalize hd : p.data.drop (relative_path_start p.data) = d at h
  have hne : d.reverse.takeWhile (fun c => !is_slash c) ≠ [] := by
    intro hc
    rw [hc] at h
    simp at h
  have hdne : d ≠ [] := by
    intro hc
    rw [hc] at hne
    simp at hne
  have hlast : is_slash (d.getLast hdne) = false := by
    cases hrev : d.reverse with
    | nil => exact absurd (List.reverse_eq_nil_iff.1 hrev) hdne
    | cons x xs =>
      rw [hrev] at hne
      have hx : d.getLast hdne = x := by
        have := List.getLast_eq_head_reverse hdne
        rw [this]
        simp [hrev]
      rw [hx]
      by_contra hc
      apply hne
      have hx2 : is_slash x = true := by simpa using hc
      simp [List.takeWhile, hx2]
  have hlen : relative_path_start p.data < p.data.length := by
    by_contra hc
    apply hdne
    rw [← hd]
    exact List.drop_eq_nil_of_le (Nat.le_of_not_lt hc)
  have hpl : p.data.getLast? = some (d.getLast hdne) := by
    have hsplit : p.data = p.data.take (relative_path_start p.data) ++ d := by
      rw [← hd, List.take_append_drop]
    rw [hsplit, List.getLast?_append_of_ne_nil _ hdne, List.getLast?_eq_getLast _ hdne]
  unfold path.needs_separator
  have hr : root_name_length p.data ≠ p.data.length := by
    have := root_name_length_le_start p.data
    omega
  rw [if_neg hr, hpl]
  simp [hlast]

theorem simple_of_plain_chars (cs : List Char) (h : ∀ c ∈ cs, is_slash c = false ∧ c ≠ ':') :
    starts_with_drive cs = false ∧ ∀ c, cs.head? = some c → is_slash c = false := by
  constructor
  · by_contra hc
    obtain ⟨a, rest, he⟩ := starts_with_drive_eq cs (by simpa using hc)
    exact (h ':' (by rw [he]; simp)).2 rfl
  · intro c hc
    exact (h c (List.mem_of_mem_head? hc)).1

/-- Joining a plain component to a path: the path, a separator as
`needs_separator` says, and the component. -/
theorem append_plain (p : path) (name : String) (h : plain_component name) :
    p.append name = p ++ (if p.needs_separator then "\\" else "") ++ name := by
  obtain ⟨h1, h2⟩ := simple_of_plain_chars name.data h.2
  exact append_simple p name h1 h2

theorem needs_separator_append_plain (p name : String) (h : plain_component name) :
    path.needs_separator (p ++ name) = true := by
  have hne : name.data ≠ [] := by
    intro hc
    apply h.1
    exact String.ext hc
  have hlast : (p ++ name).data.getLast? = some (name.data.getLast hne) := by
    rw [String.data_append, List.getLast?_append_of_ne_nil _ hne, List.getLast?_eq_getLast _ hne]
  have hm := h.2 _ (List.getLast_mem hne)
  exact needs_separator_of_last _ _ hlast hm.1 hm.2

theorem filename_chars_self (f : List Char) (hs : ∀ c ∈ f, is_slash c = false)
    (hd : starts_with_drive f = false) : filename_chars f = f := by
  have hr : root_name_length f = 0 :=
    root_name_length_of_simple f hd (fun c hc => hs c (List.mem_of_mem_head? hc))
  have hstart : relative_path_start f = 0 := by
    unfold relative_path_start
    rw [hr, List.drop_zero, Nat.zero_add]
    cases f with
    | nil => rfl
    | cons c cs =>
      have := hs c (List.mem_cons_self _ _)
      simp [List.takeWhile, this]
  unfold filename_chars
  rw [hstart, List.drop_zero]
  have ht : f.reverse.takeWhile (fun c => !is_slash c) = f.reverse := by
    rw [List.takeWhile_eq_self_iff]
    intro c hc
    have := hs c (List.mem_reverse.1 hc)
    simp [this]
  rw [ht, List.reverse_reverse]

theorem replace_extension_data (p replacement : path)
    (hr : ¬ (replacement ≠ "" ∧ replacement.data.head? ≠ some '.')) :
    (p.replace_extension replacement).data =
      p.data.take (p.data.length - (filename_chars p.data).length +
        ((stream_base (filename_chars p.data)).length -
          (extension_chars (stream_base (filename_chars p.data))).length)) ++
        replacement.data := by
  unfold path.replace_extension
  simp only [if_neg hr, String.data_append]

theorem replace_extension_obj_data (p : path) :
    (p.replace_extension ".obj").data =
      p.data.take (p.data.length - (filename_chars p.data).length +
        ((stream_base (filename_chars p.data)).length -
          (extension_chars (stream_base (filename_chars p.data))).length)) ++
        ".obj".data :=
  replace_extension_data p ".obj" (by decide)

theorem replace_extension_pcm_data (p : path) :
    (p.replace_extension ".pcm").data =
      p.data.take (p.data.length - (filename_chars p.data).length +
        ((stream_base (filename_chars p.data)).length -
          (extension_chars (stream_base (filename_chars p.data))).length)) ++
        ".pcm".data :=
  replace_extension_data p ".pcm" (by decide)

/-- The object file name of a source whose file name does not start with a
drive: the stem of the source and `.obj`. -/
theorem obj_name_eq_stem (source_path : path)
    (hd : starts_with_drive (filename_chars source_path.data) = false) :
    source_path.filename.replace_extension ".obj" = source_path.stem ++ ".obj" := by
  apply String.ext
  rw [replace_extension_obj_data]
  have hf : (path.filename source_path).data = filename_chars source_path.data := rfl
  rw [hf, filename_chars_self _ (filename_chars_no_slash source_path.data) hd]
  unfold path.stem
  simp only
  generalize filename_chars source_path.data = f
  have hsplit : f = stream_base f ++ f.dropWhile (fun c => c ≠ ':') := by
    unfold stream_base
    exact (List.takeWhile_append_dropWhile _ f).symm
  have hk : f.length - f.length +
      ((stream_base f).length - (extension_chars (stream_base f)).length) =
        (stream_base f).length - (extension_chars (stream_base f)).length := by omega
  rw [hk]
  have htake : f.take ((stream_base f).length - (extension_chars (stream_base f)).length) =
      (stream_base f ++ f.dropWhile (fun c => c ≠ ':')).take
        ((stream_base f).length - (extension_chars (stream_base f)).length) := by
    rw [← hsplit]
  rw [htake, List.take_append_of_le_length (Nat.sub_le _ _)]
  simp [String.data_append]

theorem stem_chars_plain (source_path : path) :
    ∀ c ∈ source_path.stem.data, is_slash c = false ∧ c ≠ ':' := by
  intro c hc
  unfold path.stem at hc
  simp only at hc
  have h1 := List.mem_of_mem_take hc
  unfold stream_base at h1
  constructor
  · exact filename_chars_no_slash source_path.data c ((List.takeWhile_prefix _).subset h1)
  · have := List.mem_takeWhile_imp h1
    simpa using this

theorem obj_name_plain (source_path : path) : plain_component (source_path.stem ++ ".obj") := by
  constructor
  · intro h
    have := congrArg String.data h
    simp [String.data_append] at this
  · intro c hc
    rw [String.data_append] at hc
    rcases List.mem_append.1 hc with hc | hc
    · exact stem_chars_plain source_path c hc
    · have hobj : ∀ c ∈ ".obj".data, is_slash c = false ∧ c ≠ ':' := by decide
      exact hobj c hc

theorem get_obj_path_for_source_stem (self : ModuleProcessor) (source_path : path)
    (hd : starts_with_drive (filename_chars source_path.data) = false) :
    self.get_obj_path_for_source source_path =
      self.m_module_artifact_dir.append (source_path.stem ++ ".obj") := by
  unfold ModuleProcessor.get_obj_path_for_source
  rw [obj_name_eq_stem source_path hd]

theorem plain_component_append (name suffix : String) (h : plain_component name)
    (hs : ∀ c ∈ suffix.data, is_slash c = false ∧ c ≠ ':') :
    plain_component (name ++ suffix) := by
  constructor
  · intro hc
    apply h.1
    have := congrArg String.data hc
    simp only [String.data_append] at this
    have hnil : name.data = [] := (List.append_eq_nil.1 this).1
    exact String.ext hnil
  · intro c hc
    rw [String.data_append] at hc
    rcases List.mem_append.1 hc with hc | hc
    · exact h.2 c hc
    · exact hs c hc

/-- The artifact directory of a module with a plain name, and a plain file name
joined to it. -/
theorem artifact_path_plain (build_dir : path) (name file : String)
    (h : plain_component name) (hf : plain_component file) :
    (build_dir.append name).append file =
      build_dir ++ (if build_dir.needs_separator then "\\" else "") ++ name ++ "\\" ++ file := by
  rw [append_plain build_dir name h, append_plain _ file hf,
    needs_separator_append_plain _ name h]
  rfl

/-- The derived object path of a source whose file name does not start with a
drive, for a processor of a module with a plain name: the artifact directory,
the separator `\`, the stem of the source and `.obj`. -/
theorem get_obj_path_for_source_plain (unit : ModuleUnit) (toolchain : IToolchain)
    (build_dir : path) (ifcs : List (String × path)) (source_path : path)
    (h : plain_component unit.name)
    (hd : starts_with_drive (filename_chars source_path.data) = false) :
    (ModuleProcessor.construct unit toolchain build_dir ifcs).get_obj_path_for_source source_path =
      build_dir ++ (if build_dir.needs_separator then "\\" else "") ++ unit.name ++ "\\" ++
        (source_path.stem ++ ".obj") := by
  rw [get_obj_path_for_source_stem _ _ hd]
  exact artifact_path_plain build_dir unit.name _ h (obj_name_plain source_path)

theorem final_path_plain (build_dir : path) (name : String) (hb : build_dir.has_filename = true)
    (h : plain_component name) :
    (build_dir.append name).append (name ++ ".ifc") =
      build_dir ++ "\\" ++ name ++ "\\" ++ (name ++ ".ifc") := by
  rw [artifact_path_plain build_dir name _ h
    (plain_component_append name ".ifc" h (by decide)),
    needs_separator_of_has_filename build_dir hb]
  rfl

theorem root_name_length_ifc_le (name : String)
    (habs : ¬ path.is_absolute (name ++ ".ifc") = true) :
    root_name_length (name ++ ".ifc").data ≤ name.data.length := by
  have hq : (name ++ ".ifc").data = name.data ++ ".ifc".data := String.data_append _ _
  rcases root_name_length_cases (name ++ ".ifc").data with ⟨hd, h2⟩ | ⟨hd, h0 | h3⟩
  · rw [h2]
    obtain ⟨a, rest, he⟩ := starts_with_drive_eq _ hd
    rw [hq] at he
    match hn : name.data with
    | [] =>
      rw [hn] at he
      have h1 : ([] ++ ".ifc".data)[1]? = some ':' := by rw [he]; simp
      exact absurd h1 (by decide)
    | [x] =>
      rw [hn] at he
      have h1 : '.' = ':' := (List.cons.inj (List.cons.inj he).2).1
      exact absurd h1 (by decide)
    | x :: y :: l => simp
  · rw [h0]
    exact Nat.zero_le _
  · exfalso
    apply habs
    unfold path.is_absolute
    rw [hd]
    simp only [Bool.false_eq_true, if_false, decide_eq_true_eq]
    omega

/-- The path `dir / (name + ".ifc")` ends with `.ifc`, whatever `dir` and
`name` are. -/
theorem append_ifc_suffix (dir : path) (name : String) :
    ∃ front : List Char, (dir.append (name ++ ".ifc")).data = front ++ ".ifc".data := by
  have hq : (name ++ ".ifc").data = name.data ++ ".ifc".data := String.data_append _ _
  by_cases habs : path.is_absolute (name ++ ".ifc") = true
  · unfold path.append
    simp only
    rw [if_pos habs]
    exact ⟨name.data, hq⟩
  · have hle := root_name_length_ifc_le name habs
    have hdrop : (name ++ ".ifc").data.drop (root_name_length (name ++ ".ifc").data) =
        name.data.drop (root_name_length (name ++ ".ifc").data) ++ ".ifc".data := by
      rw [hq, List.drop_append_of_le_length (by rw [← hq]; exact hle)]
    unfold path.append
    simp only
    rw [if_neg habs]
    split_ifs
    · exact ⟨name.data, hq⟩
    · exact ⟨dir.data.take (root_name_length dir.data) ++
        name.data.drop (root_name_length (name ++ ".ifc").data), by
          rw [hdrop]; simp⟩
    · exact ⟨dir.data ++ "\\".data ++
        name.data.drop (root_name_length (name ++ ".ifc").data), by
          rw [String.data_append, String.data_append, hdrop]; simp⟩
    · exact ⟨dir.data ++
        name.data.drop (root_name_length (name ++ ".ifc").data), by
          rw [String.data_append, hdrop]; simp⟩

theorem ifc_path_replace_extension_ne (dir : path) (name : String) :
    (dir.append (name ++ ".ifc")).replace_extension ".pcm" ≠ dir.append (name ++ ".ifc") := by
  intro h
  obtain ⟨front, hf⟩ := append_ifc_suffix dir name
  have hd := congrArg String.data h
  rw [replace_extension_pcm_data] at hd
  generalize List.take _ (dir.append (name ++ ".ifc")).data = base at hd
  rw [hf] at hd
  have := (List.append_inj' hd (by decide)).2
  revert this
  decide

/-- C8: for a successful plan of a module named `N` under the build root `B`:
with a primary interface, `final_ifc_path` is `B / N / (N + ".ifc")` (the
pathname `B\N\N.ifc` when `B` has a filename and `N` is a plain component), it
is the output path of the emit-interface request, which is the request after
those for the partitions and the only emit-interface request, and it is the
expected output path of the action at the same position; without a primary
interface `final_ifc_path` is empty and no emit-interface request is made. -/
theorem final_ifc_path_spec (unit : ModuleUnit) (toolchain : IToolchain) (build_dir : path)
    (ifcs : List (String × path)) (plan : ModuleBuildPlan) (trace : Trace)
    (h : (ModuleProcessor.construct unit toolchain build_dir ifcs).generate_build_plan =
      (some plan, trace)) :
    (unit.primary_interface ≠ "" →
      plan.final_ifc_path = (build_dir.append unit.name).append (unit.name ++ ".ifc") ∧
      (build_dir.has_filename = true → plain_component unit.name →
        plan.final_ifc_path = build_dir ++ "\\" ++ unit.name ++ "\\" ++ (unit.name ++ ".ifc")) ∧
      (∃ deps cmd,
        trace.calls[unit.partitions.length]? = some (ToolchainCall.emit_ifc
          { interface_unit_path := unit.primary_interface
            output_ifc_path := plan.final_ifc_path
            module_dependencies := deps }) ∧
        plan.actions[unit.partitions.length]? =
          some { command := cmd, expected_output_path := plan.final_ifc_path }) ∧
      (∀ args, ToolchainCall.emit_ifc args ∈ trace.calls →
        args.output_ifc_path = plan.final_ifc_path)) ∧
    (unit.primary_interface = "" →
      plan.final_ifc_path = "" ∧ ∀ args, ToolchainCall.emit_ifc args ∉ trace.calls) := by
  obtain ⟨resolved, _, hcalls, hact, _, hfinal, _⟩ := generate_build_plan_some _ plan trace h
  have hI0 : (ModuleProcessor.construct unit toolchain build_dir ifcs).m_module.primary_interface
      = unit.primary_interface := rfl
  have hP0 : (ModuleProcessor.construct unit toolchain build_dir ifcs).m_module.partitions
      = unit.partitions := rfl
  rw [hI0] at hcalls hfinal
  rw [hP0] at hcalls
  constructor
  · intro hI
    rw [if_neg hI] at hcalls hfinal
    have hpath : plan.final_ifc_path =
        (build_dir.append unit.name).append (unit.name ++ ".ifc") := hfinal
    have hn : trace.calls[unit.partitions.length]? = some (ToolchainCall.emit_ifc
        { interface_unit_path := unit.primary_interface
          output_ifc_path := plan.final_ifc_path
          module_dependencies := resolved }) := by
      rw [hcalls, hpath, List.append_assoc, List.getElem?_append_right (by simp)]
      simp [ModuleProcessor.emit_args, ModuleProcessor.construct]
    refine ⟨hpath, ?_, ?_, ?_⟩
    · intro hb hplain
      rw [hpath]
      exact final_path_plain build_dir unit.name hb hplain
    · have hmap := congrArg (fun l => l[unit.partitions.length]?) hact
      simp only [List.getElem?_map, hn, Option.map_some'] at hmap
      cases ha : plan.actions[unit.partitions.length]? with
      | none =>
        rw [ha] at hmap
        simp at hmap
      | some a =>
        rw [ha] at hmap
        simp only [Option.map_some', IToolchain.action_of, ToolchainCall.output_path] at hmap
        cases hc : toolchain.generate_emit_ifc_command
            { interface_unit_path := unit.primary_interface
              output_ifc_path := plan.final_ifc_path
              module_dependencies := resolved } with
        | none =>
          simp [IToolchain.respond, ModuleProcessor.construct, hc] at hmap
        | some cmd =>
          simp [IToolchain.respond, ModuleProcessor.construct, hc] at hmap
          exact ⟨resolved, cmd, hn, by rw [hmap]⟩
    · intro args hargs
      rw [hcalls] at hargs
      simp only [List.mem_append, List.mem_map, List.mem_singleton] at hargs
      rcases hargs with (⟨_, _, hx⟩ | hx) | ⟨_, _, hx⟩
      · simp at hx
      · rw [ToolchainCall.emit_ifc.inj hx, hpath]
        rfl
      · simp at hx
  · intro hI
    rw [if_pos hI] at hcalls hfinal
    refine ⟨hfinal, ?_⟩
    intro args hargs
    rw [hcalls] at hargs
    simp at hargs

/-- Instance of C8 on test 2A. -/
theorem final_ifc_path_spec_witness :
    test_plan.final_ifc_path = (path.append "build" "TestGfx").append ("TestGfx" ++ ".ifc") ∧
      test_plan.final_ifc_path = "build\\TestGfx\\TestGfx.ifc" :=
  ⟨((final_ifc_path_spec test_module MockToolchain "build" test_dependency_ifcs test_plan
      test_processor.generate_build_plan.2 (by decide)).1 (by decide)).1, by decide⟩

theorem test_artifact_dir : path.append "build" "TestGfx" = "build\\TestGfx" := by decide

theorem test_obj_paths :
    path.append "build\\TestGfx"
        (path.replace_extension (path.filename "gfx/renderer.ixx") ".obj")
        = "build\\TestGfx\\renderer.obj" ∧
      path.append "build\\TestGfx"
        (path.replace_extension (path.filename "gfx/shader.cpp") ".obj")
        = "build\\TestGfx\\shader.obj" ∧
      path.append "build\\TestGfx"
        (path.replace_extension (path.filename "gfx/graphics.ixx") ".obj")
        = "build\\TestGfx\\graphics.obj" ∧
      path.append "build\\TestGfx"
        (path.replace_extension (path.filename "gfx/utils.cpp") ".obj")
        = "build\\TestGfx\\utils.obj" := by decide

theorem test_ifc_paths :
    path.append "build\\TestGfx" "TestGfx.ifc" = "build\\TestGfx\\TestGfx.ifc" ∧
      "/Fo:" ++ path.append (path.parent_path "build\\TestGfx\\TestGfx.ifc")
        (path.stem "build\\TestGfx\\TestGfx.ifc" ++ ".obj") =
          "/Fo:build\\TestGfx\\TestGfx.obj" := by
  decide

/-- C9 fails on the code: for the module `TestGfx` of test 2A, whose primary
interface is `gfx/graphics.ixx`, planned with the MSVC-style toolchain (any
compiler path and configuration), the emit-interface command writes the object
`build\TestGfx\TestGfx.obj` (its `/Fo:` argument) while the planner records
`build\TestGfx\graphics.obj` in `generated_obj_paths` for the interface. -/
theorem msvc_interface_obj_path_mismatch (cl_path link_path : path)
    (config : BuildConfiguration) :
    ∃ plan cmd, (msvc_test_processor cl_path link_path config).generate_build_plan.1 = some plan ∧
      plan.actions[2]? =
        some { command := cmd, expected_output_path := "build\\TestGfx\\TestGfx.ifc" } ∧
      cmd.arguments = add_common_msvc_compile_options [] config ++
        ["/interface", "gfx/graphics.ixx", "/ifcOutput", "build\\TestGfx\\TestGfx.ifc",
         "/Fo:build\\TestGfx\\TestGfx.obj", "/reference", "Core=build/Core/Core.ifc"] ∧
      plan.generated_obj_paths[2]? = some "build\\TestGfx\\graphics.obj" := by
  simp [msvc_test_processor, ModuleProcessor.generate_build_plan,
    ModuleProcessor.resolve_dependencies, ModuleProcessor.resolve_loop,
    ModuleProcessor.construct, test_module, test_dependency_ifcs, List.lookup,
    ModuleProcessor.plan_sources, ModuleProcessor.plan_interface,
    ModuleProcessor.compile_args, ModuleProcessor.emit_args,
    ModuleProcessor.get_obj_path_for_source,
    MsvcToolchain.toIToolchain, MsvcToolchain.generate_compile_obj_command,
    MsvcToolchain.generate_emit_ifc_command, msvc_reference_args,
    test_artifact_dir, test_obj_paths, test_ifc_paths]

/-! ## Properties of `Command::to_string` -/

theorem render_argument_data (arg : String) :
    (Command.render_argument arg).data =
      if ' ' ∈ arg.data then '"' :: arg.data ++ ['"'] else arg.data := by
  unfold Command.render_argument
  by_cases h : ' ' ∈ arg.data
  · have hc : arg.data.contains ' ' = true := by simpa using h
    rw [if_pos hc, if_pos h]
    simp [String.data_append]
  · have hc : ¬ arg.data.contains ' ' = true := by simpa using h
    rw [if_neg hc, if_neg h]

theorem to_string_foldl_data (arguments : List String) (init : String) :
    (arguments.foldl (fun ss arg => ss ++ " " ++ Command.render_argument arg) init).data =
      init.data ++
        (arguments.map (fun arg => ' ' :: (Command.render_argument arg).data)).flatten := by
  induction arguments generalizing init with
  | nil => simp
  | cons arg rest ih =>
    rw [List.foldl_cons, ih]
    simp only [String.data_append, List.map_cons, List.flatten_cons, List.append_assoc]
    rfl

theorem to_string_data (cmd : Command) :
    cmd.to_string.data =
      '"' :: cmd.executable.data ++ ['"'] ++
        (cmd.arguments.map (fun arg => ' ' :: (Command.render_argument arg).data)).flatten := by
  unfold Command.to_string
  rw [to_string_foldl_data]
  simp only [String.data_append]
  rfl

theorem to_string_render_spec (cmd : Command) :
    cmd.to_string = render_spec cmd.executable cmd.arguments := by
  apply String.ext
  rw [to_string_data]
  unfold render_spec
  simp only [String.data_append, String.data_join, List.map_map]
  simp only [List.cons_append, List.nil_append, List.append_assoc]
  congr 3
  congr 1
  apply List.map_congr_left
  intro arg _
  simp only [Function.comp_apply, String.data_append, render_argument_data]
  by_cases h : ' ' ∈ arg.data
  · rw [if_pos h, if_pos h]
    rfl
  · rw [if_neg h, if_neg h]
    rfl

/-- C12: `to_string` is the executable wrapped in double quotes followed, for
each argument in order, by one space and the argument, wrapped in double quotes
if it contains a space character and verbatim otherwise; a command without
arguments renders as the quoted executable, and the command of test 1.3 renders
as `"my_app.exe" arg1 "hello world" arg3`. -/
theorem to_string_eq_render_spec (cmd : Command) :
    cmd.to_string = render_spec cmd.executable cmd.arguments ∧
      (cmd.arguments = [] → cmd.to_string = "\"" ++ cmd.executable ++ "\"") ∧
      cmd3.to_string = "\"my_app.exe\" arg1 \"hello world\" arg3" := by
  refine ⟨to_string_render_spec cmd, ?_, by decide⟩
  intro h
  unfold Command.to_string
  rw [h]
  rfl

/-- Instance of C12: a command without arguments, test 1.4. -/
theorem to_string_eq_render_spec_witness :
    ({ executable := "tool.exe" } : Command).to_string = "\"" ++ "tool.exe" ++ "\"" :=
  (to_string_eq_render_spec { executable := "tool.exe" }).2.1 rfl

/-- C14 fails on the code: the argument `a<TAB>b` contains a white-space
character, and `to_string` writes it without double quotes: the command with
executable `x` and that argument renders as `"x" a<TAB>b`. -/
theorem to_string_tab_not_quoted :
    '\t' ∈ "a\tb".data ∧ isspace '\t' = true ∧
      tab_command.arguments = ["a\tb"] ∧
      tab_command.to_string = "\"x\" a\tb" ∧
      tab_command.to_string ≠ "\"x\" \"a\tb\"" := by
  decide

/-- C14 as amended: `to_string` always wraps the executable in double quotes,
and writes after it, in order, a space and one piece per argument: the argument
wrapped in double quotes when it contains a space character, and the argument
itself when it does not (also when it contains other white space). -/
theorem to_string_quotes_space_arguments (cmd : Command) :
    ∃ pieces : List String,
      cmd.to_string = "\"" ++ cmd.executable ++ "\"" ++
        String.join (pieces.map (fun piece => " " ++ piece)) ∧
      pieces.length = cmd.arguments.length ∧
      ∀ (i : Nat) (arg : String), cmd.arguments[i]? = some arg →
        (' ' ∈ arg.data → pieces[i]? = some ("\"" ++ arg ++ "\"")) ∧
        (' ' ∉ arg.data → pieces[i]? = some arg) := by
  refine ⟨cmd.arguments.map Command.render_argument, ?_, by simp, ?_⟩
  · apply String.ext
    rw [to_string_data]
    simp only [String.data_append, String.data_join, List.map_map]
    simp only [List.cons_append, List.nil_append, List.append_assoc]
    rfl
  · intro i arg hi
    rw [List.getElem?_map, hi]
    simp only [Option.map_some', Option.some.injEq]
    constructor
    · intro h
      apply String.ext
      rw [render_argument_data, if_pos h]
      simp [String.data_append]
    · intro h
      apply String.ext
      rw [render_argument_data, if_neg h]

/-! ## Sources with the same stem -/

theorem split_in_quote (w : List Char) (hw : '"' ∉ w) (out : List String) (cur : String) :
    w.foldl split_step { out := out, cur := cur, in_quote := true } =
      { out := out, cur := String.mk (cur.data ++ w), in_quote := true } := by
  induction w generalizing cur with
  | nil => simp
  | cons c w ih =>
    have hc : c ≠ '"' := fun h => hw (by rw [h]; simp)
    have hw2 : '"' ∉ w := fun h => hw (List.mem_cons_of_mem _ h)
    rw [List.foldl_cons]
    have hstep : split_step { out := out, cur := cur, in_quote := true } c =
        { out := out, cur := cur.push c, in_quote := true } := by
      simp [split_step, hc]
    rw [hstep, ih hw2]
    simp [String.data_push]

theorem split_quoted (w : List Char) (hw : '"' ∉ w) (out : List String) (cur : String) :
    ('"' :: w ++ ['"']).foldl split_step { out := out, cur := cur, in_quote := false } =
      { out := out, cur := String.mk (cur.data ++ w), in_quote := false } := by
  rw [List.cons_append, List.foldl_cons, List.foldl_append]
  have h1 : split_step { out := out, cur := cur, in_quote := false } '"' =
      { out := out, cur := cur, in_quote := true } := by
    simp [split_step]
  rw [h1, split_in_quote w hw]
  simp [split_step]

theorem split_bare (w : List Char) (hw : '"' ∉ w) (hs : ∀ c ∈ w, isspace c = false)
    (out : List String) (cur : String) :
    w.foldl split_step { out := out, cur := cur, in_quote := false } =
      { out := out, cur := String.mk (cur.data ++ w), in_quote := false } := by
  induction w generalizing cur with
  | nil => simp
  | cons c w ih =>
    have hc : c ≠ '"' := fun h => hw (by rw [h]; simp)
    have hw2 : '"' ∉ w := fun h => hw (List.mem_cons_of_mem _ h)
    have hsc : isspace c = false := hs c (List.mem_cons_self _ _)
    rw [List.foldl_cons]
    have hstep : split_step { out := out, cur := cur, in_quote := false } c =
        { out := out, cur := cur.push c, in_quote := false } := by
      simp [split_step, hc, hsc]
    rw [hstep, ih hw2 (fun d hd => hs d (List.mem_cons_of_mem _ hd))]
    simp [String.data_push]

theorem split_space (out : List String) (cur : String) (hcur : cur ≠ "") :
    split_step { out := out, cur := cur, in_quote := false } ' ' =
      { out := out ++ [cur], cur := "", in_quote := false } := by
  have h1 : ' ' ≠ '"' := by decide
  have h2 : isspace ' ' = true := by decide
  simp [split_step, h1, h2, hcur]

theorem split_rendered_argument (arg : String) (harg : splittable_argument arg)
    (out : List String) :
    (Command.render_argument arg).data.foldl split_step
        { out := out, cur := "", in_quote := false } =
      { out := out, cur := arg, in_quote := false } := by
  obtain ⟨_, hq, hsp⟩ := harg
  rw [render_argument_data]
  by_cases h : ' ' ∈ arg.data
  · rw [if_pos h, split_quoted arg.data hq]
    rfl
  · rw [if_neg h]
    rcases hsp with hsp | hsp
    · exact absurd hsp h
    · rw [split_bare arg.data hq hsp]
      rfl

theorem split_rendered_arguments (arguments : List String)
    (hargs : ∀ arg ∈ arguments, splittable_argument arg)
    (out : List String) (cur : String) (hcur : cur ≠ "") :
    split_finish
        ((arguments.map (fun arg => ' ' :: (Command.render_argument arg).data)).flatten.foldl
          split_step { out := out, cur := cur, in_quote := false }) =
      out ++ [cur] ++ arguments := by
  induction arguments generalizing out cur with
  | nil => simp [split_finish, hcur]
  | cons arg rest ih =>
    have harg := hargs arg (List.mem_cons_self _ _)
    rw [List.map_cons, List.flatten_cons, List.foldl_append, List.foldl_cons,
      split_space out cur hcur, split_rendered_argument arg harg,
      ih (fun a ha => hargs a (List.mem_cons_of_mem _ ha)) _ arg harg.1]
    simp

/-- C13 fails on the code: none of the arguments below contains a double quote,
and splitting the rendered command does not give back the executable and the
arguments. An argument with a tab and no space is written without quotes and
split at the tab; an empty argument is lost, and so is an empty executable; a
double quote in the executable is dropped. -/
theorem split_cmd_to_string_not_inverse :
    (∀ arg ∈ tab_command.arguments, '"' ∉ arg.data) ∧
      split_cmd tab_command.to_string = ["x", "a", "b"] ∧
      split_cmd tab_command.to_string ≠ tab_command.executable :: tab_command.arguments ∧
      split_cmd ({ executable := "x", arguments := [""] } : Command).to_string = ["x"] ∧
      split_cmd ({ executable := "", arguments := ["a"] } : Command).to_string = ["a"] ∧
      split_cmd ({ executable := "a\"b", arguments := [] } : Command).to_string = ["ab"] := by
  decide

/-- C13 as amended: for every command whose executable is not empty and has no
double quote, and whose arguments are each not empty, without double quote, and
with a space character if they have white space at all, splitting the rendering
at white space outside double-quoted spans and dropping the quotes, as
`split_cmd` does, gives the executable followed by the arguments, in order. -/
theorem split_cmd_to_string_inverse (cmd : Command) (hexe : cmd.executable ≠ "")
    (hquote : '"' ∉ cmd.executable.data)
    (hargs : ∀ arg ∈ cmd.arguments, splittable_argument arg) :
    split_cmd cmd.to_string = cmd.executable :: cmd.arguments := by
  unfold split_cmd
  rw [to_string_data, List.foldl_append]
  have h0 : ({} : SplitState) = { out := [], cur := "", in_quote := false } := rfl
  rw [h0, split_quoted cmd.executable.data hquote]
  have h1 : String.mk (("" : String).data ++ cmd.executable.data) = cmd.executable := rfl
  rw [h1, split_rendered_arguments cmd.arguments hargs [] cmd.executable hexe]
  rfl

/-- Instance of C13 as amended: the command of test 1.3. -/
theorem split_cmd_to_string_inverse_witness :
    split_cmd cmd3.to_string = ["my_app.exe", "arg1", "hello world", "arg3"] :=
  split_cmd_to_string_inverse cmd3 (by decide) (by decide) (by decide)

/-! ## Properties of the executors -/

/-- C15: `DryRunExecutor::execute` returns `success = true`, `exit_code = 0` and
empty `std_out` and `std_err`, and leaves the sink equal to its prior content
followed by the marker `[DRY RUN] `, the rendering of the command (the
executable in double quotes, then a space and each argument, quoted when it
contains a space) and one newline; test 2.1 is the instance checked last. -/
theorem dry_run_execute_spec (sink : String) (command : Command) :
    (DryRunExecutor.execute sink command).1 =
        { success := true, exit_code := 0, std_out := "", std_err := "" } ∧
      (DryRunExecutor.execute sink command).2 =
        sink ++ "[DRY RUN] " ++ command.to_string ++ "\n" ∧
      (DryRunExecutor.execute sink command).2 =
        sink ++ "[DRY RUN] " ++ render_spec command.executable command.arguments ++ "\n" ∧
      (DryRunExecutor.execute ""
          { executable := "test.exe", arguments := ["--config", "path/to file"] }).2 =
        "[DRY RUN] \"test.exe\" --config \"path/to file\"\n" := by
  refine ⟨rfl, rfl, ?_, by decide⟩
  rw [← to_string_render_spec]
  rfl

theorem dword_lt (n : Nat) : dword n < 2 ^ 32 := Nat.mod_lt _ (by decide)

theorem static_cast_int_eq_zero (n : Nat) : static_cast_int n = 0 ↔ dword n = 0 := by
  have h := dword_lt n
  unfold static_cast_int
  omega

theorem local_execute_ok (os : OsOutcome) (command : Command) (r : ExecutionResult)
    (h : LocalExecutor.execute os command = .ok r) :
    os.stdout_pipe_created = true ∧ os.stderr_pipe_created = true ∧
      os.command_line_converted = true ∧ os.process_created = true ∧
      r = { exit_code := static_cast_int os.exit_code
            success := decide (dword os.exit_code = 0)
            std_out := os.std_out
            std_err := os.std_err } := by
  unfold LocalExecutor.execute at h
  cases h1 : os.stdout_pipe_created <;> cases h2 : os.stderr_pipe_created <;>
    cases h3 : os.command_line_converted <;> cases h4 : os.process_created <;>
    simp [h1, h2, h3, h4] at h
  exact ⟨rfl, rfl, rfl, rfl, h.symm⟩

/-- C16: for the result of `DryRunExecutor::execute` and for every result that
`LocalExecutor::execute` returns, `success` is true if and only if `exit_code`
is 0; for `LocalExecutor` the exit code is the 32-bit status of the process
converted to `int`. -/
theorem success_iff_exit_code_zero :
    (∀ (sink : String) (command : Command),
      (DryRunExecutor.execute sink command).1.success = true ↔
        (DryRunExecutor.execute sink command).1.exit_code = 0) ∧
    (∀ (os : OsOutcome) (command : Command) (r : ExecutionResult),
      LocalExecutor.execute os command = .ok r →
        (r.success = true ↔ r.exit_code = 0)) := by
  constructor
  · intro sink command
    simp [DryRunExecutor.execute]
  · intro os command r h
    obtain ⟨_, _, _, _, hr⟩ := local_execute_ok os command r h
    rw [hr]
    simp only [decide_eq_true_eq]
    exact (static_cast_int_eq_zero os.exit_code).symm

/-- Instance of C16: the process of test 3.2 exits with status 99, and the
result has `success = false` and a non-zero `exit_code`. -/
theorem success_iff_exit_code_zero_witness :
    ((⟨false, 99, "", ""⟩ : ExecutionResult).success = true ↔
      (⟨false, 99, "", ""⟩ : ExecutionResult).exit_code = 0) :=
  success_iff_exit_code_zero.2 (exited 99) cmd3 ⟨false, 99, "", ""⟩ (by decide)

/-- C17: for every 32-bit exit status `s` that the process reports, the
`exit_code` of the result of `LocalExecutor::execute` is `s` when `s < 2^31` and
`s - 2^32` otherwise. -/
theorem exit_code_reinterpreted (os : OsOutcome) (command : Command) (r : ExecutionResult)
    (h : LocalExecutor.execute os command = .ok r) (hs : os.exit_code < 2 ^ 32) :
    r.exit_code =
      if os.exit_code < 2 ^ 31 then (os.exit_code : Int) else (os.exit_code : Int) - 2 ^ 32 := by
  obtain ⟨_, _, _, _, hr⟩ := local_execute_ok os command r h
  rw [hr]
  show static_cast_int os.exit_code = _
  unfold static_cast_int dword
  rw [Nat.mod_eq_of_lt hs]
  split_ifs with h31
  · omega
  · omega

/-- Instance of C17: status 99 gives `exit_code = 99` (test 3.2). -/
theorem exit_code_reinterpreted_witness :
    (⟨false, 99, "", ""⟩ : ExecutionResult).exit_code =
      if (exited 99).exit_code < 2 ^ 31 then ((exited 99).exit_code : Int)
      else ((exited 99).exit_code : Int) - 2 ^ 32 :=
  exit_code_reinterpreted (exited 99) cmd3 ⟨false, 99, "", ""⟩ (by decide) (by decide)

/-- C18 fails on the code: when both pipes are created and the bytes of the
rendered command are not UTF-8, `converter.from_bytes` throws and `execute`
raises an error although no pipe creation and no process creation failed. -/
theorem local_execute_conversion_error :
    not_utf8.stdout_pipe_created = true ∧ not_utf8.stderr_pipe_created = true ∧
      not_utf8.process_created = true ∧
      LocalExecutor.execute not_utf8 cmd3 = .error .range_error := by
  decide

/-- C18 as amended: `LocalExecutor::execute` raises an error, and returns no
result, exactly when creating the stdout pipe, creating the stderr pipe,
converting the rendered command to UTF-16 or creating the process fails (when
the conversion succeeds: exactly when one of the three creations fails);
otherwise it returns a result for every exit status, and a non-zero status gives
a result with `success = false`. -/
theorem local_execute_error_iff (os : OsOutcome) (command : Command) :
    ((∃ e, LocalExecutor.execute os command = .error e) ↔
      (os.stdout_pipe_created = false ∨ os.stderr_pipe_created = false ∨
        os.command_line_converted = false ∨ os.process_created = false)) ∧
    (os.command_line_converted = true →
      ((∃ e, LocalExecutor.execute os command = .error e) ↔
        (os.stdout_pipe_created = false ∨ os.stderr_pipe_created = false ∨
          os.process_created = false))) ∧
    ((os.stdout_pipe_created = true ∧ os.stderr_pipe_created = true ∧
        os.command_line_converted = true ∧ os.process_created = true) →
      ∃ r, LocalExecutor.execute os command = .ok r ∧
        r.exit_code = static_cast_int os.exit_code ∧
        r.std_out = os.std_out ∧ r.std_err = os.std_err ∧
        (dword os.exit_code ≠ 0 → r.success = false ∧ r.exit_code ≠ 0)) := by
  refine ⟨?_, ?_, ?_⟩
  · unfold LocalExecutor.execute
    cases h1 : os.stdout_pipe_created <;> cases h2 : os.stderr_pipe_created <;>
      cases h3 : os.command_line_converted <;> cases h4 : os.process_created <;> simp
  · intro hc
    unfold LocalExecutor.execute
    cases h1 : os.stdout_pipe_created <;> cases h2 : os.stderr_pipe_created <;>
      cases h4 : os.process_created <;> simp [hc]
  · rintro ⟨h1, h2, h3, h4⟩
    have hr : LocalExecutor.execute os command = .ok
        { exit_code := static_cast_int os.exit_code
          success := decide (dword os.exit_code = 0)
          std_out := os.std_out
          std_err := os.std_err } := by
      unfold LocalExecutor.execute
      simp [h1, h2, h3, h4]
    refine ⟨_, hr, rfl, rfl, rfl, ?_⟩
    intro hz
    refine ⟨decide_eq_false hz, ?_⟩
    intro h0
    exact hz ((static_cast_int_eq_zero os.exit_code).1 h0)

/-- Instance of C18 as amended: a process that is created and exits with status
99 gives a result, with `success = false`. -/
theorem local_execute_error_iff_witness :
    ∃ r, LocalExecutor.execute (exited 99) cmd3 = .ok r ∧
      r.exit_code = static_cast_int (exited 99).exit_code ∧
      r.std_out = (exited 99).std_out ∧ r.std_err = (exited 99).std_err ∧
      (dword (exited 99).exit_code ≠ 0 → r.success = false ∧ r.exit_code ≠ 0) :=
  (local_execute_error_iff (exited 99) cmd3).2.2 ⟨rfl, rfl, rfl, rfl⟩

/-! ## Properties of the options derived from the configuration -/

theorem prefixed_ne (p d t : String) (h : t.data.take p.data.length ≠ p.data) : p ++ d ≠ t := by
  intro e
  apply h
  rw [← e, String.data_append, List.take_left]

theorem not_mem_map_prefixed (p t : String) (l : List String)
    (h : t.data.take p.data.length ≠ p.data) : t ∉ l.map (fun d => p ++ d) := by
  intro hm
  obtain ⟨d, _, hd⟩ := List.mem_map.1 hm
  exact prefixed_ne p d t h hd

theorem msvc_options_split (config : BuildConfiguration) :
    add_common_msvc_compile_options [] config =
      (add_common_msvc_compile_options [] { config with defines := [], include_dirs := [] }) ++
        (config.defines.map (fun d => "/D" ++ d) ++ config.include_dirs.map (fun dir => "/I" ++ dir)) := by
  simp [add_common_msvc_compile_options]

theorem clang_options_split (config : BuildConfiguration) :
    add_common_clang_compile_options [] config =
      (add_common_clang_compile_options [] { config with defines := [], include_dirs := [] }) ++
        (config.defines.map (fun d => "-D" ++ d) ++ config.include_dirs.map (fun dir => "-I" ++ dir)) := by
  simp [add_common_clang_compile_options]

theorem msvc_flag_not_in_lists (config : BuildConfiguration) (t : String)
    (hD : t.data.take 2 ≠ "/D".data) (hI : t.data.take 2 ≠ "/I".data) :
    t ∉ config.defines.map (fun d => "/D" ++ d) ++
      config.include_dirs.map (fun dir => "/I" ++ dir) := by
  intro h
  rcases List.mem_append.1 h with h | h
  · exact not_mem_map_prefixed "/D" t _ hD h
  · exact not_mem_map_prefixed "/I" t _ hI h

theorem clang_flag_not_in_lists (config : BuildConfiguration) (t : String)
    (hD : t.data.take 2 ≠ "-D".data) (hI : t.data.take 2 ≠ "-I".data) :
    t ∉ config.defines.map (fun d => "-D" ++ d) ++
      config.include_dirs.map (fun dir => "-I" ++ dir) := by
  intro h
  rcases List.mem_append.1 h with h | h
  · exact not_mem_map_prefixed "-D" t _ hD h
  · exact not_mem_map_prefixed "-I" t _ hI h

theorem msvc_debug_fixed_options (config : BuildConfiguration) (h : config.mode = .Debug) :
    (add_common_msvc_compile_options []
        { config with defines := [], include_dirs := [] }).count "/Od" = 1 ∧
      "/O1" ∉ add_common_msvc_compile_options []
        { config with defines := [], include_dirs := [] } ∧
      "/O2" ∉ add_common_msvc_compile_options []
        { config with defines := [], include_dirs := [] } ∧
      "/Ox" ∉ add_common_msvc_compile_options []
        { config with defines := [], include_dirs := [] } := by
  obtain ⟨mode, std, opt, dbg, rt, defs, incs, libs⟩ := config
  simp only at h
  subst h
  cases std <;> cases dbg <;> cases rt <;> simp [add_common_msvc_compile_options]

theorem clang_debug_fixed_options (config : BuildConfiguration) (h : config.mode = .Debug) :
    (add_common_clang_compile_options []
        { config with defines := [], include_dirs := [] }).count "-O0" = 1 ∧
      "-O1" ∉ add_common_clang_compile_options []
        { config with defines := [], include_dirs := [] } ∧
      "-O2" ∉ add_common_clang_compile_options []
        { config with defines := [], include_dirs := [] } ∧
      "-O3" ∉ add_common_clang_compile_options []
        { config with defines := [], include_dirs := [] } := by
  obtain ⟨mode, std, opt, dbg, rt, defs, incs, libs⟩ := config
  simp only at h
  subst h
  cases std <;> cases dbg <;> cases rt <;> simp [add_common_clang_compile_options]

/-- C20: for every configuration with mode Debug, whatever optimization level
it asks for, the options derived from the configuration contain the lowest
optimization flag, once, and no other optimization flag: `/Od` and none of
`/O1`, `/O2`, `/Ox` for the MSVC-style toolchain, `-O0` and none of `-O1`, `-O2`,
`-O3` for the Clang-style toolchain. -/
theorem debug_forces_lowest_optimization (config : BuildConfiguration)
    (h : config.mode = .Debug) :
    ("/Od" ∈ add_common_msvc_compile_options [] config ∧
      (add_common_msvc_compile_options [] config).count "/Od" = 1 ∧
      "/O1" ∉ add_common_msvc_compile_options [] config ∧
      "/O2" ∉ add_common_msvc_compile_options [] config ∧
      "/Ox" ∉ add_common_msvc_compile_options [] config) ∧
    ("-O0" ∈ add_common_clang_compile_options [] config ∧
      (add_common_clang_compile_options [] config).count "-O0" = 1 ∧
      "-O1" ∉ add_common_clang_compile_options [] config ∧
      "-O2" ∉ add_common_clang_compile_options [] config ∧
      "-O3" ∉ add_common_clang_compile_options [] config) := by
  obtain ⟨m1, m2, m3, m4⟩ := msvc_debug_fixed_options config h
  obtain ⟨c1, c2, c3, c4⟩ := clang_debug_fixed_options config h
  have mn : ∀ t : String, t.data.take 2 ≠ "/D".data → t.data.take 2 ≠ "/I".data →
      t ∉ add_common_msvc_compile_options [] { config with defines := [], include_dirs := [] } →
      t ∉ add_common_msvc_compile_options [] config := by
    intro t hD hI ht hm
    rw [msvc_options_split] at hm
    rcases List.mem_append.1 hm with hm | hm
    · exact ht hm
    · exact msvc_flag_not_in_lists config t hD hI hm
  have cn : ∀ t : String, t.data.take 2 ≠ "-D".data → t.data.take 2 ≠ "-I".data →
      t ∉ add_common_clang_compile_options [] { config with defines := [], include_dirs := [] } →
      t ∉ add_common_clang_compile_options [] config := by
    intro t hD hI ht hm
    rw [clang_options_split] at hm
    rcases List.mem_append.1 hm with hm | hm
    · exact ht hm
    · exact clang_flag_not_in_lists config t hD hI hm
  have mcount : (add_common_msvc_compile_options [] config).count "/Od" = 1 := by
    rw [msvc_options_split, List.count_append, m1,
      List.count_eq_zero_of_not_mem
        (msvc_flag_not_in_lists config "/Od" (by decide) (by decide))]
  have ccount : (add_common_clang_compile_options [] config).count "-O0" = 1 := by
    rw [clang_options_split, List.count_append, c1,
      List.count_eq_zero_of_not_mem
        (clang_flag_not_in_lists config "-O0" (by decide) (by decide))]
  refine ⟨⟨?_, mcount, mn _ (by decide) (by decide) m2, mn _ (by decide) (by decide) m3,
    mn _ (by decide) (by decide) m4⟩,
    ⟨?_, ccount, cn _ (by decide) (by decide) c2, cn _ (by decide) (by decide) c3,
    cn _ (by decide) (by decide) c4⟩⟩
  · exact List.count_pos_iff.1 (by rw [mcount]; decide)
  · exact List.count_pos_iff.1 (by rw [ccount]; decide)

/-- Instance of C20: a Debug configuration that asks for level O3. -/
theorem debug_forces_lowest_optimization_witness :
    ("/Od" ∈ add_common_msvc_compile_options [] debug_o3_config ∧
      (add_common_msvc_compile_options [] debug_o3_config).count "/Od" = 1 ∧
      "/O1" ∉ add_common_msvc_compile_options [] debug_o3_config ∧
      "/O2" ∉ add_common_msvc_compile_options [] debug_o3_config ∧
      "/Ox" ∉ add_common_msvc_compile_options [] debug_o3_config) ∧
    ("-O0" ∈ add_common_clang_compile_options [] debug_o3_config ∧
      (add_common_clang_compile_options [] debug_o3_config).count "-O0" = 1 ∧
      "-O1" ∉ add_common_clang_compile_options [] debug_o3_config ∧
      "-O2" ∉ add_common_clang_compile_options [] debug_o3_config ∧
      "-O3" ∉ add_common_clang_compile_options [] debug_o3_config) :=
  debug_forces_lowest_optimization debug_o3_config rfl

/-! ## The form of the options derived from the configuration -/

theorem msvc_options_form (args : List String) (config : BuildConfiguration) :
    add_common_msvc_compile_options args config =
      args ++ (msvc_fixed_options config ++
        (config.defines.map (fun d => "/D" ++ d) ++
          config.include_dirs.map (fun dir => "/I" ++ dir))) := by
  obtain ⟨mode, std, opt, dbg, rt, defs, incs, libs⟩ := config
  cases std <;> cases opt <;> cases rt <;>
    simp [add_common_msvc_compile_options, msvc_fixed_options, msvc_standard_flag,
      msvc_level_flag, runtime_flag]

theorem clang_options_form (args : List String) (config : BuildConfiguration) :
    add_common_clang_compile_options args config =
      args ++ (clang_fixed_options config ++
        (config.defines.map (fun d => "-D" ++ d) ++
          config.include_dirs.map (fun dir => "-I" ++ dir))) := by
  obtain ⟨mode, std, opt, dbg, rt, defs, incs, libs⟩ := config
  cases std <;> cases opt <;> cases rt <;>
    simp [add_common_clang_compile_options, clang_fixed_options, clang_standard_flag,
      clang_level_flag, runtime_flag]

theorem mem_msvc_options_iff (config : BuildConfiguration) (t : String)
    (hD : t.data.take 2 ≠ "/D".data) (hI : t.data.take 2 ≠ "/I".data) :
    t ∈ add_common_msvc_compile_options [] config ↔ t ∈ msvc_fixed_options config := by
  rw [msvc_options_form, List.nil_append, List.mem_append]
  constructor
  · rintro (h | h)
    · exact h
    · exact absurd h (msvc_flag_not_in_lists config t hD hI)
  · exact Or.inl

theorem mem_clang_options_iff (config : BuildConfiguration) (t : String)
    (hD : t.data.take 2 ≠ "-D".data) (hI : t.data.take 2 ≠ "-I".data) :
    t ∈ add_common_clang_compile_options [] config ↔ t ∈ clang_fixed_options config := by
  rw [clang_options_form, List.nil_append, List.mem_append]
  constructor
  · rintro (h | h)
    · exact h
    · exact absurd h (clang_flag_not_in_lists config t hD hI)
  · exact Or.inl

theorem count_msvc_options (config : BuildConfiguration) (t : String)
    (hD : t.data.take 2 ≠ "/D".data) (hI : t.data.take 2 ≠ "/I".data) :
    (add_common_msvc_compile_options [] config).count t = (msvc_fixed_options config).count t := by
  rw [msvc_options_form, List.nil_append, List.count_append,
    List.count_eq_zero_of_not_mem (msvc_flag_not_in_lists config t hD hI), Nat.add_zero]

theorem count_clang_options (config : BuildConfiguration) (t : String)
    (hD : t.data.take 2 ≠ "-D".data) (hI : t.data.take 2 ≠ "-I".data) :
    (add_common_clang_compile_options [] config).count t =
      (clang_fixed_options config).count t := by
  rw [clang_options_form, List.nil_append, List.count_append,
    List.count_eq_zero_of_not_mem (clang_flag_not_in_lists config t hD hI), Nat.add_zero]

theorem msvc_level_flag_prefix (level : OptimizationLevel) :
    (msvc_level_flag level).data.take 2 ≠ "/D".data ∧
      (msvc_level_flag level).data.take 2 ≠ "/I".data := by
  cases level <;> decide

theorem clang_level_flag_prefix (level : OptimizationLevel) :
    (clang_level_flag level).data.take 2 ≠ "-D".data ∧
      (clang_level_flag level).data.take 2 ≠ "-I".data := by
  cases level <;> decide

theorem msvc_standard_flag_ne (standard : CppStandard) (x : String)
    (hx : x.data.length < 10) : msvc_standard_flag standard ≠ x := by
  intro h
  have hl : 10 ≤ (msvc_standard_flag standard).data.length := by
    cases standard <;> decide
  rw [h] at hl
  omega

theorem clang_standard_flag_ne (standard : CppStandard) (x : String)
    (hx : x.data.length < 10) : clang_standard_flag standard ≠ x := by
  intro h
  have hl : 10 ≤ (clang_standard_flag standard).data.length := by
    cases standard <;> decide
  rw [h] at hl
  omega

theorem runtime_flag_ne (runtime : MsvcRuntime) (x : String)
    (hx : x.data.take 2 ≠ "/M".data) : runtime_flag runtime ≠ x := by
  intro h
  apply hx
  rw [← h]
  cases runtime <;> decide

theorem mem_msvc_fixed_options (config : BuildConfiguration) (x : String) :
    x ∈ msvc_fixed_options config ↔
      x = msvc_standard_flag config.cpp_standard ∨
      x = (if config.mode = .Debug then "/Od" else msvc_level_flag config.optimization) ∨
      (x = "/Zi" ∧ config.debug_info = .Full) ∨
      (x = "/Z7" ∧ config.debug_info = .Minimal) ∨
      x = runtime_flag config.msvc_runtime ∨
      x ∈ ["/EHsc", "/nologo", "/c", "/TP", "/permissive-"] := by
  unfold msvc_fixed_options
  cases config.debug_info <;> simp

theorem mem_clang_fixed_options (config : BuildConfiguration) (x : String) :
    x ∈ clang_fixed_options config ↔
      x = clang_standard_flag config.cpp_standard ∨
      x = (if config.mode = .Debug then "-O0" else clang_level_flag config.optimization) ∨
      (x = "-g" ∧ (config.debug_info = .Full ∨ config.debug_info = .Minimal)) ∨
      x = runtime_flag config.msvc_runtime ∨
      x ∈ ["-fms-compatibility", "-Wno-msvc-include"] := by
  unfold clang_fixed_options
  cases config.debug_info <;> simp

theorem count_msvc_fixed_options (config : BuildConfiguration) (x : String)
    (hlen : x.data.length < 10) (hM : x.data.take 2 ≠ "/M".data)
    (hZi : x ≠ "/Zi") (hZ7 : x ≠ "/Z7")
    (h5 : x ∉ ["/EHsc", "/nologo", "/c", "/TP", "/permissive-"]) :
    (msvc_fixed_options config).count x =
      if (if config.mode = .Debug then "/Od" else msvc_level_flag config.optimization) = x
      then 1 else 0 := by
  have h1 : (msvc_standard_flag config.cpp_standard == x) = false := by
    simpa using msvc_standard_flag_ne config.cpp_standard x hlen
  have h2 : (runtime_flag config.msvc_runtime == x) = false := by
    simpa using runtime_flag_ne config.msvc_runtime x hM
  have h3 : ("/Zi" == x) = false := by simpa using Ne.symm hZi
  have h4 : ("/Z7" == x) = false := by simpa using Ne.symm hZ7
  simp only [List.mem_cons, List.mem_singleton, List.not_mem_nil, or_false, not_or] at h5
  obtain ⟨e1, e2, e3, e4, e5⟩ := h5
  have g1 : ("/EHsc" == x) = false := by simpa using Ne.symm e1
  have g2 : ("/nologo" == x) = false := by simpa using Ne.symm e2
  have g3 : ("/c" == x) = false := by simpa using Ne.symm e3
  have g4 : ("/TP" == x) = false := by simpa using Ne.symm e4
  have g5 : ("/permissive-" == x) = false := by simpa using Ne.symm e5
  unfold msvc_fixed_options
  cases config.debug_info <;>
    simp [List.count_cons, List.count_append, h1, h2, h3, h4, g1, g2, g3, g4, g5]

theorem count_clang_fixed_options (config : BuildConfiguration) (x : String)
    (hlen : x.data.length < 10) (hM : x.data.take 2 ≠ "/M".data) (hg : x ≠ "-g") :
    (clang_fixed_options config).count x =
      if (if config.mode = .Debug then "-O0" else clang_level_flag config.optimization) = x
      then 1 else 0 := by
  have h1 : (clang_standard_flag config.cpp_standard == x) = false := by
    simpa using clang_standard_flag_ne config.cpp_standard x hlen
  have h2 : (runtime_flag config.msvc_runtime == x) = false := by
    simpa using runtime_flag_ne config.msvc_runtime x hM
  have h3 : ("-g" == x) = false := by simpa using Ne.symm hg
  have g1 : ("-fms-compatibility" == x) = false := by
    have : ("-fms-compatibility" : String) ≠ x := by
      intro h
      rw [← h] at hlen
      revert hlen
      decide
    simpa using this
  have g2 : ("-Wno-msvc-include" == x) = false := by
    have : ("-Wno-msvc-include" : String) ≠ x := by
      intro h
      rw [← h] at hlen
      revert hlen
      decide
    simpa using this
  unfold clang_fixed_options
  cases config.debug_info <;>
    simp [List.count_cons, List.count_append, h1, h2, h3, g1, g2]

/-- C21: for every configuration with mode Release the options derived from the
configuration contain exactly one optimization flag, the one of the configured
level (`msvc_level_flag`: O0, O1, O2, O3 give `/Od`, `/O1`, `/O2`, `/Ox`;
`clang_level_flag`: `-O0`, `-O1`, `-O2`, `-O3`): that flag occurs once and no
other optimization flag of the variant occurs. -/
theorem release_honors_optimization_level (config : BuildConfiguration)
    (h : config.mode = .Release) :
    ((add_common_msvc_compile_options [] config).count
        (msvc_level_flag config.optimization) = 1 ∧
      ∀ f ∈ ["/Od", "/O1", "/O2", "/Ox"], f ≠ msvc_level_flag config.optimization →
        f ∉ add_common_msvc_compile_options [] config) ∧
    ((add_common_clang_compile_options [] config).count
        (clang_level_flag config.optimization) = 1 ∧
      ∀ f ∈ ["-O0", "-O1", "-O2", "-O3"], f ≠ clang_level_flag config.optimization →
        f ∉ add_common_clang_compile_options [] config) := by
  have hmode : ¬ config.mode = .Debug := by rw [h]; decide
  have mcount : ∀ f ∈ ["/Od", "/O1", "/O2", "/Ox"],
      (add_common_msvc_compile_options [] config).count f =
        if msvc_level_flag config.optimization = f then 1 else 0 := by
    intro f hf
    simp only [List.mem_cons, List.mem_singleton, List.not_mem_nil, or_false] at hf
    rcases hf with rfl | rfl | rfl | rfl <;>
      (rw [count_msvc_options _ _ (by decide) (by decide),
        count_msvc_fixed_options _ _ (by decide) (by decide) (by decide) (by decide)
          (by decide), if_neg hmode])
  have ccount : ∀ f ∈ ["-O0", "-O1", "-O2", "-O3"],
      (add_common_clang_compile_options [] config).count f =
        if clang_level_flag config.optimization = f then 1 else 0 := by
    intro f hf
    simp only [List.mem_cons, List.mem_singleton, List.not_mem_nil, or_false] at hf
    rcases hf with rfl | rfl | rfl | rfl <;>
      (rw [count_clang_options _ _ (by decide) (by decide),
        count_clang_fixed_options _ _ (by decide) (by decide) (by decide), if_neg hmode])
  have mmem : msvc_level_flag config.optimization ∈ ["/Od", "/O1", "/O2", "/Ox"] := by
    cases config.optimization <;> simp [msvc_level_flag]
  have cmem : clang_level_flag config.optimization ∈ ["-O0", "-O1", "-O2", "-O3"] := by
    cases config.optimization <;> simp [clang_level_flag]
  refine ⟨⟨?_, ?_⟩, ⟨?_, ?_⟩⟩
  · rw [mcount _ mmem, if_pos rfl]
  · intro f hf hne hm
    have := mcount f hf
    rw [if_neg (fun e => hne e.symm)] at this
    exact (List.count_pos_iff.2 hm).ne' this
  · rw [ccount _ cmem, if_pos rfl]
  · intro f hf hne hm
    have := ccount f hf
    rw [if_neg (fun e => hne e.symm)] at this
    exact (List.count_pos_iff.2 hm).ne' this

/-- Instance of C21: a Release configuration with level O3 gives `/Ox` and `-O3`. -/
theorem release_honors_optimization_level_witness :
    ((add_common_msvc_compile_options [] release_o3_config).count "/Ox" = 1 ∧
      ∀ f ∈ ["/Od", "/O1", "/O2", "/Ox"], f ≠ "/Ox" →
        f ∉ add_common_msvc_compile_options [] release_o3_config) ∧
    ((add_common_clang_compile_options [] release_o3_config).count "-O3" = 1 ∧
      ∀ f ∈ ["-O0", "-O1", "-O2", "-O3"], f ≠ "-O3" →
        f ∉ add_common_clang_compile_options [] release_o3_config) :=
  release_honors_optimization_level release_o3_config rfl

theorem msvc_optimization_flag_mem (config : BuildConfiguration) :
    (if config.mode = .Debug then "/Od" else msvc_level_flag config.optimization) ∈
      ["/Od", "/O1", "/O2", "/Ox"] := by
  cases config.mode <;> cases config.optimization <;> simp [msvc_level_flag]

theorem clang_optimization_flag_mem (config : BuildConfiguration) :
    (if config.mode = .Debug then "-O0" else clang_level_flag config.optimization) ∈
      ["-O0", "-O1", "-O2", "-O3"] := by
  cases config.mode <;> cases config.optimization <;> simp [clang_level_flag]

/-- C22: for every configuration, the MSVC-style options contain `/Zi` if and
only if debug information is Full and `/Z7` if and only if it is Minimal, hence
neither when it is None; the Clang-style options contain `-g` if and only if
debug information is Full or Minimal. -/
theorem debug_info_flags (config : BuildConfiguration) :
    ("/Zi" ∈ add_common_msvc_compile_options [] config ↔ config.debug_info = .Full) ∧
    ("/Z7" ∈ add_common_msvc_compile_options [] config ↔ config.debug_info = .Minimal) ∧
    (config.debug_info = .None →
      "/Zi" ∉ add_common_msvc_compile_options [] config ∧
      "/Z7" ∉ add_common_msvc_compile_options [] config) ∧
    ("-g" ∈ add_common_clang_compile_options [] config ↔
      (config.debug_info = .Full ∨ config.debug_info = .Minimal)) := by
  have mo := msvc_optimization_flag_mem config
  have co := clang_optimization_flag_mem config
  have hzi : "/Zi" ∈ add_common_msvc_compile_options [] config ↔ config.debug_info = .Full := by
    rw [mem_msvc_options_iff config "/Zi" (by decide) (by decide), mem_msvc_fixed_options]
    have h1 := (msvc_standard_flag_ne config.cpp_standard "/Zi" (by decide)).symm
    have h2 := (runtime_flag_ne config.msvc_runtime "/Zi" (by decide)).symm
    have h3 : "/Zi" ≠
        (if config.mode = .Debug then "/Od" else msvc_level_flag config.optimization) := by
      intro e
      rw [← e] at mo
      revert mo
      decide
    simp [h1, h2, h3]
  have hz7 : "/Z7" ∈ add_common_msvc_compile_options [] config ↔
      config.debug_info = .Minimal := by
    rw [mem_msvc_options_iff config "/Z7" (by decide) (by decide), mem_msvc_fixed_options]
    have h1 := (msvc_standard_flag_ne config.cpp_standard "/Z7" (by decide)).symm
    have h2 := (runtime_flag_ne config.msvc_runtime "/Z7" (by decide)).symm
    have h3 : "/Z7" ≠
        (if config.mode = .Debug then "/Od" else msvc_level_flag config.optimization) := by
      intro e
      rw [← e] at mo
      revert mo
      decide
    simp [h1, h2, h3]
  have hg : "-g" ∈ add_common_clang_compile_options [] config ↔
      (config.debug_info = .Full ∨ config.debug_info = .Minimal) := by
    rw [mem_clang_options_iff config "-g" (by decide) (by decide), mem_clang_fixed_options]
    have h1 := (clang_standard_flag_ne config.cpp_standard "-g" (by decide)).symm
    have h2 := (runtime_flag_ne config.msvc_runtime "-g" (by decide)).symm
    have h3 : "-g" ≠
        (if config.mode = .Debug then "-O0" else clang_level_flag config.optimization) := by
      intro e
      rw [← e] at co
      revert co
      decide
    simp [h1, h2, h3]
  refine ⟨hzi, hz7, ?_, hg⟩
  intro hnone
  rw [hzi, hz7, hnone]
  exact ⟨by decide, by decide⟩

/-- Instance of C22 for a configuration with debug information None. -/
theorem debug_info_flags_witness :
    "/Zi" ∉ add_common_msvc_compile_options [] sample_default_config ∧
      "/Z7" ∉ add_common_msvc_compile_options [] sample_default_config :=
  (debug_info_flags sample_default_config).2.2.1 rfl

/-- C29: for every configuration, the options of each variant are the options
that do not come from the defines and include directories, none of which is a
define or include flag, followed by one define flag per define, in configuration
order, and then one include flag per include directory, in configuration order:
`/D` and `/I` flags for the MSVC-style variant, `-D` and `-I` flags for the
Clang-style variant. -/
theorem options_end_with_defines_and_includes (config : BuildConfiguration) :
    (add_common_msvc_compile_options [] config =
        msvc_fixed_options config ++
          (config.defines.map (fun f => "/D" ++ f) ++
            config.include_dirs.map (fun i => "/I" ++ i)) ∧
      (∀ x ∈ msvc_fixed_options config,
        x.data.take 2 ≠ "/D".data ∧ x.data.take 2 ≠ "/I".data) ∧
      (config.defines.map (fun f => "/D" ++ f) ++
          config.include_dirs.map (fun i => "/I" ++ i)) <:+
        add_common_msvc_compile_options [] config) ∧
    (add_common_clang_compile_options [] config =
        clang_fixed_options config ++
          (config.defines.map (fun f => "-D" ++ f) ++
            config.include_dirs.map (fun i => "-I" ++ i)) ∧
      (∀ x ∈ clang_fixed_options config,
        x.data.take 2 ≠ "-D".data ∧ x.data.take 2 ≠ "-I".data) ∧
      (config.defines.map (fun f => "-D" ++ f) ++
          config.include_dirs.map (fun i => "-I" ++ i)) <:+
        add_common_clang_compile_options [] config) := by
  have hm := msvc_options_form [] config
  have hc := clang_options_form [] config
  rw [List.nil_append] at hm hc
  refine ⟨⟨hm, ?_, ?_⟩, ⟨hc, ?_, ?_⟩⟩
  · intro x hx
    rw [mem_msvc_fixed_options] at hx
    have mo := msvc_optimization_flag_mem config
    rcases hx with rfl | rfl | ⟨rfl, _⟩ | ⟨rfl, _⟩ | rfl | hx
    · cases config.cpp_standard <;> decide
    · revert mo
      generalize (if config.mode = .Debug then "/Od"
        else msvc_level_flag config.optimization) = f
      intro hf
      simp only [List.mem_cons, List.mem_singleton, List.not_mem_nil, or_false] at hf
      rcases hf with rfl | rfl | rfl | rfl <;> decide
    · decide
    · decide
    · cases config.msvc_runtime <;> decide
    · simp only [List.mem_cons, List.mem_singleton, List.not_mem_nil, or_false] at hx
      rcases hx with rfl | rfl | rfl | rfl | rfl <;> decide
  · rw [hm]
    exact List.suffix_append _ _
  · intro x hx
    rw [mem_clang_fixed_options] at hx
    have co := clang_optimization_flag_mem config
    rcases hx with rfl | rfl | ⟨rfl, _⟩ | rfl | hx
    · cases config.cpp_standard <;> decide
    · revert co
      generalize (if config.mode = .Debug then "-O0"
        else clang_level_flag config.optimization) = f
      intro hf
      simp only [List.mem_cons, List.mem_singleton, List.not_mem_nil, or_false] at hf
      rcases hf with rfl | rfl | rfl | rfl <;> decide
    · decide
    · cases config.msvc_runtime <;> decide
    · simp only [List.mem_cons, List.mem_singleton, List.not_mem_nil, or_false] at hx
      rcases hx with rfl | rfl <;> decide
  · rw [hc]
    exact List.suffix_append _ _

/-! ## Properties of the MSVC-style commands -/

theorem msvc_reference_args_eq (deps : List ModuleReference) :
    msvc_reference_args deps =
      (deps.map (fun d => ["/reference", d.name ++ "=" ++ d.ifc_path])).flatten := by
  unfold msvc_reference_args
  induction deps with
  | nil => rfl
  | cons d deps ih => simp [List.flatMap_cons, ih]

theorem getElem?_pairs (deps : List ModuleReference) (f g : ModuleReference → String)
    (i : Nat) :
    (deps.map (fun d => [f d, g d])).flatten[2 * i]? = deps[i]?.map f ∧
      (deps.map (fun d => [f d, g d])).flatten[2 * i + 1]? = deps[i]?.map g := by
  induction deps generalizing i with
  | nil => simp
  | cons d deps ih =>
    cases i with
    | zero => simp
    | succ i =>
      have h1 : 2 * (i + 1) = 2 * i + 1 + 1 := by omega
      obtain ⟨e1, e2⟩ := ih i
      rw [h1]
      simp only [List.map_cons, List.flatten_cons, List.cons_append, List.nil_append,
        List.getElem?_cons_succ]
      exact ⟨e1, e2⟩

/-- C23: the MSVC-style compile-object command has the compiler path as
executable, and its arguments are the options derived from the configuration,
then the source path, then `/Fo:` with the object path, then for each dependency
in order the two arguments `/reference` and `name=ifc_path`; test 1A gives
`Core=build/Core.ifc`. -/
theorem msvc_compile_obj_command_spec (self : MsvcToolchain) (args : CompileObjectArgs) :
    ∃ cmd, self.generate_compile_obj_command args = some cmd ∧
      cmd.executable = self.m_cl_path ∧
      cmd.arguments =
        add_common_msvc_compile_options [] self.m_config ++
          [args.source_file, "/Fo:" ++ args.output_obj_path] ++
          (args.module_dependencies.map
            (fun d => ["/reference", d.name ++ "=" ++ d.ifc_path])).flatten ∧
      (∀ (i : Nat) (d : ModuleReference), args.module_dependencies[i]? = some d →
        cmd.arguments[(add_common_msvc_compile_options [] self.m_config).length + 2 + 2 * i]? =
          some "/reference" ∧
        cmd.arguments[(add_common_msvc_compile_options [] self.m_config).length + 2 + 2 * i + 1]? =
          some (d.name ++ "=" ++ d.ifc_path)) ∧
      test_msvc.generate_compile_obj_command test_compile_args =
        some { executable := "cl.exe"
               arguments := ["/std:c++20", "/Od", "/Zi", "/MDd", "/EHsc", "/nologo", "/c", "/TP",
                 "/permissive-", "/D_DEBUG", "/IC:/includes", "src/main.cpp",
                 "/Fo:build/main.obj", "/reference", "Core=build/Core.ifc"] } := by
  have harg : (add_common_msvc_compile_options [] self.m_config ++
        [args.source_file, "/Fo:" ++ args.output_obj_path] ++
        msvc_reference_args args.module_dependencies) =
      add_common_msvc_compile_options [] self.m_config ++
          [args.source_file, "/Fo:" ++ args.output_obj_path] ++
          (args.module_dependencies.map
            (fun d => ["/reference", d.name ++ "=" ++ d.ifc_path])).flatten := by
    rw [msvc_reference_args_eq]
  refine ⟨_, rfl, rfl, harg, ?_, by decide⟩
  intro i d hd
  show (add_common_msvc_compile_options [] self.m_config ++
        [args.source_file, "/Fo:" ++ args.output_obj_path] ++
        msvc_reference_args args.module_dependencies)[_]? = _ ∧
      (add_common_msvc_compile_options [] self.m_config ++
        [args.source_file, "/Fo:" ++ args.output_obj_path] ++
        msvc_reference_args args.module_dependencies)[_]? = _
  rw [harg]
  obtain ⟨e1, e2⟩ := getElem?_pairs args.module_dependencies (fun _ => "/reference")
    (fun d => d.name ++ "=" ++ d.ifc_path) i
  rw [hd] at e1 e2
  have hlen : (add_common_msvc_compile_options [] self.m_config ++
      [args.source_file, "/Fo:" ++ args.output_obj_path]).length =
      (add_common_msvc_compile_options [] self.m_config).length + 2 := by simp
  constructor
  · rw [List.getElem?_append_right (by rw [hlen]; omega)]
    have hidx : (add_common_msvc_compile_options [] self.m_config).length + 2 + 2 * i -
        (add_common_msvc_compile_options [] self.m_config ++
          [args.source_file, "/Fo:" ++ args.output_obj_path]).length = 2 * i := by
      rw [hlen]
      omega
    rw [hidx, e1]
    rfl
  · rw [List.getElem?_append_right (by rw [hlen]; omega)]
    have hidx : (add_common_msvc_compile_options [] self.m_config).length + 2 + 2 * i + 1 -
        (add_common_msvc_compile_options [] self.m_config ++
          [args.source_file, "/Fo:" ++ args.output_obj_path]).length = 2 * i + 1 := by
      rw [hlen]
      omega
    rw [hidx, e2]
    rfl

/-- C25: the arguments of the MSVC-style emit-interface command are the options
derived from the configuration, then `/interface`, the source path,
`/ifcOutput`, the output path `P`, `/Fo:` with the parent directory of `P`
joined with the stem of `P` plus `.obj`, then `/reference` and `name=ifc_path`
for each dependency in order; for test 1B, whose `P` is `build/Core.ifc`, the
flag is `/Fo:build\Core.obj`: the parent directory `build`, the separator that
`operator/` inserts, and `Core.obj` (the flag that the test computes in lines
98-101, where line 95 with the literal `/Fo:build/Core.obj` is commented out). -/
theorem msvc_emit_ifc_command_spec (self : MsvcToolchain) (args : EmitIFCArgs) :
    ∃ cmd, self.generate_emit_ifc_command args = some cmd ∧
      cmd.executable = self.m_cl_path ∧
      cmd.arguments =
        add_common_msvc_compile_options [] self.m_config ++
          ["/interface", args.interface_unit_path, "/ifcOutput", args.output_ifc_path,
            "/Fo:" ++ args.output_ifc_path.parent_path.append
              (args.output_ifc_path.stem ++ ".obj")] ++
          (args.module_dependencies.map
            (fun d => ["/reference", d.name ++ "=" ++ d.ifc_path])).flatten ∧
      test_msvc.generate_emit_ifc_command test_emit_args =
        some { executable := "cl.exe"
               arguments := ["/std:c++20", "/Od", "/Zi", "/MDd", "/EHsc", "/nologo", "/c", "/TP",
                 "/permissive-", "/D_DEBUG", "/IC:/includes", "/interface", "src/Core.ixx",
                 "/ifcOutput", "build/Core.ifc", "/Fo:build\\Core.obj"] } := by
  refine ⟨_, rfl, rfl, ?_, by decide⟩
  show add_common_msvc_compile_options [] self.m_config ++
        ["/interface", args.interface_unit_path, "/ifcOutput", args.output_ifc_path] ++
        ["/Fo:" ++ args.output_ifc_path.parent_path.append
          (args.output_ifc_path.stem ++ ".obj")] ++
        msvc_reference_args args.module_dependencies = _
  rw [msvc_reference_args_eq]
  simp

/-- C26: the MSVC-style link command has the linker path as executable, and its
arguments are `/nologo`, `/OUT:` with the output path, then `/DEBUG:FULL` exactly
when debug information is Full, then `/OPT:REF` and `/OPT:ICF` exactly when the
mode is Release and debug information is Full, then `/LIBPATH:"dir"` for each
library directory in order, then the object paths in order, then the extra
libraries in order; test 1C is the instance checked last. -/
theorem msvc_link_command_spec (self : MsvcToolchain) (args : LinkArgs) :
    ∃ cmd, self.generate_link_command args = some cmd ∧
      cmd.executable = self.m_link_path ∧
      cmd.arguments =
        ["/nologo", "/OUT:" ++ args.output_target_path] ++
          (if self.m_config.debug_info = .Full then ["/DEBUG:FULL"] else []) ++
          (if self.m_config.mode = .Release ∧ self.m_config.debug_info = .Full
            then ["/OPT:REF", "/OPT:ICF"] else []) ++
          self.m_config.library_dirs.map (fun dir => "/LIBPATH:\"" ++ dir ++ "\"") ++
          args.object_files ++ args.link_libraries ∧
      test_msvc.generate_link_command test_link_args =
        some { executable := "link.exe"
               arguments := ["/nologo", "/OUT:build/app.exe", "/DEBUG:FULL",
                 "/LIBPATH:\"C:/libs\"", "build/main.obj", "build/Core.obj", "kernel32.lib"] } :=
  ⟨_, rfl, rfl, rfl, by decide⟩

/-! ## Properties of the Clang-style commands -/

theorem clang_push_module_files_eq (arguments : List String) (deps : List ModuleReference) :
    clang_push_module_files arguments deps =
      arguments ++ deps.map
        (fun d => "-fmodule-file=" ++ d.name ++ "=" ++ d.ifc_path.replace_extension ".pcm") := by
  induction deps generalizing arguments with
  | nil => simp [clang_push_module_files]
  | cons d deps ih =>
    unfold clang_push_module_files
    simp only
    rw [ih]
    simp

/-- C24: the Clang-style compile-object and emit-interface commands end with one
argument per dependency, in order, `-fmodule-file=name=p` where `p` is the
dependency's `ifc_path` with its extension replaced by `.pcm`; before them the
compile-object arguments are the options derived from the configuration, `-c`,
the source path, `-o` and the object path (for emit-interface: the options,
`--precompile`, `-x`, `c++-module`, the source path, `-o` and the output path
with the extension `.pcm`). -/
theorem clang_module_file_arguments (self : ClangToolchain) (compile_args : CompileObjectArgs)
    (emit_args : EmitIFCArgs) :
    (∃ cmd, self.generate_compile_obj_command compile_args = some cmd ∧
      cmd.executable = self.m_clang_cl_path ∧
      cmd.arguments =
        add_common_clang_compile_options [] self.m_config ++
          ["-c", compile_args.source_file, "-o", compile_args.output_obj_path] ++
          compile_args.module_dependencies.map
            (fun d => "-fmodule-file=" ++ d.name ++ "=" ++
              d.ifc_path.replace_extension ".pcm") ∧
      compile_args.module_dependencies.map
          (fun d => "-fmodule-file=" ++ d.name ++ "=" ++
            d.ifc_path.replace_extension ".pcm") <:+ cmd.arguments) ∧
    (∃ cmd, self.generate_emit_ifc_command emit_args = some cmd ∧
      cmd.executable = self.m_clang_cl_path ∧
      cmd.arguments =
        add_common_clang_compile_options [] self.m_config ++
          ["--precompile", "-x", "c++-module", emit_args.interface_unit_path, "-o",
            emit_args.output_ifc_path.replace_extension ".pcm"] ++
          emit_args.module_dependencies.map
            (fun d => "-fmodule-file=" ++ d.name ++ "=" ++
              d.ifc_path.replace_extension ".pcm") ∧
      emit_args.module_dependencies.map
          (fun d => "-fmodule-file=" ++ d.name ++ "=" ++
            d.ifc_path.replace_extension ".pcm") <:+ cmd.arguments) := by
  constructor
  · have harg : clang_push_module_files
          (add_common_clang_compile_options [] self.m_config ++
            ["-c", compile_args.source_file, "-o", compile_args.output_obj_path])
          compile_args.module_dependencies =
        add_common_clang_compile_options [] self.m_config ++
          ["-c", compile_args.source_file, "-o", compile_args.output_obj_path] ++
          compile_args.module_dependencies.map
            (fun d => "-fmodule-file=" ++ d.name ++ "=" ++
              d.ifc_path.replace_extension ".pcm") :=
      clang_push_module_files_eq _ _
    refine ⟨_, rfl, rfl, harg, ?_⟩
    show _ <:+ clang_push_module_files _ _
    rw [harg]
    exact List.suffix_append _ _
  · have harg : clang_push_module_files
          (add_common_clang_compile_options [] self.m_config ++
            ["--precompile", "-x", "c++-module", emit_args.interface_unit_path] ++
            ["-o", emit_args.output_ifc_path.replace_extension ".pcm"])
          emit_args.module_dependencies =
        add_common_clang_compile_options [] self.m_config ++
          ["--precompile", "-x", "c++-module", emit_args.interface_unit_path, "-o",
            emit_args.output_ifc_path.replace_extension ".pcm"] ++
          emit_args.module_dependencies.map
            (fun d => "-fmodule-file=" ++ d.name ++ "=" ++
              d.ifc_path.replace_extension ".pcm") := by
      rw [clang_push_module_files_eq]
      simp
    refine ⟨_, rfl, rfl, harg, ?_⟩
    show _ <:+ clang_push_module_files _ _
    rw [harg]
    exact List.suffix_append _ _

/-! ## Toolchains that support every request -/

theorem msvc_respond_ne_none (msvc : MsvcToolchain) (call : ToolchainCall) :
    msvc.toIToolchain.respond call ≠ none := by
  cases call <;>
    simp [IToolchain.respond, MsvcToolchain.toIToolchain,
      MsvcToolchain.generate_compile_obj_command, MsvcToolchain.generate_emit_ifc_command]

theorem clang_respond_ne_none (clang : ClangToolchain) (call : ToolchainCall) :
    clang.toIToolchain.respond call ≠ none := by
  cases call <;>
    simp [IToolchain.respond, ClangToolchain.toIToolchain,
      ClangToolchain.generate_compile_obj_command, ClangToolchain.generate_emit_ifc_command]

theorem plan_fails_iff_missing (self : ModuleProcessor)
    (hsup : ∀ call, self.m_toolchain.respond call ≠ none) :
    self.generate_build_plan.1 = none ↔
      ∃ d ∈ self.m_module.dependencies, self.m_dependency_ifcs.lookup d = none := by
  constructor
  · intro h
    by_contra hc
    have hdeps : ∀ d ∈ self.m_module.dependencies, self.m_dependency_ifcs.lookup d ≠ none :=
      fun d hd hl => hc ⟨d, hd, hl⟩
    have hg : self.generate_build_plan = (none, self.generate_build_plan.2) := by
      rw [← h]
    obtain ⟨_, call, _, hn, _⟩ := generate_build_plan_none self _ hg hdeps
    exact hsup call hn
  · intro h
    exact (generate_build_plan_of_unresolved self
      ((resolve_dependencies_none_iff self).2 h)).1

/-- C27: each of the three operations of the MSVC-style and of the Clang-style
toolchain returns a command, never the absent result, for every configuration
and every argument value; hence a planner that uses one of them fails exactly
when a declared dependency is missing from the mapping. -/
theorem toolchains_always_return_command (msvc : MsvcToolchain) (clang : ClangToolchain) :
    (∀ args, (msvc.generate_emit_ifc_command args).isSome = true) ∧
    (∀ args, (msvc.generate_compile_obj_command args).isSome = true) ∧
    (∀ args, (msvc.generate_link_command args).isSome = true) ∧
    (∀ args, (clang.generate_emit_ifc_command args).isSome = true) ∧
    (∀ args, (clang.generate_compile_obj_command args).isSome = true) ∧
    (∀ args, (clang.generate_link_command args).isSome = true) ∧
    (∀ (unit : ModuleUnit) (build_dir : path) (ifcs : List (String × path)),
      (ModuleProcessor.construct unit msvc.toIToolchain build_dir ifcs).generate_build_plan.1
          = none ↔
        ∃ d ∈ unit.dependencies, ifcs.lookup d = none) ∧
    (∀ (unit : ModuleUnit) (build_dir : path) (ifcs : List (String × path)),
      (ModuleProcessor.construct unit clang.toIToolchain build_dir ifcs).generate_build_plan.1
          = none ↔
        ∃ d ∈ unit.dependencies, ifcs.lookup d = none) := by
  refine ⟨fun _ => rfl, fun _ => rfl, fun _ => rfl, fun _ => rfl, fun _ => rfl, fun _ => rfl,
    ?_, ?_⟩
  · intro unit build_dir ifcs
    exact plan_fails_iff_missing _ (msvc_respond_ne_none msvc)
  · intro unit build_dir ifcs
    exact plan_fails_iff_missing _ (clang_respond_ne_none clang)

/-- C28: for the configuration of `create_debug_default`, whatever the
default-constructed configuration holds and whatever include and library
directories are added to it, the MSVC-style compile-object command has the
compiler path given at construction as executable and its arguments contain
`/Od`, `/Zi`, `/MDd` and `/D_DEBUG`. -/
theorem debug_default_compile_command (default_config : BuildConfiguration)
    (extra_include_dirs extra_library_dirs : List path) (cl_path link_path : path)
    (args : CompileObjectArgs) :
    ∃ cmd,
      MsvcToolchain.generate_compile_obj_command
          { m_cl_path := cl_path, m_link_path := link_path,
            m_config :=
              { BuildConfigurationFactory.create_debug_default default_config with
                include_dirs := default_config.include_dirs ++ extra_include_dirs
                library_dirs := default_config.library_dirs ++ extra_library_dirs } }
          args = some cmd ∧
      cmd.executable = cl_path ∧
      "/Od" ∈ cmd.arguments ∧ "/Zi" ∈ cmd.arguments ∧ "/MDd" ∈ cmd.arguments ∧
      "/D_DEBUG" ∈ cmd.arguments := by
  refine ⟨_, rfl, rfl, ?_, ?_, ?_, ?_⟩ <;>
    simp [msvc_options_form, msvc_fixed_options, runtime_flag,
      BuildConfigurationFactory.create_debug_default]

/-! ## The interface artifact of a plan -/

/-- With a primary interface, mapped dependencies and a toolchain that supports
every request, the plan exists and its action after those of the partitions is
the command returned for the emit-interface request, whose output path is
`final_ifc_path`. -/
theorem plan_emit_action (self : ModuleProcessor)
    (hI : self.m_module.primary_interface ≠ "")
    (hdeps : ∀ d ∈ self.m_module.dependencies, self.m_dependency_ifcs.lookup d ≠ none)
    (hsup : ∀ call, self.m_toolchain.respond call ≠ none) :
    ∃ plan resolved cmd, self.generate_build_plan.1 = some plan ∧
      plan.final_ifc_path = self.m_module_artifact_dir.append (self.m_module.name ++ ".ifc") ∧
      self.m_toolchain.generate_emit_ifc_command
        { interface_unit_path := self.m_module.primary_interface
          output_ifc_path := plan.final_ifc_path
          module_dependencies := resolved } = some cmd ∧
      plan.actions[self.m_module.partitions.length]? =
        some { command := cmd, expected_output_path := plan.final_ifc_path } := by
  cases hg : self.generate_build_plan with
  | mk r trace =>
    cases r with
    | none =>
      obtain ⟨_, call, _, hn, _⟩ := generate_build_plan_none self trace hg hdeps
      exact absurd hn (hsup call)
    | some plan =>
      obtain ⟨resolved, _, hcalls, hact, _, hfinal, _⟩ :=
        generate_build_plan_some self plan trace hg
      rw [if_neg hI] at hcalls hfinal
      have hpath : plan.final_ifc_path =
          self.m_module_artifact_dir.append (self.m_module.name ++ ".ifc") := hfinal
      have hn : trace.calls[self.m_module.partitions.length]? =
          some (ToolchainCall.emit_ifc (self.emit_args resolved)) := by
        rw [hcalls, List.append_assoc, List.getElem?_append_right (by simp)]
        simp
      have hargs : self.emit_args resolved =
          { interface_unit_path := self.m_module.primary_interface
            output_ifc_path := plan.final_ifc_path
            module_dependencies := resolved } := by
        rw [hpath]
        rfl
      have hmap := congrArg (fun l => l[self.m_module.partitions.length]?) hact
      simp only [List.getElem?_map, hn, Option.map_some'] at hmap
      cases ha : plan.actions[self.m_module.partitions.length]? with
      | none =>
        rw [ha] at hmap
        simp at hmap
      | some a =>
        rw [ha] at hmap
        simp only [Option.map_some', IToolchain.action_of, ToolchainCall.output_path,
          IToolchain.respond] at hmap
        cases hc : self.m_toolchain.generate_emit_ifc_command (self.emit_args resolved) with
        | none =>
          rw [hc] at hmap
          simp at hmap
        | some cmd =>
          rw [hc] at hmap
          simp only [Option.map_some', Option.some.injEq] at hmap
          refine ⟨plan, resolved, cmd, rfl, hpath, ?_, ?_⟩
          · rw [← hargs]
            exact hc
          · rw [ha, hmap, hfinal]

/-- C30 fails on the code for the Clang-style toolchain: for the module `TestGfx`
of test 2A the plan's `final_ifc_path` is `build\TestGfx\TestGfx.ifc`, and the
argument that follows `-o` in the emit-interface command of the plan is
`build\TestGfx\TestGfx.pcm`. -/
theorem clang_interface_artifact_mismatch :
    (clang_test_processor "clang-cl" release_o3_config).generate_build_plan.1.bind
        (fun plan => plan.actions[2]?.map (fun action =>
          (plan.final_ifc_path, action.command.arguments,
            argument_after "-o" action.command.arguments))) =
      some ("build\\TestGfx\\TestGfx.ifc",
        ["-std=c++2b", "-O3", "-g", "/MD", "-fms-compatibility", "-Wno-msvc-include", "-DNDEBUG",
          "-Iinc", "--precompile", "-x", "c++-module", "gfx/graphics.ixx", "-o",
          "build\\TestGfx\\TestGfx.pcm", "-fmodule-file=Core=build/Core/Core.pcm"],
        some "build\\TestGfx\\TestGfx.pcm") ∧
      ("build\\TestGfx\\TestGfx.pcm" : String) ≠ "build\\TestGfx\\TestGfx.ifc" := by
  decide

/-- C30 as amended: for every module with a primary interface whose
dependencies are mapped, the plan exists and, with the MSVC-style toolchain, the
argument that follows `/ifcOutput` in its emit-interface command is the plan's
`final_ifc_path`; with the Clang-style toolchain the argument that follows `-o`
is `final_ifc_path` with its extension replaced by `.pcm`, which is a different
path. -/
theorem interface_artifact_argument (unit : ModuleUnit) (build_dir : path)
    (ifcs : List (String × path)) (msvc : MsvcToolchain) (clang : ClangToolchain)
    (hI : unit.primary_interface ≠ "")
    (hdeps : ∀ d ∈ unit.dependencies, ifcs.lookup d ≠ none) :
    (∃ plan cmd rest,
      (ModuleProcessor.construct unit msvc.toIToolchain build_dir ifcs).generate_build_plan.1
        = some plan ∧
      plan.actions[unit.partitions.length]? =
        some { command := cmd, expected_output_path := plan.final_ifc_path } ∧
      cmd.arguments =
        add_common_msvc_compile_options [] msvc.m_config ++
          ["/interface", unit.primary_interface, "/ifcOutput", plan.final_ifc_path] ++ rest) ∧
    (∃ plan cmd rest,
      (ModuleProcessor.construct unit clang.toIToolchain build_dir ifcs).generate_build_plan.1
        = some plan ∧
      plan.actions[unit.partitions.length]? =
        some { command := cmd, expected_output_path := plan.final_ifc_path } ∧
      cmd.arguments =
        add_common_clang_compile_options [] clang.m_config ++
          ["--precompile", "-x", "c++-module", unit.primary_interface, "-o",
            plan.final_ifc_path.replace_extension ".pcm"] ++ rest ∧
      plan.final_ifc_path.replace_extension ".pcm" ≠ plan.final_ifc_path) := by
  constructor
  · obtain ⟨plan, resolved, cmd, hplan, _, hcmd, hact⟩ :=
      plan_emit_action (ModuleProcessor.construct unit msvc.toIToolchain build_dir ifcs)
        hI hdeps (msvc_respond_ne_none msvc)
    refine ⟨plan, cmd,
      ("/Fo:" ++ plan.final_ifc_path.parent_path.append (plan.final_ifc_path.stem ++ ".obj")) ::
        msvc_reference_args resolved, hplan, hact, ?_⟩
    have hc : MsvcToolchain.generate_emit_ifc_command msvc
        { interface_unit_path := unit.primary_interface
          output_ifc_path := plan.final_ifc_path
          module_dependencies := resolved } = some cmd := hcmd
    unfold MsvcToolchain.generate_emit_ifc_command at hc
    simp only [Option.some.injEq] at hc
    rw [← hc]
    simp only [List.append_assoc, List.cons_append, List.nil_append]
  · obtain ⟨plan, resolved, cmd, hplan, hpath, hcmd, hact⟩ :=
      plan_emit_action (ModuleProcessor.construct unit clang.toIToolchain build_dir ifcs)
        hI hdeps (clang_respond_ne_none clang)
    refine ⟨plan, cmd, resolved.map
      (fun d => "-fmodule-file=" ++ d.name ++ "=" ++ d.ifc_path.replace_extension ".pcm"),
      hplan, hact, ?_, ?_⟩
    · have hc : ClangToolchain.generate_emit_ifc_command clang
          { interface_unit_path := unit.primary_interface
            output_ifc_path := plan.final_ifc_path
            module_dependencies := resolved } = some cmd := hcmd
      unfold ClangToolchain.generate_emit_ifc_command at hc
      simp only [Option.some.injEq] at hc
      rw [← hc]
      simp only [clang_push_module_files_eq, List.append_assoc, List.cons_append,
        List.nil_append]
    · rw [hpath]
      exact ifc_path_replace_extension_ne _ _

/-- Instance of C30 as amended: the module of test 2A. -/
theorem interface_artifact_argument_witness :
    ∃ plan cmd rest,
      (ModuleProcessor.construct test_module test_msvc.toIToolchain "build"
        test_dependency_ifcs).generate_build_plan.1 = some plan ∧
      plan.actions[test_module.partitions.length]? =
        some { command := cmd, expected_output_path := plan.final_ifc_path } ∧
      cmd.arguments =
        add_common_msvc_compile_options [] test_msvc.m_config ++
          ["/interface", test_module.primary_interface, "/ifcOutput", plan.final_ifc_path] ++
            rest :=
  (interface_artifact_argument test_module "build" test_dependency_ifcs test_msvc
    { m_clang_cl_path := "clang-cl", m_config := release_o3_config }
    (by decide) (by decide)).1

/-! ## Success of `topological_sort` on acyclic maps -/

theorem duplicate_dependency_closed :
    ∀ v info, (v, info) ∈ duplicate_dependency →
      ∀ d ∈ info.dependencies, d ∈ duplicate_dependency.keys := by
  intro v info hv d hd
  simp only [duplicate_dependency, mk_module, List.mem_cons, Prod.mk.injEq,
    List.not_mem_nil, or_false] at hv
  rcases hv with ⟨_, rfl⟩ | ⟨_, rfl⟩
  · simp at hd
  · simp only [List.mem_cons, List.not_mem_nil, or_false, or_self] at hd
    subst hd
    decide

theorem duplicate_dependency_acyclic : ∀ cyc, ¬ is_cycle duplicate_dependency cyc := by
  intro cyc hc
  obtain ⟨x, hx⟩ := List.exists_mem_of_ne_nil cyc hc.1
  obtain ⟨y, hy, info, hinfo, hyd⟩ := cycle_successor duplicate_dependency cyc hc x hx
  obtain ⟨z, _, info2, hinfo2, hzd⟩ := cycle_successor duplicate_dependency cyc hc y hy
  simp only [duplicate_dependency, mk_module, List.mem_cons, Prod.mk.injEq,
    List.not_mem_nil, or_false] at hinfo hinfo2
  rcases hinfo with ⟨_, rfl⟩ | ⟨_, rfl⟩
  · simp at hyd
  · simp only [List.mem_cons, List.not_mem_nil, or_false, or_self] at hyd
    subst hyd
    rcases hinfo2 with ⟨_, rfl⟩ | ⟨h, _⟩
    · simp at hzd
    · exact absurd h (by decide)

/-- C33: for every module map in which every declared dependency is a module of
the map and no modules form a dependency cycle, `topological_sort` returns an
order. Nothing is assumed about repetitions in a dependency list. -/
theorem topological_sort_acyclic_succeeds (modules : ModuleMap) (hnd : modules.keys.Nodup)
    (hclosed : ∀ v info, (v, info) ∈ modules → ∀ d ∈ info.dependencies, d ∈ modules.keys)
    (hacyclic : ∀ cyc, ¬ is_cycle modules cyc) :
    ∃ order, topological_sort modules = some (some order) := by
  obtain ⟨r, hr⟩ := topological_sort_returns modules hnd
  cases r with
  | none =>
    obtain ⟨cyc, hcyc⟩ := topological_sort_failure_cycle modules hnd hclosed hr
    exact absurd hcyc (hacyclic cyc)
  | some order => exact ⟨order, hr⟩

/-- Instance of C33: module `B` lists its dependency `A` twice. -/
theorem topological_sort_acyclic_succeeds_witness :
    ∃ order, topological_sort duplicate_dependency = some (some order) :=
  topological_sort_acyclic_succeeds duplicate_dependency (by decide)
    duplicate_dependency_closed duplicate_dependency_acyclic

/-! ## Termination of `topological_sort` -/

theorem relax_in_degree (s : SortState) (v : String) :
    (relax s v).in_degree = Function.update s.in_degree v (s.in_degree v - 1) := by
  unfold relax
  simp only
  split_ifs <;> rfl

theorem sort_iteration_inv (modules : ModuleMap) (hnd : modules.keys.Nodup) (s : SortState)
    (u : String) (h : SortInv modules s []) (hu : s.queue[s.head]? = some u) :
    SortInv modules { s with head := s.head + 1, sorted_order := s.sorted_order ++ [u] }
      ((build_graph modules modules (fun _ => 0, fun _ => [])).2 u) := by
  have hlt : s.head < s.queue.length := (List.getElem?_eq_some_iff.1 hu).1
  have huk : u ∈ modules.keys := h.sub u (List.getElem?_mem hu)
  have hup : u ∉ s.sorted_order := by
    rw [h.order_eq]
    exact not_mem_take_of_nodup s.queue h.nodup s.head u hu
  refine ⟨?_, hlt, h.nodup, h.sub, h.zero_iff, ?_, h.before, ?_⟩
  · show s.sorted_order ++ [u] = s.queue.take (s.head + 1)
    rw [List.take_succ, hu, h.order_eq]
    rfl
  · intro v info hv
    show s.in_degree v =
      ((info.dependencies.filter (fun d => decide (d ∉ s.sorted_order ++ [u]))).length : Int) +
        (((build_graph modules modules (fun _ => 0, fun _ => [])).2 u).count v : Int)
    rw [h.degree v info hv, build_graph_reverse_adj_count modules modules _ hnd u huk v info hv,
      filter_not_mem_append_singleton info.dependencies s.sorted_order u hup]
    simp
  · intro x hx
    rcases build_graph_reverse_adj_mem modules modules _ u x hx with h1 | h1
    · simp at h1
    · exact h1

/-- Every configuration of the main loop satisfies the invariant, and the
counter of a name that is not a module stays at its initial value. -/
theorem reachable_inv (modules : ModuleMap) (hnd : modules.keys.Nodup) (s : SortState)
    (rest : List String) (h : SortReachable modules s rest) :
    SortInv modules s rest ∧ ∀ v, v ∉ modules.keys → s.in_degree v = 0 := by
  induction h with
  | start =>
    refine ⟨initial_state_inv modules hnd, ?_⟩
    intro v hv
    exact build_graph_in_degree_of_not_mem modules modules _ v hv
  | iteration s u _ hu ih =>
    exact ⟨sort_iteration_inv modules hnd s u ih.1 hu, ih.2⟩
  | inner s v rest _ ih =>
    refine ⟨relax_inv modules s v rest ih.1, ?_⟩
    intro w hw
    have hne : w ≠ v := by
      intro hc
      rw [hc] at hw
      exact hw (ih.1.rest_sub v (List.mem_cons_self _ _))
    rw [relax_in_degree, Function.update_noteq hne]
    exact ih.2 w hw

theorem foldl_relax_reachable (modules : ModuleMap) (rest : List String) (s : SortState)
    (h : SortReachable modules s rest) : SortReachable modules (rest.foldl relax s) [] := by
  induction rest generalizing s with
  | nil => exact h
  | cons v rest ih => exact ih _ (SortReachable.inner s v rest h)

theorem sort_loop_reachable (modules : ModuleMap) (fuel : Nat) (s t : SortState)
    (h : SortReachable modules s [])
    (hloop : sort_loop (build_graph modules modules (fun _ => 0, fun _ => [])).2 fuel s = some t) :
    SortReachable modules t [] := by
  induction fuel generalizing s with
  | zero =>
    unfold sort_loop at hloop
    cases hu : s.queue[s.head]? with
    | none =>
      rw [hu] at hloop
      simp only [Option.some.injEq] at hloop
      rw [← hloop]
      exact h
    | some u =>
      rw [hu] at hloop
      simp at hloop
  | succ fuel ih =>
    unfold sort_loop at hloop
    cases hu : s.queue[s.head]? with
    | none =>
      rw [hu] at hloop
      simp only [Option.some.injEq] at hloop
      rw [← hloop]
      exact h
    | some u =>
      rw [hu] at hloop
      simp only at hloop
      apply ih _ _ hloop
      unfold sort_step
      exact foldl_relax_reachable modules _ _ (SortReachable.iteration s u h hu)

/-- C34: `topological_sort` terminates on every module map: the main loop ends
within as many iterations as there are modules (the bound of the loop is not
exhausted, and `head`, which counts the iterations made, never exceeds the
number of modules), and in every configuration the run passes through no name
occurs twice in the queue and no in-degree counter is negative. Nothing is
assumed about cycles, unknown or repeated dependencies. -/
theorem topological_sort_terminates (modules : ModuleMap) (hnd : modules.keys.Nodup) :
    (∃ t, sort_loop (build_graph modules modules (fun _ => 0, fun _ => [])).2 modules.length
        (initial_state modules) = some t ∧ SortReachable modules t []) ∧
    (∃ r, topological_sort modules = some r) ∧
    ∀ s rest, SortReachable modules s rest →
      s.queue.Nodup ∧ (∀ v, 0 ≤ s.in_degree v) ∧ s.head ≤ modules.length ∧
        s.sorted_order.length = s.head := by
  refine ⟨?_, topological_sort_returns modules hnd, ?_⟩
  · obtain ⟨t, ht, _, _⟩ := sort_loop_spec modules hnd modules.length (initial_state modules)
      (initial_state_inv modules hnd) (Nat.le_add_right _ _)
    exact ⟨t, ht, sort_loop_reachable modules _ _ t SortReachable.start ht⟩
  · intro s rest hs
    obtain ⟨hinv, hout⟩ := reachable_inv modules hnd s rest hs
    refine ⟨hinv.nodup, ?_, ?_, ?_⟩
    · intro v
      by_cases hv : v ∈ modules.keys
      · obtain ⟨info, hinfo⟩ := (mem_keys_iff modules v).1 hv
        rw [hinv.degree v info hinfo]
        omega
      · rw [hout v hv]
    · have hlen := length_le_of_nodup_of_subset s.queue modules.keys hinv.nodup hinv.sub
      have hk : modules.keys.length = modules.length := by simp [ModuleMap.keys]
      have := hinv.head_le
      omega
    · rw [hinv.order_eq, List.length_take]
      have := hinv.head_le
      omega

/-- Instance of C34 on the two-cycle `X→{Y}, Y→{X}`: the function returns. -/
theorem topological_sort_terminates_witness :
    ∃ r, topological_sort two_cycle = some r :=
  (topological_sort_terminates two_cycle (by decide)).2.1

/-! ## Tie-breaking of `topological_sort` -/

theorem relax_queue_extends (s : SortState) (v : String) : s.queue <+: (relax s v).queue := by
  unfold relax
  simp only
  split_ifs
  · exact List.prefix_append _ _
  · exact List.prefix_refl _

theorem foldl_relax_queue_extends (rest : List String) (s : SortState) :
    s.queue <+: (rest.foldl relax s).queue := by
  induction rest generalizing s with
  | nil => exact List.prefix_refl _
  | cons v rest ih => exact (relax_queue_extends s v).trans (ih _)

theorem sort_loop_queue_extends (reverse_adj : String → List String) (fuel : Nat)
    (s t : SortState) (hloop : sort_loop reverse_adj fuel s = some t) :
    s.queue <+: t.queue := by
  induction fuel generalizing s with
  | zero =>
    unfold sort_loop at hloop
    cases hu : s.queue[s.head]? with
    | none =>
      rw [hu] at hloop
      simp only [Option.some.injEq] at hloop
      rw [← hloop]
    | some u =>
      rw [hu] at hloop
      simp at hloop
  | succ fuel ih =>
    unfold sort_loop at hloop
    cases hu : s.queue[s.head]? with
    | none =>
      rw [hu] at hloop
      simp only [Option.some.injEq] at hloop
      rw [← hloop]
    | some u =>
      rw [hu] at hloop
      simp only at hloop
      have h1 : s.queue <+: (sort_step reverse_adj s u).queue :=
        foldl_relax_queue_extends (reverse_adj u)
          { s with head := s.head + 1, sorted_order := s.sorted_order ++ [u] }
      exact h1.trans (ih _ hloop)

/-- The queue is seeded with the modules that declare no dependency, in the
iteration order of the map. -/
theorem initial_queue_eq (modules : ModuleMap) (hnd : modules.keys.Nodup) :
    (initial_state modules).queue = no_dependency_modules modules := by
  unfold initial_state no_dependency_modules ModuleMap.keys
  simp only
  rw [List.filter_map]
  congr 1
  apply List.filter_congr
  intro e he
  obtain ⟨v, info⟩ := e
  have hdeg := build_graph_in_degree modules modules (fun _ => 0, fun _ => []) hnd v info he
  simp only [Function.comp_apply, hdeg]
  cases hd : info.dependencies with
  | nil => simp
  | cons d ds => simp; omega

theorem mem_no_dependency_modules (modules : ModuleMap) (name : String) :
    name ∈ no_dependency_modules modules ↔
      ∃ info, (name, info) ∈ modules ∧ info.dependencies = [] := by
  unfold no_dependency_modules
  simp only [List.mem_map, List.mem_filter, List.isEmpty_iff]
  constructor
  · rintro ⟨⟨v, info⟩, ⟨he, hd⟩, rfl⟩
    exact ⟨info, he, hd⟩
  · rintro ⟨info, he, hd⟩
    exact ⟨(name, info), ⟨he, hd⟩, rfl⟩

theorem diamond_keys_sorted : diamond.keys.Sorted (· < ·) := by
  simp only [diamond, mk_module, ModuleMap.keys, List.map_cons, List.map_nil, List.Sorted,
    List.pairwise_cons, List.mem_cons, List.not_mem_nil, or_false, forall_eq_or_imp, forall_eq,
    List.Pairwise.nil, String.lt_iff_toList_lt, IsEmpty.forall_iff, implies_true, and_true]
  decide

/-- C35: on every module map, whose entries come in ascending order of the
names, on which `topological_sort` succeeds, the returned order starts with the
modules that declare no dependency, in ascending order of their names, and no
such module comes later; on the diamond `A→{}, B→{A}, C→{A}, D→{B,C}` the
result is exactly `[A, B, C, D]`. -/
theorem topological_sort_tie_breaking :
    (∀ (modules : ModuleMap) (order : List String), modules.keys.Sorted (· < ·) →
      topological_sort modules = some (some order) →
      ∃ rest, order = no_dependency_modules modules ++ rest ∧
        (no_dependency_modules modules).Sorted (· < ·) ∧
        (∀ name, name ∈ no_dependency_modules modules ↔
          ∃ info, (name, info) ∈ modules ∧ info.dependencies = []) ∧
        ∀ name ∈ rest, name ∉ no_dependency_modules modules) ∧
    topological_sort diamond = some (some ["A", "B", "C", "D"]) := by
  refine ⟨?_, by decide⟩
  intro modules order hsorted hsort
  have hnd : modules.keys.Nodup := hsorted.nodup
  obtain ⟨t, ht, hinv, hq⟩ := sort_loop_spec modules hnd modules.length (initial_state modules)
    (initial_state_inv modules hnd) (Nat.le_add_right _ _)
  have horder : t.queue = order := by
    unfold topological_sort topological_sort_fuel at hsort
    simp only [ht] at hsort
    rw [← hq]
    by_cases hlen : t.sorted_order.length ≠ modules.length
    · rw [if_pos hlen] at hsort
      simp at hsort
    · rw [if_neg hlen] at hsort
      simpa using hsort
  have hpre := sort_loop_queue_extends _ _ _ t ht
  rw [initial_queue_eq modules hnd, horder] at hpre
  obtain ⟨rest, hrest⟩ := hpre
  refine ⟨rest, hrest.symm, ?_, mem_no_dependency_modules modules, ?_⟩
  · have hsub : (no_dependency_modules modules).Sublist modules.keys := by
      unfold no_dependency_modules ModuleMap.keys
      exact (List.filter_sublist _).map _
    exact hsorted.sublist hsub
  · intro name hname hmem
    have hnodup : order.Nodup := by
      rw [← horder]
      exact hinv.nodup
    rw [← hrest] at hnodup
    exact (List.nodup_append.1 hnodup).2.2 hmem hname

/-- Instance of C35 on the diamond, whose names come in ascending order. -/
theorem topological_sort_tie_breaking_witness :
    ∃ rest, ["A", "B", "C", "D"] = no_dependency_modules diamond ++ rest ∧
      (no_dependency_modules diamond).Sorted (· < ·) ∧
      (∀ name, name ∈ no_dependency_modules diamond ↔
        ∃ info, (name, info) ∈ diamond ∧ info.dependencies = []) ∧
      ∀ name ∈ rest, name ∉ no_dependency_modules diamond :=
  topological_sort_tie_breaking.1 diamond ["A", "B", "C", "D"] diamond_keys_sorted (by decide)

/-! ## The dependency references of the requests -/

theorem resolve_loop_references (self : ModuleProcessor) (deps : List String)
    (resolved r : List ModuleReference) (err : String)
    (h : self.resolve_loop deps resolved = (some r, err)) :
    r.map (fun x => (x.name, some x.ifc_path)) =
      resolved.map (fun x => (x.name, some x.ifc_path)) ++
        deps.map (fun d => (d, self.m_dependency_ifcs.lookup d)) := by
  induction deps generalizing resolved with
  | nil =>
    unfold ModuleProcessor.resolve_loop at h
    have h1 := (Prod.mk.inj h).1
    simp only [Option.some.injEq] at h1
    rw [← h1]
    simp
  | cons dep deps ih =>
    unfold ModuleProcessor.resolve_loop at h
    cases hl : self.m_dependency_ifcs.lookup dep with
    | none =>
      rw [hl] at h
      simp at h
    | some ifc =>
      rw [hl] at h
      simp only at h
      rw [ih _ h]
      simp [hl]

theorem plan_sources_calls (self : ModuleProcessor) (resolved_deps : List ModuleReference)
    (error_text : String) (sources : List path) (plan : ModuleBuildPlan) (trace : Trace) :
    ∀ c ∈ (self.plan_sources resolved_deps error_text sources plan trace).2.calls,
      c ∈ trace.calls ∨ c.module_dependencies = resolved_deps := by
  induction sources generalizing plan trace with
  | nil =>
    intro c hc
    exact Or.inl hc
  | cons src rest ih =>
    intro c hc
    unfold ModuleProcessor.plan_sources at hc
    simp only at hc
    cases hcmd : self.m_toolchain.generate_compile_obj_command
        (self.compile_args resolved_deps src) with
    | none =>
      rw [hcmd] at hc
      simp only [List.mem_append, List.mem_singleton] at hc
      rcases hc with hc | hc
      · exact Or.inl hc
      · rw [hc]
        exact Or.inr rfl
    | some cmd =>
      rw [hcmd] at hc
      rcases ih _ _ c hc with h1 | h1
      · simp only [List.mem_append, List.mem_singleton] at h1
        rcases h1 with h1 | h1
        · exact Or.inl h1
        · rw [h1]
          exact Or.inr rfl
      · exact Or.inr h1

theorem plan_interface_calls (self : ModuleProcessor) (resolved_deps : List ModuleReference)
    (plan : ModuleBuildPlan) (trace : Trace) :
    ∀ c ∈ (self.plan_interface resolved_deps plan trace).2.calls,
      c ∈ trace.calls ∨ c.module_dependencies = resolved_deps := by
  intro c hc
  unfold ModuleProcessor.plan_interface at hc
  by_cases hI : self.m_module.primary_interface = ""
  · rw [if_pos hI] at hc
    exact Or.inl hc
  · rw [if_neg hI] at hc
    simp only at hc
    cases hcmd : self.m_toolchain.generate_emit_ifc_command (self.emit_args resolved_deps) with
    | none =>
      rw [hcmd] at hc
      simp only [List.mem_append, List.mem_singleton] at hc
      rcases hc with hc | hc
      · exact Or.inl hc
      · rw [hc]
        exact Or.inr rfl
    | some cmd =>
      rw [hcmd] at hc
      simp only [List.mem_append, List.mem_singleton] at hc
      rcases hc with hc | hc
      · exact Or.inl hc
      · rw [hc]
        exact Or.inr rfl

/-- Every request made by `generate_build_plan`, whatever its outcome, carries
the list that `resolve_dependencies` returned. -/
theorem generate_build_plan_calls_resolved (self : ModuleProcessor) :
    ∀ c ∈ self.generate_build_plan.2.calls,
      ∃ resolved, self.resolve_dependencies.1 = some resolved ∧
        c.module_dependencies = resolved := by
  intro c hc
  unfold ModuleProcessor.generate_build_plan at hc
  cases hr : self.resolve_dependencies with
  | mk r err =>
    rw [hr] at hc
    cases r with
    | none => simp at hc
    | some resolved =>
      refine ⟨resolved, rfl, ?_⟩
      simp only at hc
      have k1 := plan_sources_calls self resolved
        "Error: Failed to generate compile command for partition '"
        self.m_module.partitions {} { calls := [], cerr := err }
      cases h1 : self.plan_sources resolved
          "Error: Failed to generate compile command for partition '"
          self.m_module.partitions {} { calls := [], cerr := err } with
      | mk r1 t1 =>
        rw [h1] at hc k1
        have k1b : ∀ c ∈ t1.calls, c.module_dependencies = resolved := by
          intro c hc
          rcases k1 c hc with h | h
          · simp at h
          · exact h
        cases r1 with
        | none => exact k1b c hc
        | some p1 =>
          simp only at hc
          have k2 := plan_interface_calls self resolved p1 t1
          cases h2 : self.plan_interface resolved p1 t1 with
          | mk r2 t2 =>
            rw [h2] at hc k2
            have k2b : ∀ c ∈ t2.calls, c.module_dependencies = resolved := by
              intro c hc
              rcases k2 c hc with h | h
              · exact k1b c h
              · exact h
            cases r2 with
            | none => exact k2b c hc
            | some p2 =>
              simp only at hc
              rcases plan_sources_calls self resolved _ _ p2 t2 c hc with h | h
              · exact k2b c h
              · exact h

/-- C31: every request that `generate_build_plan` makes to the toolchain (for a
partition, the interface or an implementation) carries the same
dependency-reference list: its names are the declared dependencies of the
module, in their iteration order, and each path is the one that the mapping
gives for the name. When a dependency is missing from the mapping no request is
made, so that the statement needs no hypothesis; for the module of test 2A the
four requests each carry the single reference `Core`, `build/Core/Core.ifc`. -/
theorem requests_carry_resolved_dependencies :
    (∀ (self : ModuleProcessor), ∀ c ∈ self.generate_build_plan.2.calls,
      c.module_dependencies.map (fun r => (r.name, some r.ifc_path)) =
        self.m_module.dependencies.map (fun d => (d, self.m_dependency_ifcs.lookup d))) ∧
    test_processor.generate_build_plan.2.calls.map ToolchainCall.module_dependencies =
      [[{ name := "Core", ifc_path := "build/Core/Core.ifc" }],
       [{ name := "Core", ifc_path := "build/Core/Core.ifc" }],
       [{ name := "Core", ifc_path := "build/Core/Core.ifc" }],
       [{ name := "Core", ifc_path := "build/Core/Core.ifc" }]] := by
  refine ⟨?_, by decide⟩
  intro self c hc
  obtain ⟨resolved, hres, hdeps⟩ := generate_build_plan_calls_resolved self c hc
  rw [hdeps]
  unfold ModuleProcessor.resolve_dependencies at hres
  have h := resolve_loop_references self self.m_module.dependencies [] resolved
    (self.resolve_loop self.m_module.dependencies []).2 (by rw [← hres])
  simpa using h

/-- Instance of C31: the emit-interface request of test 2A. -/
theorem requests_carry_resolved_dependencies_witness :
    (ToolchainCall.emit_ifc
        { interface_unit_path := "gfx/graphics.ixx"
          output_ifc_path := "build\\TestGfx\\TestGfx.ifc"
          module_dependencies := [{ name := "Core", ifc_path := "build/Core/Core.ifc" }]
        }).module_dependencies.map (fun r => (r.name, some r.ifc_path)) =
      test_processor.m_module.dependencies.map
        (fun d => (d, test_processor.m_dependency_ifcs.lookup d)) :=
  requests_carry_resolved_dependencies.1 test_processor _ (by decide)

/-! ## The diagnostics of `generate_build_plan` -/

theorem resolve_loop_first_missing (self : ModuleProcessor) (pre post : List String)
    (d : String) (resolved : List ModuleReference)
    (hpre : ∀ x ∈ pre, self.m_dependency_ifcs.lookup x ≠ none)
    (hd : self.m_dependency_ifcs.lookup d = none) :
    self.resolve_loop (pre ++ d :: post) resolved =
      (none, "Error: While resolving dependencies for module '" ++ self.m_module.name ++
        "', could not find the interface file path for compiled module '" ++ d ++ "'.\n") := by
  induction pre generalizing resolved with
  | nil =>
    simp only [List.nil_append]
    unfold ModuleProcessor.resolve_loop
    rw [hd]
  | cons x pre ih =>
    simp only [List.cons_append]
    unfold ModuleProcessor.resolve_loop
    cases hl : self.m_dependency_ifcs.lookup x with
    | none => exact absurd hl (hpre x (List.mem_cons_self _ _))
    | some ifc =>
      simp only
      exact ih _ (fun y hy => hpre y (List.mem_cons_of_mem _ hy))

theorem plan_sources_cerr (self : ModuleProcessor) (resolved_deps : List ModuleReference)
    (error_text : String) (sources : List path) (plan : ModuleBuildPlan) (trace : Trace)
    (trace2 : Trace)
    (h : self.plan_sources resolved_deps error_text sources plan trace = (none, trace2)) :
    ∃ src ∈ sources, trace2.cerr = trace.cerr ++ error_text ++ src ++ "'.\n" := by
  induction sources generalizing plan trace with
  | nil =>
    unfold ModuleProcessor.plan_sources at h
    simp at h
  | cons src rest ih =>
    unfold ModuleProcessor.plan_sources at h
    simp only at h
    cases hc : self.m_toolchain.generate_compile_obj_command
        (self.compile_args resolved_deps src) with
    | none =>
      rw [hc] at h
      have h2 := (Prod.mk.inj h).2
      rw [← h2]
      exact ⟨src, List.mem_cons_self _ _, rfl⟩
    | some cmd =>
      rw [hc] at h
      obtain ⟨s2, hs2, e⟩ := ih _ _ h
      exact ⟨s2, List.mem_cons_of_mem _ hs2, e⟩

theorem plan_interface_cerr (self : ModuleProcessor) (resolved_deps : List ModuleReference)
    (plan : ModuleBuildPlan) (trace : Trace) (trace2 : Trace)
    (h : self.plan_interface resolved_deps plan trace = (none, trace2)) :
    trace2.cerr = trace.cerr ++
      "Error: Failed to generate compile command for primary interface '" ++
      self.m_module.primary_interface ++ "'.\n" := by
  unfold ModuleProcessor.plan_interface at h
  by_cases hI : self.m_module.primary_interface = ""
  · rw [if_pos hI] at h
    simp at h
  · rw [if_neg hI] at h
    simp only at h
    cases hc : self.m_toolchain.generate_emit_ifc_command (self.emit_args resolved_deps) with
    | none =>
      rw [hc] at h
      have h2 := (Prod.mk.inj h).2
      rw [← h2]
    | some cmd =>
      rw [hc] at h
      simp at h

/-- The diagnostic of a plan that fails although every dependency is mapped:
one of the three texts about a request that the toolchain does not support,
followed by the source path. -/
theorem generate_build_plan_unsupported_cerr (self : ModuleProcessor)
    (hdeps : ∀ d ∈ self.m_module.dependencies, self.m_dependency_ifcs.lookup d ≠ none)
    (hnone : self.generate_build_plan.1 = none) :
    ∃ text src,
      text ∈ ["Error: Failed to generate compile command for partition '",
        "Error: Failed to generate compile command for primary interface '",
        "Error: Failed to generate compile command for implementation file '"] ∧
      self.generate_build_plan.2.cerr = text ++ (src ++ "'.\n") := by
  obtain ⟨resolved, hr⟩ := resolve_loop_present self self.m_module.dependencies [] hdeps
  have hres : self.resolve_dependencies = (some resolved, "") := hr
  unfold ModuleProcessor.generate_build_plan at hnone ⊢
  rw [hres] at hnone ⊢
  simp only at hnone ⊢
  cases h1 : self.plan_sources resolved
      "Error: Failed to generate compile command for partition '"
      self.m_module.partitions {} { calls := [], cerr := "" } with
  | mk r1 t1 =>
    rw [h1] at hnone
    cases r1 with
    | none =>
      obtain ⟨src, _, e⟩ := plan_sources_cerr self _ _ _ _ _ _ h1
      refine ⟨_, src, List.mem_cons_self _ _, ?_⟩
      show t1.cerr = _
      rw [e]
      simp [String.append_assoc]
    | some p1 =>
      have hc1 : t1.cerr = "" := (plan_sources_some self _ _ _ _ _ _ _ h1).2.1
      simp only at hnone ⊢
      cases h2 : self.plan_interface resolved p1 t1 with
      | mk r2 t2 =>
        rw [h2] at hnone
        cases r2 with
        | none =>
          have e := plan_interface_cerr self _ _ _ _ h2
          refine ⟨_, self.m_module.primary_interface,
            List.mem_cons_of_mem _ (List.mem_cons_self _ _), ?_⟩
          show t2.cerr = _
          rw [e, hc1]
          simp [String.append_assoc]
        | some p2 =>
          have hc2 : t2.cerr = "" := by
            rw [(plan_interface_some self _ _ _ _ _ h2).2.1, hc1]
          simp only at hnone ⊢
          cases h3 : self.plan_sources resolved
              "Error: Failed to generate compile command for implementation file '"
              self.m_module.implementations p2 t2 with
          | mk r3 t3 =>
            rw [h3] at hnone
            simp only at hnone
            subst hnone
            obtain ⟨src, _, e⟩ := plan_sources_cerr self _ _ _ _ _ _ h3
            refine ⟨_, src,
              List.mem_cons_of_mem _ (List.mem_cons_of_mem _ (List.mem_cons_self _ _)), ?_⟩
            show t3.cerr = _
            rw [e, hc2]
            simp [String.append_assoc]

theorem append_ne_append_of_take (p q x y : String) (n : Nat) (hp : n ≤ p.data.length)
    (hq : n ≤ q.data.length) (h : p.data.take n ≠ q.data.take n) : p ++ x ≠ q ++ y := by
  intro e
  have := congrArg (fun s => s.data.take n) e
  simp only [String.data_append, List.take_append_of_le_length hp,
    List.take_append_of_le_length hq] at this
  exact h this

/-- C32: when the first declared dependency that is missing from the mapping is
`d`, `generate_build_plan` fails and the text it writes to `std::cerr` is the
diagnostic of `resolve_dependencies`, which names the module and `d`, followed by
the line of `generate_build_plan` that names the module; the module name and `d`
occur in the text. A plan that fails although every dependency is mapped (the
toolchain answered `unsupported`) writes one of the three `Failed to generate
compile command` texts followed by the source path, and that text is different,
whatever the processors are. -/
theorem missing_dependency_diagnostic (self : ModuleProcessor) (pre post : List String)
    (d : String) (hdeps : self.m_module.dependencies = pre ++ d :: post)
    (hpre : ∀ x ∈ pre, self.m_dependency_ifcs.lookup x ≠ none)
    (hd : self.m_dependency_ifcs.lookup d = none) :
    self.generate_build_plan.1 = none ∧
    self.generate_build_plan.2.cerr =
      "Error: While resolving dependencies for module '" ++ self.m_module.name ++
        "', could not find the interface file path for compiled module '" ++ d ++ "'.\n" ++
        "Error: Could not resolve some dependencies for module '" ++ self.m_module.name ++
        "'.\n" ∧
    self.m_module.name.data <:+: self.generate_build_plan.2.cerr.data ∧
    d.data <:+: self.generate_build_plan.2.cerr.data ∧
    ∀ other : ModuleProcessor,
      (∀ x ∈ other.m_module.dependencies, other.m_dependency_ifcs.lookup x ≠ none) →
      other.generate_build_plan.1 = none →
      (∃ text src,
        text ∈ ["Error: Failed to generate compile command for partition '",
          "Error: Failed to generate compile command for primary interface '",
          "Error: Failed to generate compile command for implementation file '"] ∧
        other.generate_build_plan.2.cerr = text ++ (src ++ "'.\n")) ∧
      other.generate_build_plan.2.cerr ≠ self.generate_build_plan.2.cerr := by
  have hloop := resolve_loop_first_missing self pre post d [] hpre hd
  have hres : self.resolve_dependencies =
      (none, "Error: While resolving dependencies for module '" ++ self.m_module.name ++
        "', could not find the interface file path for compiled module '" ++ d ++ "'.\n") := by
    unfold ModuleProcessor.resolve_dependencies
    rw [hdeps]
    exact hloop
  have hplan : self.generate_build_plan =
      (none, { calls := [], cerr :=
        "Error: While resolving dependencies for module '" ++ self.m_module.name ++
        "', could not find the interface file path for compiled module '" ++ d ++ "'.\n" ++
        "Error: Could not resolve some dependencies for module '" ++ self.m_module.name ++
        "'.\n" }) := by
    unfold ModuleProcessor.generate_build_plan
    rw [hres]
  rw [hplan]
  refine ⟨rfl, rfl, ?_, ?_, ?_⟩
  · refine ⟨"Error: While resolving dependencies for module '".data,
      ("', could not find the interface file path for compiled module '" ++ d ++ "'.\n" ++
        "Error: Could not resolve some dependencies for module '" ++ self.m_module.name ++
        "'.\n").data, ?_⟩
    simp only [String.data_append, List.append_assoc]
  · refine ⟨("Error: While resolving dependencies for module '" ++ self.m_module.name ++
        "', could not find the interface file path for compiled module '").data,
      ("'.\n" ++ "Error: Could not resolve some dependencies for module '" ++
        self.m_module.name ++ "'.\n").data, ?_⟩
    simp only [String.data_append, List.append_assoc]
  · intro other hother hnone
    obtain ⟨text, src, htext, hcerr⟩ := generate_build_plan_unsupported_cerr other hother hnone
    refine ⟨⟨text, src, htext, hcerr⟩, ?_⟩
    rw [hcerr]
    simp only [String.append_assoc]
    simp only [List.mem_cons, List.not_mem_nil, or_false] at htext
    rcases htext with rfl | rfl | rfl <;>
      exact append_ne_append_of_take _ _ _ _ 8 (by decide) (by decide) (by decide)

/-- Instance of C32: the module of test 2A planned with an empty mapping, and
the diagnostic of the same module planned with a toolchain that does not support
the emit-interface request. -/
theorem missing_dependency_diagnostic_witness :
    (ModuleProcessor.construct test_module MockToolchain "build" []).generate_build_plan.2.cerr =
      "Error: While resolving dependencies for module 'TestGfx', could not find the interface file path for compiled module 'Core'.\nError: Could not resolve some dependencies for module 'TestGfx'.\n" ∧
    no_interface_processor.generate_build_plan.2.cerr ≠
      (ModuleProcessor.construct test_module MockToolchain "build" []).generate_build_plan.2.cerr :=
  have h := missing_dependency_diagnostic
    (ModuleProcessor.construct test_module MockToolchain "build" []) [] [] "Core"
    (by decide) (by simp) (by decide)
  ⟨h.2.1, (h.2.2.2.2 no_interface_processor (by decide) (by decide)).2⟩

/-! ## Producer and consumer of the Clang-style interface artifact -/

theorem getElem?_append_add (o r : List String) (j : Nat) :
    (o ++ r)[o.length + j]? = r[j]? := by
  rw [List.getElem?_append_right (Nat.le_add_right _ _), Nat.add_sub_cancel_left]

theorem clang_emit_arguments (self : ClangToolchain) (args : EmitIFCArgs) (cmd : Command)
    (h : self.generate_emit_ifc_command args = some cmd) :
    cmd.arguments =
      add_common_clang_compile_options [] self.m_config ++
        (["--precompile", "-x", "c++-module", args.interface_unit_path, "-o",
            args.output_ifc_path.replace_extension ".pcm"] ++
          args.module_dependencies.map
            (fun d => "-fmodule-file=" ++ d.name ++ "=" ++
              d.ifc_path.replace_extension ".pcm")) := by
  unfold ClangToolchain.generate_emit_ifc_command at h
  simp only [Option.some.injEq] at h
  rw [← h]
  simp only [clang_push_module_files_eq, List.append_assoc, List.cons_append, List.nil_append]

theorem clang_compile_arguments (self : ClangToolchain) (args : CompileObjectArgs)
    (cmd : Command) (h : self.generate_compile_obj_command args = some cmd) :
    cmd.arguments =
      add_common_clang_compile_options [] self.m_config ++
        (["-c", args.source_file, "-o", args.output_obj_path] ++
          args.module_dependencies.map
            (fun d => "-fmodule-file=" ++ d.name ++ "=" ++
              d.ifc_path.replace_extension ".pcm")) := by
  unfold ClangToolchain.generate_compile_obj_command at h
  simp only [Option.some.injEq] at h
  rw [← h]
  simp only [clang_push_module_files_eq, List.append_assoc, List.cons_append, List.nil_append]

/-- C36: for the Clang-style toolchain and every interface path `P`, the
emit-interface command for the output `P` has `-o` right after the source path
and after it the path `out`, which is `P` with its extension replaced by `.pcm`;
and in the compile-object and the emit-interface command of a consumer, the
argument generated for a dependency `name` whose `ifc_path` is `P` (at the place
of the dependency in the list) is `-fmodule-file=name=out` with the same `out`. -/
theorem clang_producer_consumer_agree (self : ClangToolchain) (P source : path)
    (producer_deps : List ModuleReference) (name : String)
    (consumer_source consumer_output : path) (before after : List ModuleReference) :
    ∃ producer consumer_compile consumer_emit out,
      self.generate_emit_ifc_command
        { interface_unit_path := source, output_ifc_path := P,
          module_dependencies := producer_deps } = some producer ∧
      self.generate_compile_obj_command
        { source_file := consumer_source, output_obj_path := consumer_output,
          module_dependencies := before ++ { name := name, ifc_path := P } :: after }
        = some consumer_compile ∧
      self.generate_emit_ifc_command
        { interface_unit_path := consumer_source, output_ifc_path := consumer_output,
          module_dependencies := before ++ { name := name, ifc_path := P } :: after }
        = some consumer_emit ∧
      out = P.replace_extension ".pcm" ∧
      producer.arguments[(add_common_clang_compile_options [] self.m_config).length + 3]? =
        some source ∧
      producer.arguments[(add_common_clang_compile_options [] self.m_config).length + 4]? =
        some "-o" ∧
      producer.arguments[(add_common_clang_compile_options [] self.m_config).length + 5]? =
        some out ∧
      consumer_compile.arguments[
          (add_common_clang_compile_options [] self.m_config).length + (4 + before.length)]? =
        some ("-fmodule-file=" ++ name ++ "=" ++ out) ∧
      consumer_emit.arguments[
          (add_common_clang_compile_options [] self.m_config).length + (6 + before.length)]? =
        some ("-fmodule-file=" ++ name ++ "=" ++ out) := by
  refine ⟨_, _, _, _, rfl, rfl, rfl, rfl, ?_, ?_, ?_, ?_, ?_⟩
  · rw [clang_emit_arguments self _ _ rfl, getElem?_append_add]
    simp
  · rw [clang_emit_arguments self _ _ rfl, getElem?_append_add]
    simp
  · rw [clang_emit_arguments self _ _ rfl, getElem?_append_add]
    simp
  · rw [clang_compile_arguments self _ _ rfl, getElem?_append_add]
    have h4 : (["-c", consumer_source, "-o", consumer_output] : List String).length = 4 := rfl
    rw [← h4, getElem?_append_add, List.map_append,
      List.getElem?_append_right (by simp)]
    simp
  · rw [clang_emit_arguments self _ _ rfl, getElem?_append_add]
    have h6 : (["--precompile", "-x", "c++-module", consumer_source, "-o",
        consumer_output.replace_extension ".pcm"] : List String).length = 6 := rfl
    rw [← h6, getElem?_append_add, List.map_append,
      List.getElem?_append_right (by simp)]
    simp

/-! ## The object paths recorded with the actions -/

/-- The action of a complete plan at the index of a request: the command that
the toolchain returned for the request, with the output path requested. -/
theorem plan_action_at (self : ModuleProcessor) (plan : ModuleBuildPlan) (trace : Trace)
    (h : self.generate_build_plan = (some plan, trace)) (k : Nat) (call : ToolchainCall)
    (hk : trace.calls[k]? = some call) :
    ∃ action, plan.actions[k]? = some action ∧
      self.m_toolchain.respond call = some action.command ∧
      action.expected_output_path = call.output_path := by
  obtain ⟨_, _, _, hact, _, _, _⟩ := generate_build_plan_some self plan trace h
  have hmap := congrArg (fun l => l[k]?) hact
  simp only [List.getElem?_map, hk, Option.map_some'] at hmap
  cases ha : plan.actions[k]? with
  | none =>
    rw [ha] at hmap
    simp at hmap
  | some action =>
    rw [ha] at hmap
    simp only [Option.map_some', Option.some.injEq, IToolchain.action_of] at hmap
    cases hc : self.m_toolchain.respond call with
    | none =>
      rw [hc] at hmap
      simp at hmap
    | some cmd =>
      rw [hc] at hmap
      simp only [Option.map_some', Option.some.injEq] at hmap
      refine ⟨action, rfl, ?_, ?_⟩
      · rw [hmap]
      · rw [hmap]

/-- C37: in every plan that `generate_build_plan` returns, `generated_obj_paths`
is as long as `actions`; the action at the index of a partition (`i`) or of an
implementation (after the partitions and the interface, when there is one) is
the command that the toolchain returned for the compile-object request of that
source, the object path recorded at the same index is the expected-output path
of the action, and that path is the build root joined with the module name and
with the file name of the source, its extension replaced by `.obj`: when the
module name is a plain component and the file name does not start with a drive,
the pathname is the build root, a separator unless the root ends with one, the
module name, `\`, the stem of the source and `.obj`. -/
theorem generated_obj_paths_match_actions (unit : ModuleUnit) (toolchain : IToolchain)
    (build_dir : path) (ifcs : List (String × path)) (plan : ModuleBuildPlan)
    (h : (ModuleProcessor.construct unit toolchain build_dir ifcs).generate_build_plan.1
      = some plan) :
    plan.generated_obj_paths.length = plan.actions.length ∧
    ∀ (k : Nat) (src : path),
      ((k < unit.partitions.length ∧ unit.partitions[k]? = some src) ∨
        ∃ j, unit.implementations[j]? = some src ∧
          k = unit.partitions.length + (if unit.primary_interface = "" then 0 else 1) + j) →
      ∃ action resolved,
        plan.actions[k]? = some action ∧
        toolchain.generate_compile_obj_command
          { source_file := src
            output_obj_path :=
              (build_dir.append unit.name).append (src.filename.replace_extension ".obj")
            module_dependencies := resolved } = some action.command ∧
        plan.generated_obj_paths[k]? = some action.expected_output_path ∧
        action.expected_output_path =
          (build_dir.append unit.name).append (src.filename.replace_extension ".obj") ∧
        (plain_component unit.name → starts_with_drive src.filename.data = false →
          action.expected_output_path =
            build_dir ++ (if build_dir.needs_separator then "\\" else "") ++ unit.name ++
              "\\" ++ (src.stem ++ ".obj")) := by
  have hg : (ModuleProcessor.construct unit toolchain build_dir ifcs).generate_build_plan =
      (some plan, (ModuleProcessor.construct unit toolchain build_dir ifcs).generate_build_plan.2)
      := by
    rw [← h]
  have hplain : ∀ src : path, plain_component unit.name →
      starts_with_drive src.filename.data = false →
      (ModuleProcessor.construct unit toolchain build_dir ifcs).get_obj_path_for_source src =
        build_dir ++ (if build_dir.needs_separator then "\\" else "") ++ unit.name ++
          "\\" ++ (src.stem ++ ".obj") :=
    fun src hp hd => get_obj_path_for_source_plain unit toolchain build_dir ifcs src hp hd
  generalize hself : ModuleProcessor.construct unit toolchain build_dir ifcs = self at hg hplain
  have hunit : self.m_module = unit := by rw [← hself]; rfl
  have htool : self.m_toolchain = toolchain := by rw [← hself]; rfl
  have hdir : self.m_module_artifact_dir = build_dir.append unit.name := by rw [← hself]; rfl
  obtain ⟨resolved, _, hcalls, hact, hobj, _, _⟩ :=
    generate_build_plan_some self plan _ hg
  rw [hunit] at hcalls hobj
  constructor
  · have hlen := congrArg List.length hact
    rw [List.length_map, List.length_map, hcalls] at hlen
    rw [hlen, hobj]
    by_cases hI : unit.primary_interface = "" <;> simp [hI]
  · intro k src hk
    have hcall : self.generate_build_plan.2.calls[k]? =
        some (ToolchainCall.compile_obj (self.compile_args resolved src)) ∧
        plan.generated_obj_paths[k]? = some (self.get_obj_path_for_source src) := by
      rw [hcalls, hobj]
      rcases hk with ⟨hlt, hk⟩ | ⟨j, hj, rfl⟩
      · rw [List.append_assoc, List.append_assoc,
          List.getElem?_append_left (by simpa using hlt),
          List.getElem?_append_left (by simpa using hlt)]
        simp [hk]
      · constructor
        · rw [List.getElem?_append_right (by
            by_cases hI : unit.primary_interface = "" <;> simp [hI])]
          by_cases hI : unit.primary_interface = "" <;> simp [hI, hj]
        · rw [List.getElem?_append_right (by
            by_cases hI : unit.primary_interface = "" <;> simp [hI])]
          by_cases hI : unit.primary_interface = "" <;> simp [hI, hj]
    obtain ⟨action, ha, hresp, hout⟩ := plan_action_at self plan _ hg k _ hcall.1
    have hop : (ToolchainCall.compile_obj (self.compile_args resolved src)).output_path =
        self.get_obj_path_for_source src := by
      unfold ToolchainCall.output_path ModuleProcessor.compile_args
      simp only
    rw [hop] at hout
    have hpath : self.get_obj_path_for_source src =
        (build_dir.append unit.name).append (src.filename.replace_extension ".obj") := by
      unfold ModuleProcessor.get_obj_path_for_source
      rw [hdir]
    have hargs : self.compile_args resolved src =
        { source_file := src
          output_obj_path :=
            (build_dir.append unit.name).append (src.filename.replace_extension ".obj")
          module_dependencies := resolved } := by
      unfold ModuleProcessor.compile_args
      rw [hpath]
    refine ⟨action, resolved, ha, ?_, ?_, ?_, ?_⟩
    · rw [← htool, ← hargs]
      exact hresp
    · rw [hcall.2, hout]
    · rw [hout, hpath]
    · intro hp hd
      rw [hout]
      exact hplain src hp hd

/-- Instance of C37: the plan of test 2A and its implementation `gfx/utils.cpp`,
at index 3 of the plan; spelled `gfx\utils.cpp`, the source has the same derived
object path. -/
theorem generated_obj_paths_match_actions_witness :
    (ModuleProcessor.construct test_module MockToolchain "build"
        test_dependency_ifcs).get_obj_path_for_source "gfx\\utils.cpp" =
      "build\\TestGfx\\utils.obj" ∧
    test_plan.generated_obj_paths[3]? = some "build\\TestGfx\\utils.obj" ∧
    test_plan.generated_obj_paths.length = test_plan.actions.length ∧
    ∃ action resolved,
      test_plan.actions[3]? = some action ∧
      MockToolchain.generate_compile_obj_command
        { source_file := "gfx/utils.cpp"
          output_obj_path :=
            (path.append "build" test_module.name).append
              (path.replace_extension (path.filename "gfx/utils.cpp") ".obj")
          module_dependencies := resolved } = some action.command ∧
      test_plan.generated_obj_paths[3]? = some action.expected_output_path ∧
      action.expected_output_path =
        (path.append "build" test_module.name).append
          (path.replace_extension (path.filename "gfx/utils.cpp") ".obj") ∧
      (plain_component test_module.name →
        starts_with_drive (path.filename "gfx/utils.cpp").data = false →
        action.expected_output_path =
          "build" ++ (if path.needs_separator "build" then "\\" else "") ++ test_module.name ++
            "\\" ++ (path.stem "gfx/utils.cpp" ++ ".obj")) :=
  have h := generated_obj_paths_match_actions test_module MockToolchain "build"
    test_dependency_ifcs test_plan (by decide)
  ⟨by decide, by decide, h.1, h.2 3 "gfx/utils.cpp" (Or.inr ⟨0, by decide, by decide⟩)⟩

/-! ## Properties of `to_clangxx_incdefs` -/

theorem eq_of_starts_with_of_short (t flag : String) (h : starts_with t flag = true)
    (hlen : t.data.length ≤ flag.data.length) : t = flag := by
  unfold starts_with at h
  have hp : flag.data <+: t.data := List.isPrefixOf_iff_prefix.1 h
  have hle := hp.length_le
  exact String.ext (hp.eq_of_length (by omega)).symm

theorem incdefs_step_token (args : List String) (fuel i : Nat) (out : List String)
    (t : String) (ht : args[i]? = some t) (hI : t ≠ "/I") (hD : t ≠ "/D") :
    to_clangxx_incdefs_loop args (fuel + 1) i out =
      to_clangxx_incdefs_loop args fuel (i + 1) (out ++ incdefs_token t) := by
  rw [to_clangxx_incdefs_loop]
  simp only [ht, incdefs_token]
  by_cases h1 : starts_with t "/I" = true
  · have hlen : t.data.length > 2 := by
      by_contra hc
      exact hI (eq_of_starts_with_of_short t "/I" h1 (by
        have : ("/I" : String).data.length = 2 := by decide
        omega))
    simp only [if_pos h1, if_pos hlen]
  · by_cases h2 : starts_with t "/D" = true
    · have hlen : t.data.length > 2 := by
        by_contra hc
        exact hD (eq_of_starts_with_of_short t "/D" h2 (by
          have : ("/D" : String).data.length = 2 := by decide
          omega))
      simp only [if_neg h1, if_pos h2, if_pos hlen]
    · by_cases h3 : (starts_with t "-I" || starts_with t "-D") = true
      · simp only [if_neg h1, if_neg h2, if_pos h3]
      · simp only [if_neg h1, if_neg h2, if_neg h3, List.append_nil]

theorem incdefs_step_bare (args : List String) (fuel i : Nat) (out : List String) :
    (args[i]? = some "/I" → ∀ next, args[i + 1]? = some next →
      to_clangxx_incdefs_loop args (fuel + 1) i out =
        to_clangxx_incdefs_loop args fuel (i + 2) (out ++ ["-I" ++ next])) ∧
    (args[i]? = some "/D" → ∀ next, args[i + 1]? = some next →
      to_clangxx_incdefs_loop args (fuel + 1) i out =
        to_clangxx_incdefs_loop args fuel (i + 2) (out ++ ["-D" ++ next])) ∧
    (args[i]? = some "/I" ∨ args[i]? = some "/D" → args[i + 1]? = none →
      to_clangxx_incdefs_loop args (fuel + 1) i out = .read_past_end (i + 1)) := by
  have a1 : starts_with "/I" "/I" = true := by decide
  have a2 : ¬ ("/I" : String).data.length > 2 := by decide
  have b0 : ¬ starts_with "/D" "/I" = true := by decide
  have b1 : starts_with "/D" "/D" = true := by decide
  have b2 : ¬ ("/D" : String).data.length > 2 := by decide
  refine ⟨?_, ?_, ?_⟩
  · intro ht next hn
    rw [to_clangxx_incdefs_loop]
    simp only [ht, hn, if_pos a1, if_neg a2]
  · intro ht next hn
    rw [to_clangxx_incdefs_loop]
    simp only [ht, hn, if_neg b0, if_pos b1, if_neg b2]
  · intro ht hn
    rw [to_clangxx_incdefs_loop]
    rcases ht with ht | ht
    · simp only [ht, hn, if_pos a1, if_neg a2]
    · simp only [ht, hn, if_neg b0, if_pos b1, if_neg b2]

theorem sibling_step_token (input : List String) (fuel i : Nat) (out : List String)
    (t : String) (ht : input[i]? = some t) (hI : t ≠ "/I") (hD : t ≠ "/D") :
    convert_compile_commands.to_clangxx_incdefs_loop input (fuel + 1) i out =
      convert_compile_commands.to_clangxx_incdefs_loop input fuel (i + 1)
        (out ++ incdefs_token t) := by
  rw [convert_compile_commands.to_clangxx_incdefs_loop]
  simp only [ht, incdefs_token]
  by_cases h1 : starts_with t "/I" = true
  · have hlen : t.data.length > 2 := by
      by_contra hc
      exact hI (eq_of_starts_with_of_short t "/I" h1 (by
        have : ("/I" : String).data.length = 2 := by decide
        omega))
    simp only [if_pos h1, if_pos hlen]
  · by_cases h2 : starts_with t "/D" = true
    · have hlen : t.data.length > 2 := by
        by_contra hc
        exact hD (eq_of_starts_with_of_short t "/D" h2 (by
          have : ("/D" : String).data.length = 2 := by decide
          omega))
      simp only [if_neg h1, if_pos h2, if_pos hlen]
    · by_cases h3 : (starts_with t "-I" || starts_with t "-D") = true
      · simp only [if_neg h1, if_neg h2, if_pos h3]
      · simp only [if_neg h1, if_neg h2, if_neg h3, List.append_nil]

theorem sibling_step_bare (input : List String) (fuel i : Nat) (out : List String) :
    (input[i]? = some "/I" → ∀ next, input[i + 1]? = some next →
      convert_compile_commands.to_clangxx_incdefs_loop input (fuel + 1) i out =
        convert_compile_commands.to_clangxx_incdefs_loop input fuel (i + 2)
          (out ++ ["-I" ++ next])) ∧
    (input[i]? = some "/D" → ∀ next, input[i + 1]? = some next →
      convert_compile_commands.to_clangxx_incdefs_loop input (fuel + 1) i out =
        convert_compile_commands.to_clangxx_incdefs_loop input fuel (i + 2)
          (out ++ ["-D" ++ next])) ∧
    (input[i]? = some "/I" ∨ input[i]? = some "/D" → input[i + 1]? = none →
      convert_compile_commands.to_clangxx_incdefs_loop input (fuel + 1) i out =
        convert_compile_commands.to_clangxx_incdefs_loop input fuel (i + 1) out) := by
  have a1 : starts_with "/I" "/I" = true := by decide
  have a2 : ¬ ("/I" : String).data.length > 2 := by decide
  have b0 : ¬ starts_with "/D" "/I" = true := by decide
  have b1 : starts_with "/D" "/D" = true := by decide
  have b2 : ¬ ("/D" : String).data.length > 2 := by decide
  refine ⟨?_, ?_, ?_⟩
  · intro ht next hn
    rw [convert_compile_commands.to_clangxx_incdefs_loop]
    simp only [ht, hn, if_pos a1, if_neg a2]
  · intro ht next hn
    rw [convert_compile_commands.to_clangxx_incdefs_loop]
    simp only [ht, hn, if_neg b0, if_pos b1, if_neg b2]
  · intro ht hn
    rw [convert_compile_commands.to_clangxx_incdefs_loop]
    rcases ht with ht | ht
    · simp only [ht, hn, if_pos a1, if_neg a2]
    · simp only [ht, hn, if_neg b0, if_pos b1, if_neg b2]

theorem incdefs_spec_token (t : String) (rest : List String) (hI : t ≠ "/I") (hD : t ≠ "/D") :
    incdefs_spec (t :: rest) = incdefs_token t ++ incdefs_spec rest := by
  cases rest with
  | nil =>
    simp [incdefs_spec, hI, hD]
  | cons next rest =>
    simp [incdefs_spec, hI, hD]

theorem getLast?_tail_ne (t : String) (rest : List String) (x : String)
    (h : (t :: rest).getLast? ≠ some x) : rest.getLast? ≠ some x := by
  cases rest with
  | nil => simp
  | cons c r => rwa [List.getLast?_cons_cons] at h

theorem getElem?_split (pre : List String) (t : String) (rest : List String) :
    (pre ++ t :: rest)[pre.length]? = some t ∧
      (pre ++ t :: rest)[pre.length + 1]? = rest.head? := by
  constructor
  · have h := getElem?_append_add pre (t :: rest) 0
    rw [Nat.add_zero] at h
    rw [h]
    simp
  · rw [getElem?_append_add]
    cases rest <;> simp

theorem incdefs_loop_end (args : List String) (fuel i : Nat) (out : List String)
    (h : args[i]? = none) : to_clangxx_incdefs_loop args fuel i out = .returned out := by
  rw [to_clangxx_incdefs_loop]
  simp only [h]

theorem sibling_loop_end (input : List String) (fuel i : Nat) (out : List String)
    (h : input[i]? = none) :
    convert_compile_commands.to_clangxx_incdefs_loop input fuel i out = some out := by
  rw [convert_compile_commands.to_clangxx_incdefs_loop]
  simp only [h]

/-- The loop of `impa_converter.hpp` from the end of `pre` on, when the last
element of what remains is not a bare `/I` or `/D`. -/
theorem incdefs_loop_spec (fuel : Nat) (pre suf out : List String) (hfuel : suf.length ≤ fuel)
    (hI : suf.getLast? ≠ some "/I") (hD : suf.getLast? ≠ some "/D") :
    to_clangxx_incdefs_loop (pre ++ suf) fuel pre.length out =
      .returned (out ++ incdefs_spec suf) := by
  induction fuel generalizing pre suf out with
  | zero =>
    have hnil : suf = [] := List.length_eq_zero.1 (Nat.le_zero.1 hfuel)
    subst hnil
    rw [incdefs_loop_end _ _ _ _ (by simp)]
    simp [incdefs_spec]
  | succ fuel ih =>
    cases suf with
    | nil =>
      rw [incdefs_loop_end _ _ _ _ (by simp)]
      simp [incdefs_spec]
    | cons t rest =>
      obtain ⟨h0, h1⟩ := getElem?_split pre t rest
      have hlen : rest.length ≤ fuel := by
        simp only [List.length_cons] at hfuel
        omega
      by_cases htI : t = "/I"
      · subst htI
        cases rest with
        | nil => simp at hI
        | cons next rest =>
          have e : pre ++ "/I" :: next :: rest = (pre ++ ["/I", next]) ++ rest := by simp
          have l : pre.length + 2 = (pre ++ ["/I", next]).length := by simp
          rw [(incdefs_step_bare _ fuel _ out).1 h0 next h1, e, l,
            ih _ rest _ (by simp only [List.length_cons] at hlen; omega)
              (getLast?_tail_ne _ _ _ (getLast?_tail_ne _ _ _ hI))
              (getLast?_tail_ne _ _ _ (getLast?_tail_ne _ _ _ hD))]
          simp [incdefs_spec]
      · by_cases htD : t = "/D"
        · subst htD
          cases rest with
          | nil => simp at hD
          | cons next rest =>
            have e : pre ++ "/D" :: next :: rest = (pre ++ ["/D", next]) ++ rest := by simp
            have l : pre.length + 2 = (pre ++ ["/D", next]).length := by simp
            rw [(incdefs_step_bare _ fuel _ out).2.1 h0 next h1, e, l,
              ih _ rest _ (by simp only [List.length_cons] at hlen; omega)
                (getLast?_tail_ne _ _ _ (getLast?_tail_ne _ _ _ hI))
                (getLast?_tail_ne _ _ _ (getLast?_tail_ne _ _ _ hD))]
            have hne : ("/D" : String) ≠ "/I" := by decide
            simp [incdefs_spec, hne]
        · have e : pre ++ t :: rest = (pre ++ [t]) ++ rest := by simp
          have l : pre.length + 1 = (pre ++ [t]).length := by simp
          rw [incdefs_step_token _ fuel _ out t h0 htI htD, e, l,
            ih _ rest _ hlen (getLast?_tail_ne _ _ _ hI) (getLast?_tail_ne _ _ _ hD),
            incdefs_spec_token t rest htI htD, List.append_assoc]

/-- The loop of `convert_compile_commands.cpp` from the end of `pre` on. -/
theorem sibling_loop_spec (fuel : Nat) (pre suf out : List String) (hfuel : suf.length ≤ fuel) :
    convert_compile_commands.to_clangxx_incdefs_loop (pre ++ suf) fuel pre.length out =
      some (out ++ incdefs_spec suf) := by
  induction fuel generalizing pre suf out with
  | zero =>
    have hnil : suf = [] := List.length_eq_zero.1 (Nat.le_zero.1 hfuel)
    subst hnil
    rw [sibling_loop_end _ _ _ _ (by simp)]
    simp [incdefs_spec]
  | succ fuel ih =>
    cases suf with
    | nil =>
      rw [sibling_loop_end _ _ _ _ (by simp)]
      simp [incdefs_spec]
    | cons t rest =>
      obtain ⟨h0, h1⟩ := getElem?_split pre t rest
      have hlen : rest.length ≤ fuel := by
        simp only [List.length_cons] at hfuel
        omega
      by_cases htI : t = "/I"
      · subst htI
        cases rest with
        | nil =>
          rw [(sibling_step_bare _ fuel _ out).2.2 (Or.inl h0) h1,
            sibling_loop_end _ _ _ _ (by simp)]
          simp [incdefs_spec]
        | cons next rest =>
          have e : pre ++ "/I" :: next :: rest = (pre ++ ["/I", next]) ++ rest := by simp
          have l : pre.length + 2 = (pre ++ ["/I", next]).length := by simp
          rw [(sibling_step_bare _ fuel _ out).1 h0 next h1, e, l,
            ih _ rest _ (by simp only [List.length_cons] at hlen; omega)]
          simp [incdefs_spec]
      · by_cases htD : t = "/D"
        · subst htD
          cases rest with
          | nil =>
            rw [(sibling_step_bare _ fuel _ out).2.2 (Or.inr h0) h1,
              sibling_loop_end _ _ _ _ (by simp)]
            simp [incdefs_spec]
          | cons next rest =>
            have e : pre ++ "/D" :: next :: rest = (pre ++ ["/D", next]) ++ rest := by simp
            have l : pre.length + 2 = (pre ++ ["/D", next]).length := by simp
            rw [(sibling_step_bare _ fuel _ out).2.1 h0 next h1, e, l,
              ih _ rest _ (by simp only [List.length_cons] at hlen; omega)]
            have hne : ("/D" : String) ≠ "/I" := by decide
            simp [incdefs_spec, hne]
        · have e : pre ++ t :: rest = (pre ++ [t]) ++ rest := by simp
          have l : pre.length + 1 = (pre ++ [t]).length := by simp
          rw [sibling_step_token _ fuel _ out t h0 htI htD, e, l, ih _ rest _ hlen,
            incdefs_spec_token t rest htI htD, List.append_assoc]

/-- The loop of `impa_converter.hpp` never exhausts its bound: it returns, or it
reads the element one past the end. -/
theorem incdefs_loop_total (fuel : Nat) (pre suf out : List String) (hfuel : suf.length ≤ fuel) :
    (∃ r, to_clangxx_incdefs_loop (pre ++ suf) fuel pre.length out = .returned r) ∨
      to_clangxx_incdefs_loop (pre ++ suf) fuel pre.length out =
        .read_past_end (pre ++ suf).length := by
  induction fuel generalizing pre suf out with
  | zero =>
    have hnil : suf = [] := List.length_eq_zero.1 (Nat.le_zero.1 hfuel)
    subst hnil
    exact Or.inl ⟨out, incdefs_loop_end _ _ _ _ (by simp)⟩
  | succ fuel ih =>
    cases suf with
    | nil => exact Or.inl ⟨out, incdefs_loop_end _ _ _ _ (by simp)⟩
    | cons t rest =>
      obtain ⟨h0, h1⟩ := getElem?_split pre t rest
      have hlen : rest.length ≤ fuel := by
        simp only [List.length_cons] at hfuel
        omega
      by_cases hbare : t = "/I" ∨ t = "/D"
      · cases rest with
        | nil =>
          right
          have h0b : (pre ++ [t])[pre.length]? = some "/I" ∨
              (pre ++ [t])[pre.length]? = some "/D" := by
            rcases hbare with h | h
            · exact Or.inl (by rw [h0, h])
            · exact Or.inr (by rw [h0, h])
          rw [(incdefs_step_bare _ fuel _ out).2.2 h0b h1]
          simp
        | cons next rest =>
          have e : pre ++ t :: next :: rest = (pre ++ [t, next]) ++ rest := by simp
          have l : pre.length + 2 = (pre ++ [t, next]).length := by simp
          have hlen2 : rest.length ≤ fuel := by
            simp only [List.length_cons] at hlen
            omega
          rcases hbare with h | h
          · subst h
            rw [(incdefs_step_bare _ fuel _ out).1 h0 next h1, e, l]
            exact ih _ rest _ hlen2
          · subst h
            rw [(incdefs_step_bare _ fuel _ out).2.1 h0 next h1, e, l]
            exact ih _ rest _ hlen2
      · have htI : t ≠ "/I" := fun h => hbare (Or.inl h)
        have htD : t ≠ "/D" := fun h => hbare (Or.inr h)
        have e : pre ++ t :: rest = (pre ++ [t]) ++ rest := by simp
        have l : pre.length + 1 = (pre ++ [t]).length := by simp
        rw [incdefs_step_token _ fuel _ out t h0 htI htD, e, l]
        exact ih _ rest _ hlen

/-- C38 fails on the code: `to_clangxx_incdefs` of `impa_converter.hpp` either
returns or reads `args[args.size()]`, and it does read that element, which is
not an element of the vector, when a bare `/I` or `/D` is the last element that
the loop reaches: for `["/I"]` and `["/D"]` it reads index 1, for
`["/Iinc", "-DX", "/I"]` index 3. The function of the same name in
`convert_compile_commands.cpp` tests the index first and returns
`["-Iinc", "-DX"]` for that last list. -/
theorem to_clangxx_incdefs_reads_past_end :
    (∀ args : List String, (∃ out, to_clangxx_incdefs args = .returned out) ∨
      to_clangxx_incdefs args = .read_past_end args.length) ∧
    to_clangxx_incdefs ["/I"] = .read_past_end ["/I"].length ∧
    to_clangxx_incdefs ["/D"] = .read_past_end ["/D"].length ∧
    to_clangxx_incdefs ["/Iinc", "-DX", "/I"] =
      .read_past_end ["/Iinc", "-DX", "/I"].length ∧
    convert_compile_commands.to_clangxx_incdefs ["/Iinc", "-DX", "/I"] =
      some ["-Iinc", "-DX"] := by
  refine ⟨?_, by decide, by decide, by decide, by decide⟩
  intro args
  exact incdefs_loop_total args.length [] args [] (Nat.le_refl _)

/-- C39: for every argument list whose last element is not a bare `/I` or `/D`,
`to_clangxx_incdefs` of `impa_converter.hpp` (the function that `impa_gen.cpp`
calls) returns, and it returns the list that the function of the same name in
`convert_compile_commands.cpp` returns, which is the list of the specification:
`/Ix` and `/Dx` become `-Ix` and `-Dx`, a bare `/I` or `/D` is joined with the
token that follows, tokens `-I...` and `-D...` are kept and every other token is
dropped. -/
theorem to_clangxx_incdefs_agree (args : List String)
    (hI : args.getLast? ≠ some "/I") (hD : args.getLast? ≠ some "/D") :
    to_clangxx_incdefs args = .returned (incdefs_spec args) ∧
    convert_compile_commands.to_clangxx_incdefs args = some (incdefs_spec args) := by
  constructor
  · have h := incdefs_loop_spec args.length [] args [] (Nat.le_refl _) hI hD
    simpa [to_clangxx_incdefs] using h
  · have h := sibling_loop_spec args.length [] args [] (Nat.le_refl _)
    simpa [convert_compile_commands.to_clangxx_incdefs] using h

/-- Instance of C39: defines and include directories in both spellings, a bare
`/D` and a bare `/I` each followed by its value, and a token that is dropped. -/
theorem to_clangxx_incdefs_agree_witness :
    incdefs_spec ["/Iinc", "/D", "X", "-DY", "/W4", "/I", "dir", "-Isrc"] =
      ["-Iinc", "-DX", "-DY", "-Idir", "-Isrc"] ∧
    to_clangxx_incdefs ["/Iinc", "/D", "X", "-DY", "/W4", "/I", "dir", "-Isrc"] =
      .returned (incdefs_spec ["/Iinc", "/D", "X", "-DY", "/W4", "/I", "dir", "-Isrc"]) ∧
    convert_compile_commands.to_clangxx_incdefs
        ["/Iinc", "/D", "X", "-DY", "/W4", "/I", "dir", "-Isrc"] =
      some (incdefs_spec ["/Iinc", "/D", "X", "-DY", "/W4", "/I", "dir", "-Isrc"]) :=
  ⟨by decide,
    to_clangxx_incdefs_agree ["/Iinc", "/D", "X", "-DY", "/W4", "/I", "dir", "-Isrc"]
      (by decide) (by decide)⟩

end Importa
